import Mathlib

/-!
# CAN shared-memory store: embedding and verified properties

A shallow embedding of the C sources `can_shm_types.h`, `can_shm_api.c`,
`can_shm_linear_probing.c`, `can_perfect_hash_demo.h` and
`can_shm_perfect_hash.c`.

Modelling conventions.

* Machine integers are natural numbers; a store into a `uint32_t` or `uint64_t`
  counter is reduced modulo `2 ^ 32` or `2 ^ 64`.
* The state `Sys` is what one process sees: the mapped region
  (`SharedMemoryLayout`) and the file-level variables of the three C files.
* Operations are executed one at a time, so `pthread_mutex_lock` on a mutex
  set up by `can_shm_init` returns 0 and the `CAN_SHM_ERROR_MUTEX_FAILED`
  returns guarded by it are not taken; `pthread_mutex_init` succeeds as well.
* `get_timestamp_ns` reads a clock: every operation takes the values it
  returns as arguments.
* A `const uint8_t*` argument is `Option (List Nat)`: `none` is `NULL`,
  `some buf` points at the bytes of `buf`.  An output pointer `CANData*` is
  `Option CANData`: `none` is `NULL`, `some r` holds the pointee; operations
  return the pointee as it is after the call.
* A seqlock reader sees the version through atomic loads; what it sees in
  each pass of its loop is a `ReadAttempt`.  Without a concurrent writer every
  pass sees the bucket as it is (`quiescent`).
* A local variable read before it is assigned (`seq2` in both seqlock read
  loops, reached through `continue`) has an arbitrary value, passed as an
  argument.
-/

namespace CanShm

/-! ## can_shm_types.h -/

/-- Largest valid CAN identifier (29 bits). -/
abbrev CAN_ID_MAX : Nat := 0x1FFFFFFF

/-- Number of buckets of the hash table. -/
abbrev MAX_CAN_ENTRIES : Nat := 4096

/-- Sentinel written into the region header by the first initialisation. -/
abbrev MAGIC_NUMBER : Nat := 0xCADDA7A

/-- Modulus of `uint32_t` arithmetic. -/
abbrev U32 : Nat := 4294967296

/-- Modulus of `uint64_t` arithmetic. -/
abbrev U64 : Nat := 18446744073709551616

/-- Result codes `CANShmResult`. -/
inductive CANShmResult where
  | CAN_SHM_SUCCESS
  | CAN_SHM_ERROR_INVALID_ID
  | CAN_SHM_ERROR_NOT_FOUND
  | CAN_SHM_ERROR_TIMEOUT
  | CAN_SHM_ERROR_INVALID_PARAM
  | CAN_SHM_ERROR_INIT_FAILED
  | CAN_SHM_ERROR_MUTEX_FAILED
  deriving DecidableEq, Repr

open CANShmResult

/-- Integer value of a result code. -/
def CANShmResult.toInt : CANShmResult → Int
  | CAN_SHM_SUCCESS => 0
  | CAN_SHM_ERROR_INVALID_ID => -1
  | CAN_SHM_ERROR_NOT_FOUND => -2
  | CAN_SHM_ERROR_TIMEOUT => -3
  | CAN_SHM_ERROR_INVALID_PARAM => -4
  | CAN_SHM_ERROR_INIT_FAILED => -5
  | CAN_SHM_ERROR_MUTEX_FAILED => -6

/-- The record `CANData`: version (`sequence`), key, length, 64 payload
bytes and the time of the last write. -/
structure CANData where
  sequence : Nat
  can_id : Nat
  dlc : Nat
  data : Fin 64 → Nat
  timestamp : Nat

/-- A record of zero bytes, as left by `memset(.., 0, sizeof(CANData))`. -/
def CANData.zero : CANData :=
  { sequence := 0, can_id := 0, dlc := 0, data := fun _ => 0, timestamp := 0 }

/-- A bucket `CANBucket` (its mutex is not part of the sequential state). -/
structure CANBucket where
  can_data : CANData
  is_valid : Nat

/-- A bucket of zero bytes. -/
def CANBucket.zero : CANBucket :=
  { can_data := CANData.zero, is_valid := 0 }

/-- The mapped region `SharedMemoryLayout`. -/
structure SharedMemoryLayout where
  magic_number : Nat
  version : Nat
  global_sequence : Nat
  total_sets : Nat
  total_gets : Nat
  total_subscribes : Nat
  buckets : Fin MAX_CAN_ENTRIES → CANBucket

/-- Home slot of a key: `can_id_hash`. -/
def can_id_hash (can_id : Nat) : Nat :=
  let can_id := can_id &&& CAN_ID_MAX
  (can_id ^^^ (can_id >>> 16) ^^^ (can_id >>> 8)) % MAX_CAN_ENTRIES

/-- Range check `is_valid_can_id`. -/
def is_valid_can_id (can_id : Nat) : Bool :=
  decide (can_id ≤ CAN_ID_MAX)

/-- Bucket index `n % MAX_CAN_ENTRIES` as an index into `buckets`. -/
def idx (n : Nat) : Fin MAX_CAN_ENTRIES :=
  ⟨n % MAX_CAN_ENTRIES, Nat.mod_lt _ (by decide)⟩

/-! ## can_perfect_hash_demo.h -/

/-- Size of the perfect-hash table. -/
abbrev PERFECT_HASH_TABLE_SIZE : Nat := 32

/-- Number of admissible identifiers. -/
abbrev PERFECT_HASH_NUM_CAN_IDS : Nat := 16

/-- The fixed identifier set `DEMO_CAN_IDS`. -/
def DEMO_CAN_IDS : List Nat :=
  [0x100, 0x101, 0x102, 0x103, 0x200, 0x201, 0x202, 0x203,
   0x300, 0x301, 0x302, 0x303, 0x400, 0x401, 0x402, 0x403]

/-- Forward map `can_id_perfect_hash_demo`; `0xFFFFFFFF` is the sentinel. -/
def can_id_perfect_hash_demo (can_id : Nat) : Nat :=
  let group := (can_id >>> 8) &&& 0xF
  let offset := can_id &&& 0xF
  if group = 1 then
    let index := 0 + (offset &&& 0x7)
    if index < PERFECT_HASH_TABLE_SIZE then index else 0xFFFFFFFF
  else if group = 2 then
    let index := 8 + (offset &&& 0x7)
    if index < PERFECT_HASH_TABLE_SIZE then index else 0xFFFFFFFF
  else if group = 3 then
    let index := 16 + (offset &&& 0x7)
    if index < PERFECT_HASH_TABLE_SIZE then index else 0xFFFFFFFF
  else if group = 4 then
    let index := 24 + (offset &&& 0x7)
    if index < PERFECT_HASH_TABLE_SIZE then index else 0xFFFFFFFF
  else 0xFFFFFFFF

/-- Backup hash `can_id_perfect_hash_math` (32-bit multiplication). -/
def can_id_perfect_hash_math (can_id : Nat) : Nat :=
  (((can_id * 0x9E3779B9) % U32) ^^^ 0x87654321) % PERFECT_HASH_TABLE_SIZE

/-- Reverse table `INDEX_TO_CAN_ID_MAP_DEMO`. -/
def INDEX_TO_CAN_ID_MAP_DEMO : List Nat :=
  [0x100, 0x101, 0x102, 0x103, 0, 0, 0, 0,
   0x200, 0x201, 0x202, 0x203, 0, 0, 0, 0,
   0x300, 0x301, 0x302, 0x303, 0, 0, 0, 0,
   0x400, 0x401, 0x402, 0x403, 0, 0, 0, 0]

/-- Admissibility check `is_valid_can_id_for_perfect_hash_demo`; the table is
read only when the index is in range (`&&` short-circuits). -/
def is_valid_can_id_for_perfect_hash_demo (can_id : Nat) : Bool :=
  let index := can_id_perfect_hash_demo can_id
  decide (index ≠ 0xFFFFFFFF) && decide (index < PERFECT_HASH_TABLE_SIZE)
    && decide (INDEX_TO_CAN_ID_MAP_DEMO.getD index 0 = can_id)

/-- Index `n % PERFECT_HASH_TABLE_SIZE` into the perfect-hash arrays; used
only after the range check `index < PERFECT_HASH_TABLE_SIZE`. -/
def pidx (n : Nat) : Fin PERFECT_HASH_TABLE_SIZE :=
  ⟨n % PERFECT_HASH_TABLE_SIZE, Nat.mod_lt _ (by decide)⟩

/-! ## File-level state -/

/-- Statistics `HashStats` of can_shm_linear_probing.c. -/
structure HashStats where
  total_probes : Nat
  collision_count : Nat
  max_probe_distance : Nat
  current_entries : Nat

/-- Statistics `PerfectHashTableStats` of can_shm_perfect_hash.c. -/
structure PerfectHashTableStats where
  total_sets : Nat
  total_gets : Nat
  total_deletes : Nat
  total_access_time_ns : Nat
  current_entries : Nat

/-- Everything the operations of one process read and write: the mapped
region and the file-level variables. -/
structure Sys where
  g_is_initialized : Bool
  shm : SharedMemoryLayout
  g_hash_stats : HashStats
  g_perfect_hash_table : Fin PERFECT_HASH_TABLE_SIZE → CANData
  g_perfect_hash_valid : Fin PERFECT_HASH_TABLE_SIZE → Nat
  g_perfect_hash_initialized : Bool
  g_perfect_stats : PerfectHashTableStats

/-! ## Memory helpers -/

/-- Copy `memcpy(dst, src, n)` into a 64-byte field, for `n ≤ 64`.  The
caller provides `n` readable bytes; a byte past the end of a shorter buffer
reads as 0 here. -/
def memcpy (dst : Fin 64 → Nat) (src : List Nat) (n : Nat) : Fin 64 → Nat :=
  fun i => if i.val < n then src.getD i.val 0 else dst i

/-- Clear `memset(&dst[off], 0, n)` inside a 64-byte field. -/
def memset0 (dst : Fin 64 → Nat) (off n : Nat) : Fin 64 → Nat :=
  fun i => if off ≤ i.val ∧ i.val < off + n then 0 else dst i

/-- The guarded copy `if (dlc > 0 && data != NULL) memcpy(.., data, dlc)`. -/
def copy_payload (dst : Fin 64 → Nat) (dlc : Nat) (data : Option (List Nat)) :
    Fin 64 → Nat :=
  match data with
  | some src => if 0 < dlc then memcpy dst src dlc else dst
  | none => dst

/-! ## Seqlock (can_shm_linear_probing.c, can_shm_api.c) -/

/-- Writer `write_can_data_with_seqlock`: the version is stored as
`sequence + 1` (odd) before the fields and as `seq + 1` after them; the
bucket after the call carries the second store. -/
def write_can_data_with_seqlock (bucket : CANBucket) (can_id dlc : Nat)
    (data : Option (List Nat)) (ts : Nat) : CANBucket :=
  let seq := (bucket.can_data.sequence + 1) % U32
  { bucket with
    can_data :=
      { sequence := (seq + 1) % U32
        can_id := can_id
        dlc := dlc
        data := copy_payload bucket.can_data.data dlc data
        timestamp := ts } }

/-- What one pass of a seqlock read loop sees: the version loaded first, the
record copied, and the version loaded after the copy. -/
structure ReadAttempt where
  seq1 : Nat
  copy : CANData
  seq2 : Nat

/-- The passes of a reader that runs while no writer is active. -/
def quiescent (d : CANData) : Nat → ReadAttempt :=
  fun _ => { seq1 := d.sequence, copy := d, seq2 := d.sequence }

/-- Retry cap `MAX_RETRIES` of `read_can_data_with_seqlock`. -/
abbrev MAX_RETRIES : Nat := 10

/-- The `do .. while (seq1 != seq2)` loop of `read_can_data_with_seqlock`.
`retry_count` is also the number of passes made so far; `seq2` and `out` are
the current contents of the local `seq2` and of `*data_out`.  `continue`
jumps to the loop condition.  The first argument bounds the number of passes
and is never exhausted from `MAX_RETRIES + 1`. -/
def read_can_data_with_seqlock_loop (obs : Nat → ReadAttempt) :
    Nat → Nat → Nat → CANData → Int × CANData
  | 0, _, _, out => (-1, out)
  | n + 1, retry_count, seq2, out =>
    let seq1 := (obs retry_count).seq1
    if seq1 % 2 = 1 then
      let retry_count := retry_count + 1
      if retry_count > MAX_RETRIES then (-1, out)
      else if seq1 ≠ seq2 then read_can_data_with_seqlock_loop obs n retry_count seq2 out
      else (0, out)
    else
      let out := (obs retry_count).copy
      let seq2 := (obs retry_count).seq2
      let retry_count := retry_count + 1
      if retry_count > MAX_RETRIES then (-1, out)
      else if seq1 ≠ seq2 then read_can_data_with_seqlock_loop obs n retry_count seq2 out
      else (0, out)

/-- Reader `read_can_data_with_seqlock`: returns 0 or -1 and the pointee of
`data_out`. -/
def read_can_data_with_seqlock (obs : Nat → ReadAttempt) (seq2 : Nat) (out : CANData) :
    Int × CANData :=
  read_can_data_with_seqlock_loop obs (MAX_RETRIES + 1) 0 seq2 out

/-- The unbounded `do .. while (seq1 != seq2)` loop of `can_shm_get`; `none`
when the given number of passes does not end it. -/
def can_shm_get_read_loop (obs : Nat → ReadAttempt) :
    Nat → Nat → Nat → CANData → Option CANData
  | 0, _, _, _ => none
  | n + 1, pass, seq2, out =>
    let seq1 := (obs pass).seq1
    if seq1 % 2 = 1 then
      if seq1 ≠ seq2 then can_shm_get_read_loop obs n (pass + 1) seq2 out
      else some out
    else
      let out := (obs pass).copy
      let seq2 := (obs pass).seq2
      if seq1 ≠ seq2 then can_shm_get_read_loop obs n (pass + 1) seq2 out
      else some out

/-! ## can_shm_api.c -/

/-- The region after the first-time branch of `can_shm_init`: zeroed, then
magic and version written; all buckets invalid. -/
def init_region : SharedMemoryLayout :=
  { magic_number := MAGIC_NUMBER
    version := 1
    global_sequence := 0
    total_sets := 0
    total_gets := 0
    total_subscribes := 0
    buckets := fun _ => CANBucket.zero }

/-- Initialiser `can_shm_init`; `os_ok` tells whether `shm_open`,
`ftruncate` and `mmap` succeed. -/
def can_shm_init (p : Sys) (os_ok : Bool) : CANShmResult × Sys :=
  if p.g_is_initialized = true then (CAN_SHM_SUCCESS, p)
  else if os_ok = false then (CAN_SHM_ERROR_INIT_FAILED, p)
  else if p.shm.magic_number ≠ MAGIC_NUMBER then
    (CAN_SHM_SUCCESS, { p with shm := init_region, g_is_initialized := true })
  else (CAN_SHM_SUCCESS, { p with g_is_initialized := true })

/-- Detach `can_shm_cleanup`; the region itself persists. -/
def can_shm_cleanup (p : Sys) : CANShmResult × Sys :=
  if p.g_is_initialized = false then (CAN_SHM_SUCCESS, p)
  else (CAN_SHM_SUCCESS, { p with g_is_initialized := false })

/-- Default-API writer `can_shm_set`: writes the home bucket of `can_id`. -/
def can_shm_set (p : Sys) (can_id dlc : Nat) (data : Option (List Nat)) (ts : Nat) :
    CANShmResult × Sys :=
  if p.g_is_initialized = false then (CAN_SHM_ERROR_INIT_FAILED, p)
  else if is_valid_can_id can_id = false then (CAN_SHM_ERROR_INVALID_ID, p)
  else if dlc > 64 then (CAN_SHM_ERROR_INVALID_PARAM, p)
  else if dlc > 0 ∧ data = none then (CAN_SHM_ERROR_INVALID_PARAM, p)
  else
    let bucket_index := idx (can_id_hash can_id)
    let bucket := p.shm.buckets bucket_index
    let seq := (bucket.can_data.sequence + 1) % U32
    let data1 := copy_payload bucket.can_data.data dlc data
    let data2 := if dlc < 64 then memset0 data1 dlc (64 - dlc) else data1
    let bucket1 : CANBucket :=
      { can_data :=
          { sequence := (seq + 1) % U32
            can_id := can_id
            dlc := dlc
            data := data2
            timestamp := ts }
        is_valid := 1 }
    (CAN_SHM_SUCCESS,
      { p with
        shm :=
          { p.shm with
            buckets := Function.update p.shm.buckets bucket_index bucket1
            global_sequence := (p.shm.global_sequence + 1) % U64
            total_sets := (p.shm.total_sets + 1) % U64 } })

/-- Default-API reader `can_shm_get`.  `seq2` is the initial content of the
local `seq2`; `fuel` bounds the passes of the read loop, and the result is
`none` when they do not end it. -/
def can_shm_get (p : Sys) (can_id : Nat) (data_out : Option CANData) (seq2 fuel : Nat) :
    Option (CANShmResult × Option CANData × Sys) :=
  if p.g_is_initialized = false then some (CAN_SHM_ERROR_INIT_FAILED, data_out, p)
  else
    match data_out with
    | none => some (CAN_SHM_ERROR_INVALID_PARAM, none, p)
    | some out =>
      if is_valid_can_id can_id = false then some (CAN_SHM_ERROR_INVALID_PARAM, some out, p)
      else
        let bucket := p.shm.buckets (idx (can_id_hash can_id))
        if bucket.is_valid = 0 ∨ bucket.can_data.can_id ≠ can_id then
          some (CAN_SHM_ERROR_NOT_FOUND, some out,
            { p with shm := { p.shm with total_gets := (p.shm.total_gets + 1) % U64 } })
        else
          match can_shm_get_read_loop (quiescent bucket.can_data) fuel 0 seq2 out with
          | none => none
          | some r =>
            some (CAN_SHM_SUCCESS, some r,
              { p with shm := { p.shm with total_gets := (p.shm.total_gets + 1) % U64 } })

/-- What a subscriber finds after one wait on the condition variable:
whether `pthread_cond_timedwait` returned `ETIMEDOUT`, and the home bucket as
it is after the wait. -/
structure WaitEvent where
  timed_out : Bool
  bucket : CANBucket

/-- The `while` loop of `can_shm_subscribe` over the waits it makes.  With
`timeout_ms < 0` the wait is `pthread_cond_wait`, which does not time out.
Returns the result code (`none` while the loop is still waiting after the
last given event) and the records passed to the callback, oldest first. -/
def can_shm_subscribe_loop (can_id subscribe_count : Nat) (timeout_ms : Int) :
    List WaitEvent → Nat → Nat → List CANData → Option CANShmResult × List CANData
  | [], received_count, _, calls =>
    if subscribe_count = 0 ∨ received_count < subscribe_count then (none, calls)
    else (some CAN_SHM_SUCCESS, calls)
  | e :: es, received_count, last_sequence, calls =>
    if subscribe_count = 0 ∨ received_count < subscribe_count then
      if 0 ≤ timeout_ms ∧ e.timed_out = true then (some CAN_SHM_ERROR_TIMEOUT, calls)
      else if e.bucket.is_valid ≠ 0 ∧ e.bucket.can_data.can_id = can_id then
        let current_sequence := e.bucket.can_data.sequence
        if current_sequence ≠ last_sequence then
          can_shm_subscribe_loop can_id subscribe_count timeout_ms es
            ((received_count + 1) % U32) current_sequence (calls ++ [e.bucket.can_data])
        else
          can_shm_subscribe_loop can_id subscribe_count timeout_ms es
            received_count last_sequence calls
      else
        can_shm_subscribe_loop can_id subscribe_count timeout_ms es
          received_count last_sequence calls
    else (some CAN_SHM_SUCCESS, calls)

/-- Subscription `can_shm_subscribe`.  `callback` is `false` for a `NULL`
callback; `events` are the waits of the loop. -/
def can_shm_subscribe (p : Sys) (can_id subscribe_count : Nat) (timeout_ms : Int)
    (callback : Bool) (events : List WaitEvent) :
    Option CANShmResult × List CANData × Sys :=
  if p.g_is_initialized = false then (some CAN_SHM_ERROR_INIT_FAILED, [], p)
  else if is_valid_can_id can_id = false ∨ callback = false then
    (some CAN_SHM_ERROR_INVALID_PARAM, [], p)
  else
    let bucket := p.shm.buckets (idx (can_id_hash can_id))
    let last_sequence :=
      if bucket.is_valid ≠ 0 ∧ bucket.can_data.can_id = can_id then bucket.can_data.sequence
      else 0
    let p1 : Sys :=
      { p with shm := { p.shm with total_subscribes := (p.shm.total_subscribes + 1) % U64 } }
    let r := can_shm_subscribe_loop can_id subscribe_count timeout_ms events 0 last_sequence []
    (r.1, r.2, p1)

/-- Single-shot form `can_shm_subscribe_once`: `once_callback` stores the
first delivered record into `*data_out`. -/
def can_shm_subscribe_once (p : Sys) (can_id : Nat) (timeout_ms : Int)
    (data_out : Option CANData) (events : List WaitEvent) :
    Option CANShmResult × Option CANData × Sys :=
  match data_out with
  | none => (some CAN_SHM_ERROR_INVALID_PARAM, none, p)
  | some out =>
    let r := can_shm_subscribe p can_id 1 timeout_ms true events
    (r.1, some (r.2.1.headD out), r.2.2)

/-- Counters `can_shm_get_stats`, with all three output pointers given. -/
def can_shm_get_stats (p : Sys) : CANShmResult × Option (Nat × Nat × Nat) :=
  if p.g_is_initialized = false then (CAN_SHM_ERROR_INIT_FAILED, none)
  else (CAN_SHM_SUCCESS, some (p.shm.total_sets, p.shm.total_gets, p.shm.total_subscribes))

/-! ## can_shm_linear_probing.c -/

/-- The part of `can_shm_set_linear_probing` that runs once a slot was
written (`found_slot`): the bucket is stored, the largest probe distance and
the region counters are updated. -/
def set_found (p : Sys) (probe_index : Fin MAX_CAN_ENTRIES) (bucket : CANBucket)
    (stats : HashStats) (probe_distance : Nat) : Sys :=
  { p with
    g_hash_stats :=
      { stats with
        max_probe_distance :=
          if probe_distance > stats.max_probe_distance then probe_distance
          else stats.max_probe_distance }
    shm :=
      { p.shm with
        buckets := Function.update p.shm.buckets probe_index bucket
        total_sets := (p.shm.total_sets + 1) % U64
        global_sequence := (p.shm.global_sequence + 1) % U64 } }

/-- The probe loop of `can_shm_set_linear_probing`: the first argument is
the number of iterations left, the second the loop variable `i`. -/
def can_shm_set_linear_probing_loop (p : Sys) (can_id dlc : Nat) (data : Option (List Nat))
    (ts initial_hash : Nat) : Nat → Nat → CANShmResult × Sys
  | 0, _ => (CAN_SHM_ERROR_NOT_FOUND, p)
  | n + 1, i =>
    let probe_index := idx (initial_hash + i)
    let bucket := p.shm.buckets probe_index
    if bucket.is_valid = 0 then
      let bucket1 : CANBucket :=
        { write_can_data_with_seqlock bucket can_id dlc data ts with is_valid := 1 }
      let stats := p.g_hash_stats
      let stats1 : HashStats :=
        { stats with
          collision_count :=
            if i > 0 then (stats.collision_count + 1) % U64 else stats.collision_count
          total_probes := (stats.total_probes + (i + 1)) % U64
          current_entries := (stats.current_entries + 1) % U32 }
      (CAN_SHM_SUCCESS, set_found p probe_index bucket1 stats1 i)
    else if bucket.can_data.can_id = can_id then
      let bucket1 := write_can_data_with_seqlock bucket can_id dlc data ts
      let stats := p.g_hash_stats
      let stats1 : HashStats :=
        { stats with total_probes := (stats.total_probes + (i + 1)) % U64 }
      (CAN_SHM_SUCCESS, set_found p probe_index bucket1 stats1 i)
    else can_shm_set_linear_probing_loop p can_id dlc data ts initial_hash n (i + 1)

/-- Writer `can_shm_set_linear_probing`. -/
def can_shm_set_linear_probing (p : Sys) (can_id dlc : Nat) (data : Option (List Nat))
    (ts : Nat) : CANShmResult × Sys :=
  if p.g_is_initialized = false then (CAN_SHM_ERROR_INIT_FAILED, p)
  else if is_valid_can_id can_id = false then (CAN_SHM_ERROR_INVALID_ID, p)
  else if dlc > 64 then (CAN_SHM_ERROR_INVALID_PARAM, p)
  else if dlc > 0 ∧ data = none then (CAN_SHM_ERROR_INVALID_PARAM, p)
  else
    can_shm_set_linear_probing_loop p can_id dlc data ts (can_id_hash can_id)
      MAX_CAN_ENTRIES 0

/-- The probe loop of `can_shm_get_linear_probing`; `out` is the pointee of
`data_out`, `seq2` the initial content of the reader's local `seq2`. -/
def can_shm_get_linear_probing_loop (p : Sys) (can_id : Nat) (out : CANData)
    (seq2 initial_hash : Nat) : Nat → Nat → CANShmResult × CANData × Sys
  | 0, _ => (CAN_SHM_ERROR_NOT_FOUND, out, p)
  | n + 1, i =>
    let bucket := p.shm.buckets (idx (initial_hash + i))
    if bucket.is_valid = 0 then (CAN_SHM_ERROR_NOT_FOUND, out, p)
    else if bucket.can_data.can_id = can_id then
      let r := read_can_data_with_seqlock (quiescent bucket.can_data) seq2 out
      if r.1 = 0 then
        (CAN_SHM_SUCCESS, r.2,
          { p with shm := { p.shm with total_gets := (p.shm.total_gets + 1) % U64 } })
      else (CAN_SHM_ERROR_MUTEX_FAILED, r.2, p)
    else can_shm_get_linear_probing_loop p can_id out seq2 initial_hash n (i + 1)

/-- Reader `can_shm_get_linear_probing`. -/
def can_shm_get_linear_probing (p : Sys) (can_id : Nat) (data_out : Option CANData)
    (seq2 : Nat) : CANShmResult × Option CANData × Sys :=
  if p.g_is_initialized = false then (CAN_SHM_ERROR_INIT_FAILED, data_out, p)
  else if is_valid_can_id can_id = false then (CAN_SHM_ERROR_INVALID_ID, data_out, p)
  else
    match data_out with
    | none => (CAN_SHM_ERROR_INVALID_PARAM, none, p)
    | some out =>
      let r := can_shm_get_linear_probing_loop p can_id out seq2 (can_id_hash can_id)
        MAX_CAN_ENTRIES 0
      (r.1, some r.2.1, r.2.2)

/-- The probe loop of `can_shm_delete_linear_probing`. -/
def can_shm_delete_linear_probing_loop (p : Sys) (can_id initial_hash : Nat) :
    Nat → Nat → CANShmResult × Sys
  | 0, _ => (CAN_SHM_ERROR_NOT_FOUND, p)
  | n + 1, i =>
    let probe_index := idx (initial_hash + i)
    let bucket := p.shm.buckets probe_index
    if bucket.is_valid = 0 then (CAN_SHM_ERROR_NOT_FOUND, p)
    else if bucket.can_data.can_id = can_id then
      let bucket1 : CANBucket := { can_data := CANData.zero, is_valid := 0 }
      (CAN_SHM_SUCCESS,
        { p with
          shm := { p.shm with buckets := Function.update p.shm.buckets probe_index bucket1 }
          g_hash_stats :=
            { p.g_hash_stats with
              current_entries := (p.g_hash_stats.current_entries + (U32 - 1)) % U32 } })
    else can_shm_delete_linear_probing_loop p can_id initial_hash n (i + 1)

/-- Delete `can_shm_delete_linear_probing`. -/
def can_shm_delete_linear_probing (p : Sys) (can_id : Nat) : CANShmResult × Sys :=
  if p.g_is_initialized = false then (CAN_SHM_ERROR_INIT_FAILED, p)
  else if is_valid_can_id can_id = false then (CAN_SHM_ERROR_INVALID_ID, p)
  else can_shm_delete_linear_probing_loop p can_id (can_id_hash can_id) MAX_CAN_ENTRIES 0

/-! ## can_shm_perfect_hash.c -/

/-- Zeroed statistics of the perfect-hash table. -/
def PerfectHashTableStats.zero : PerfectHashTableStats :=
  { total_sets := 0, total_gets := 0, total_deletes := 0, total_access_time_ns := 0,
    current_entries := 0 }

/-- Lazy set-up `init_perfect_hash_table`: on its first run the table, the
validity flags and the statistics are cleared. -/
def init_perfect_hash_table (p : Sys) : Sys :=
  if p.g_perfect_hash_initialized = true then p
  else
    { p with
      g_perfect_hash_table := fun _ => CANData.zero
      g_perfect_hash_valid := fun _ => 0
      g_perfect_stats := PerfectHashTableStats.zero
      g_perfect_hash_initialized := true }

/-- Writer `can_shm_set_perfect_hash`; `t_start`, `ts`, `t_end` are the three
clock readings it takes. -/
def can_shm_set_perfect_hash (p : Sys) (can_id dlc : Nat) (data : Option (List Nat))
    (t_start ts t_end : Nat) : CANShmResult × Sys :=
  if p.g_is_initialized = false then (CAN_SHM_ERROR_INIT_FAILED, p)
  else
    let p := init_perfect_hash_table p
    if is_valid_can_id can_id = false then (CAN_SHM_ERROR_INVALID_ID, p)
    else if dlc > 64 then (CAN_SHM_ERROR_INVALID_PARAM, p)
    else if dlc > 0 ∧ data = none then (CAN_SHM_ERROR_INVALID_PARAM, p)
    else
      let index := can_id_perfect_hash_demo can_id
      if index = 0xFFFFFFFF ∨ index ≥ PERFECT_HASH_TABLE_SIZE then
        (CAN_SHM_ERROR_INVALID_ID, p)
      else if is_valid_can_id_for_perfect_hash_demo can_id = false then
        (CAN_SHM_ERROR_INVALID_ID, p)
      else
        let entry := p.g_perfect_hash_table (pidx index)
        let entry1 : CANData :=
          { sequence := (entry.sequence + 1) % U32
            can_id := can_id
            dlc := dlc
            data := copy_payload entry.data dlc data
            timestamp := ts }
        let is_new := p.g_perfect_hash_valid (pidx index) = 0
        let stats := p.g_perfect_stats
        (CAN_SHM_SUCCESS,
          { p with
            g_perfect_hash_table := Function.update p.g_perfect_hash_table (pidx index) entry1
            g_perfect_hash_valid :=
              if is_new then Function.update p.g_perfect_hash_valid (pidx index) 1
              else p.g_perfect_hash_valid
            g_perfect_stats :=
              { stats with
                current_entries :=
                  if is_new then (stats.current_entries + 1) % U32 else stats.current_entries
                total_sets := (stats.total_sets + 1) % U64
                total_access_time_ns :=
                  (stats.total_access_time_ns + (t_end + (U64 - t_start % U64))) % U64 } })

/-- Reader `can_shm_get_perfect_hash`; `t_start` and `t_end` are its clock
readings. -/
def can_shm_get_perfect_hash (p : Sys) (can_id : Nat) (data_out : Option CANData)
    (t_start t_end : Nat) : CANShmResult × Option CANData × Sys :=
  if p.g_is_initialized = false then (CAN_SHM_ERROR_INIT_FAILED, data_out, p)
  else
    let p := init_perfect_hash_table p
    if is_valid_can_id can_id = false then (CAN_SHM_ERROR_INVALID_ID, data_out, p)
    else
      match data_out with
      | none => (CAN_SHM_ERROR_INVALID_PARAM, none, p)
      | some out =>
        let index := can_id_perfect_hash_demo can_id
        if index = 0xFFFFFFFF ∨ index ≥ PERFECT_HASH_TABLE_SIZE then
          (CAN_SHM_ERROR_INVALID_ID, some out, p)
        else if is_valid_can_id_for_perfect_hash_demo can_id = false then
          (CAN_SHM_ERROR_INVALID_ID, some out, p)
        else if p.g_perfect_hash_valid (pidx index) = 0 then
          (CAN_SHM_ERROR_NOT_FOUND, some out, p)
        else
          let r := p.g_perfect_hash_table (pidx index)
          if r.can_id ≠ can_id then (CAN_SHM_ERROR_NOT_FOUND, some r, p)
          else
            let stats := p.g_perfect_stats
            (CAN_SHM_SUCCESS, some r,
              { p with
                g_perfect_stats :=
                  { stats with
                    total_gets := (stats.total_gets + 1) % U64
                    total_access_time_ns :=
                      (stats.total_access_time_ns + (t_end + (U64 - t_start % U64))) % U64 } })

/-- Delete `can_shm_delete_perfect_hash`; `t_start` and `t_end` are its clock
readings. -/
def can_shm_delete_perfect_hash (p : Sys) (can_id : Nat) (t_start t_end : Nat) :
    CANShmResult × Sys :=
  if p.g_is_initialized = false then (CAN_SHM_ERROR_INIT_FAILED, p)
  else
    let p := init_perfect_hash_table p
    if is_valid_can_id can_id = false then (CAN_SHM_ERROR_INVALID_ID, p)
    else
      let index := can_id_perfect_hash_demo can_id
      if index = 0xFFFFFFFF ∨ index ≥ PERFECT_HASH_TABLE_SIZE then
        (CAN_SHM_ERROR_INVALID_ID, p)
      else if is_valid_can_id_for_perfect_hash_demo can_id = false then
        (CAN_SHM_ERROR_INVALID_ID, p)
      else if p.g_perfect_hash_valid (pidx index) = 0 then (CAN_SHM_ERROR_NOT_FOUND, p)
      else
        let stats := p.g_perfect_stats
        (CAN_SHM_SUCCESS,
          { p with
            g_perfect_hash_valid := Function.update p.g_perfect_hash_valid (pidx index) 0
            g_perfect_hash_table :=
              Function.update p.g_perfect_hash_table (pidx index) CANData.zero
            g_perfect_stats :=
              { stats with
                current_entries := (stats.current_entries + (U32 - 1)) % U32
                total_deletes := (stats.total_deletes + 1) % U64
                total_access_time_ns :=
                  (stats.total_access_time_ns + (t_end + (U64 - t_start % U64))) % U64 } })

/-! ## Call sequences -/

/-- The arguments of one call of a set function and the clock reading it
takes. -/
structure SetCall where
  can_id : Nat
  dlc : Nat
  data : Option (List Nat)
  ts : Nat

/-- Byte `i` of the buffer behind a data pointer. -/
def byteAt (data : Option (List Nat)) (i : Nat) : Nat :=
  (data.getD []).getD i 0

/-- A write operation on the main table. -/
inductive Op where
  | set (c : SetCall)
  | set_lp (c : SetCall)
  | delete_lp (can_id : Nat)

/-- The key an operation is called with. -/
def Op.target : Op → Nat
  | Op.set c => c.can_id
  | Op.set_lp c => c.can_id
  | Op.delete_lp k => k

/-- Result and state after one operation. -/
def step (p : Sys) : Op → CANShmResult × Sys
  | Op.set c => can_shm_set p c.can_id c.dlc c.data c.ts
  | Op.set_lp c => can_shm_set_linear_probing p c.can_id c.dlc c.data c.ts
  | Op.delete_lp k => can_shm_delete_linear_probing p k

/-- State after a sequence of operations, whatever each one returns. -/
def run (p : Sys) : List Op → Sys
  | [] => p
  | o :: os => run (step p o).2 os

/-- Every operation of the sequence returns `CAN_SHM_SUCCESS`. -/
def all_success (p : Sys) : List Op → Bool
  | [] => true
  | o :: os => decide ((step p o).1 = CAN_SHM_SUCCESS) && all_success (step p o).2 os

/-- State of a process at program start, before `can_shm_init`, attached to
a newly created (zero-filled) shared-memory object. -/
def boot : Sys :=
  { g_is_initialized := false
    shm :=
      { magic_number := 0, version := 0, global_sequence := 0, total_sets := 0,
        total_gets := 0, total_subscribes := 0, buckets := fun _ => CANBucket.zero }
    g_hash_stats :=
      { total_probes := 0, collision_count := 0, max_probe_distance := 0, current_entries := 0 }
    g_perfect_hash_table := fun _ => CANData.zero
    g_perfect_hash_valid := fun _ => 0
    g_perfect_hash_initialized := false
    g_perfect_stats := PerfectHashTableStats.zero }

/-- The system right after the first successful `can_shm_init`. -/
def fresh : Sys :=
  (can_shm_init boot true).2

/-- A freshly initialised table: the system is initialised and every bucket
is zero (invalid, zero record). -/
def Fresh (p : Sys) : Prop :=
  p.g_is_initialized = true ∧ ∀ i, p.shm.buckets i = CANBucket.zero

/-- Slot `s` holds a valid bucket. -/
def validAt (p : Sys) (s : Fin MAX_CAN_ENTRIES) : Prop :=
  (p.shm.buckets s).is_valid ≠ 0

/-- Before `init_perfect_hash_table` has run, the static arrays and the
statistics of can_shm_perfect_hash.c hold their zero initialisers. -/
def PerfectStatic (p : Sys) : Prop :=
  p.g_perfect_hash_initialized = false →
    p.g_perfect_hash_table = (fun _ => CANData.zero) ∧
    p.g_perfect_hash_valid = (fun _ => 0) ∧
    p.g_perfect_stats = PerfectHashTableStats.zero

/-- Two states agree on the whole store: region, statistics, perfect-hash
table and flags; only `g_perfect_hash_initialized` may differ. -/
def SameStore (p q : Sys) : Prop :=
  q.g_is_initialized = p.g_is_initialized ∧ q.shm = p.shm ∧ q.g_hash_stats = p.g_hash_stats ∧
    q.g_perfect_hash_table = p.g_perfect_hash_table ∧
    q.g_perfect_hash_valid = p.g_perfect_hash_valid ∧ q.g_perfect_stats = p.g_perfect_stats

/-- A region in which a writer stopped between the two version stores of a
write to the home bucket of `0x123` (version 1); everything else is as after
initialisation. -/
def stalled : Sys :=
  { fresh with
    shm :=
      { fresh.shm with
        buckets :=
          Function.update fresh.shm.buckets (idx (can_id_hash 0x123))
            { can_data := { CANData.zero with sequence := 1 }, is_valid := 0 } } }

/-- The bucket that `can_shm_set_linear_probing` stores into a slot that
held `b`: the record written by `write_can_data_with_seqlock`, and the flag
set to 1 on insertion and kept on update. -/
def lp_written (b : CANBucket) (k d : Nat) (data : Option (List Nat)) (ts : Nat) : CANBucket :=
  { can_data := (write_can_data_with_seqlock b k d data ts).can_data
    is_valid := if b.is_valid = 0 then 1 else b.is_valid }

/-- No valid bucket holds key `k`. -/
def NoKey (p : Sys) (k : Nat) : Prop :=
  ∀ s, (p.shm.buckets s).is_valid ≠ 0 → (p.shm.buckets s).can_data.can_id ≠ k

/-- Every bucket of the table has an even version. -/
def EvenVersions (p : Sys) : Prop :=
  ∀ s, (p.shm.buckets s).can_data.sequence % 2 = 0

/-- Key `k` is stored with record `r` at probe distance `j` from its home
slot, and every slot before it on the probe sequence of `k` is valid and
holds another key. -/
def StoredAt (p : Sys) (k j : Nat) (r : CANData) : Prop :=
  j < MAX_CAN_ENTRIES ∧
  (p.shm.buckets (idx (can_id_hash k + j))).is_valid ≠ 0 ∧
  (p.shm.buckets (idx (can_id_hash k + j))).can_data = r ∧
  r.can_id = k ∧
  ∀ j', j' < j →
    (p.shm.buckets (idx (can_id_hash k + j'))).is_valid ≠ 0 ∧
    (p.shm.buckets (idx (can_id_hash k + j'))).can_data.can_id ≠ k

/-- Probe-chain invariant: for every valid bucket, at slot `s` and probe
distance `d` from the home slot of its key, the slots at distances `0 .. d`
are all valid. -/
def ProbeChain (p : Sys) : Prop :=
  ∀ (s : Fin MAX_CAN_ENTRIES) (d : Nat), validAt p s → d < MAX_CAN_ENTRIES →
    idx (can_id_hash (p.shm.buckets s).can_data.can_id + d) = s →
    ∀ j, j ≤ d → validAt p (idx (can_id_hash (p.shm.buckets s).can_data.can_id + j))

/-- The operation is one of the two set functions of the main table. -/
def Op.isSet : Op → Prop
  | Op.set _ => True
  | Op.set_lp _ => True
  | Op.delete_lp _ => False

/-- Version (`can_data.sequence`) of the bucket at slot `s`. -/
def versionAt (p : Sys) (s : Fin MAX_CAN_ENTRIES) : Nat :=
  (p.shm.buckets s).can_data.sequence

/-- A full table: every bucket `s` is valid, has version 2 and holds the key
`can_id_hash s`, which is below 4096; everything else is as after
initialisation. -/
def full_table : Sys :=
  { fresh with
    shm :=
      { fresh.shm with
        buckets := fun s =>
          { can_data := { CANData.zero with sequence := 2, can_id := can_id_hash s.val },
            is_valid := 1 } } }

/-- The wait of a subscriber to `can_id` that is woken, the region being in
state `p` when the subscriber looks at its home bucket. -/
def woken (p : Sys) (can_id : Nat) : WaitEvent :=
  { timed_out := false, bucket := p.shm.buckets (idx (can_id_hash can_id)) }

/-- The wait of a subscriber to `can_id` that ends with `ETIMEDOUT`, the
region being in state `p` at that time. -/
def expired (p : Sys) (can_id : Nat) : WaitEvent :=
  { timed_out := true, bucket := p.shm.buckets (idx (can_id_hash can_id)) }

/-- What a reader sees when a writer starts while the reader copies: the
first pass loads version 2, copies a record and then loads version 3; every
later pass loads the odd version 3. -/
def racing_obs : Nat → ReadAttempt :=
  fun n =>
    if n = 0 then
      { seq1 := 2, copy := { CANData.zero with sequence := 2, can_id := 0x123, dlc := 8 },
        seq2 := 3 }
    else
      { seq1 := 3, copy := { CANData.zero with sequence := 3, can_id := 0x456, dlc := 4 },
        seq2 := 3 }

/-- The probe loop of `can_shm_get_linear_probing` while writers run: the
probe reads the buckets of `p`, and `obs d` are the passes that
`read_can_data_with_seqlock` then makes on the matching bucket, whose record
was `d` when the probe compared its key. -/
def can_shm_get_linear_probing_racing_loop (p : Sys) (can_id : Nat) (out : CANData)
    (seq2 initial_hash : Nat) (obs : CANData → Nat → ReadAttempt) :
    Nat → Nat → CANShmResult × CANData × Sys
  | 0, _ => (CAN_SHM_ERROR_NOT_FOUND, out, p)
  | n + 1, i =>
    let bucket := p.shm.buckets (idx (initial_hash + i))
    if bucket.is_valid = 0 then (CAN_SHM_ERROR_NOT_FOUND, out, p)
    else if bucket.can_data.can_id = can_id then
      let r := read_can_data_with_seqlock (obs bucket.can_data) seq2 out
      if r.1 = 0 then
        (CAN_SHM_SUCCESS, r.2,
          { p with shm := { p.shm with total_gets := (p.shm.total_gets + 1) % U64 } })
      else (CAN_SHM_ERROR_MUTEX_FAILED, r.2, p)
    else can_shm_get_linear_probing_racing_loop p can_id out seq2 initial_hash obs n (i + 1)

/-- Reader `can_shm_get_linear_probing` while writers run. -/
def can_shm_get_linear_probing_racing (p : Sys) (can_id : Nat) (data_out : Option CANData)
    (seq2 : Nat) (obs : CANData → Nat → ReadAttempt) : CANShmResult × Option CANData × Sys :=
  if p.g_is_initialized = false then (CAN_SHM_ERROR_INIT_FAILED, data_out, p)
  else if is_valid_can_id can_id = false then (CAN_SHM_ERROR_INVALID_ID, data_out, p)
  else
    match data_out with
    | none => (CAN_SHM_ERROR_INVALID_PARAM, none, p)
    | some out =>
      let r := can_shm_get_linear_probing_racing_loop p can_id out seq2 (can_id_hash can_id)
        obs MAX_CAN_ENTRIES 0
      (r.1, some r.2.1, r.2.2)

/-- Reader `can_shm_get` while writers run: the validity test reads the home
bucket of `p`, and `obs d` are the passes that the read loop then makes on
that bucket, whose record was `d` at the test. -/
def can_shm_get_racing (p : Sys) (can_id : Nat) (data_out : Option CANData) (seq2 fuel : Nat)
    (obs : CANData → Nat → ReadAttempt) : Option (CANShmResult × Option CANData × Sys) :=
  if p.g_is_initialized = false then some (CAN_SHM_ERROR_INIT_FAILED, data_out, p)
  else
    match data_out with
    | none => some (CAN_SHM_ERROR_INVALID_PARAM, none, p)
    | some out =>
      if is_valid_can_id can_id = false then some (CAN_SHM_ERROR_INVALID_PARAM, some out, p)
      else
        let bucket := p.shm.buckets (idx (can_id_hash can_id))
        if bucket.is_valid = 0 ∨ bucket.can_data.can_id ≠ can_id then
          some (CAN_SHM_ERROR_NOT_FOUND, some out,
            { p with shm := { p.shm with total_gets := (p.shm.total_gets + 1) % U64 } })
        else
          match can_shm_get_read_loop (obs bucket.can_data) fuel 0 seq2 out with
          | none => none
          | some r =>
            some (CAN_SHM_SUCCESS, some r,
              { p with shm := { p.shm with total_gets := (p.shm.total_gets + 1) % U64 } })

/-- Key `k` is stored in the perfect-hash table with record `r`: the system
and the table are initialised, the slot of `k` is flagged valid and holds
`r`. -/
def PhStored (p : Sys) (k : Nat) (r : CANData) : Prop :=
  p.g_is_initialized = true ∧ p.g_perfect_hash_initialized = true ∧
  p.g_perfect_hash_valid (pidx (can_id_perfect_hash_demo k)) ≠ 0 ∧
  p.g_perfect_hash_table (pidx (can_id_perfect_hash_demo k)) = r

/-- A write operation on the perfect-hash table, with the clock readings it
takes. -/
inductive PhOp where
  | set (c : SetCall) (t_start t_end : Nat)
  | delete (can_id t_start t_end : Nat)

/-- The key a perfect-hash operation is called with. -/
def PhOp.target : PhOp → Nat
  | PhOp.set c _ _ => c.can_id
  | PhOp.delete k _ _ => k

/-- Result and state after one perfect-hash operation. -/
def ph_step (p : Sys) : PhOp → CANShmResult × Sys
  | PhOp.set c t_start t_end =>
    can_shm_set_perfect_hash p c.can_id c.dlc c.data t_start c.ts t_end
  | PhOp.delete k t_start t_end => can_shm_delete_perfect_hash p k t_start t_end

/-- State after a sequence of perfect-hash operations, whatever each one
returns. -/
def ph_run (p : Sys) : List PhOp → Sys
  | [] => p
  | o :: os => ph_run (ph_step p o).2 os

/-! ## Counting, probe distance, deadline and subscription outcome -/

/-- The operation is one of the two write functions of
can_shm_linear_probing.c. -/
def Op.isLp : Op → Prop
  | Op.set _ => False
  | Op.set_lp _ => True
  | Op.delete_lp _ => True

/-- Number of valid buckets of the main table. -/
def valid_count (p : Sys) : Nat :=
  (Finset.univ.filter (fun s => (p.shm.buckets s).is_valid ≠ 0)).card

/-- The probe loop of `can_shm_set_linear_probing`, followed for the local
`probe_distance` only: the loop variable `i` at which a slot is found. -/
def probe_distance_loop (p : Sys) (can_id initial_hash : Nat) : Nat → Nat → Option Nat
  | 0, _ => none
  | n + 1, i =>
    let bucket := p.shm.buckets (idx (initial_hash + i))
    if bucket.is_valid = 0 then some i
    else if bucket.can_data.can_id = can_id then some i
    else probe_distance_loop p can_id initial_hash n (i + 1)

/-- The value of the local `probe_distance` of `can_shm_set_linear_probing`
when it finds a slot for `can_id` in state `p`. -/
def probe_distance (p : Sys) (can_id : Nat) : Option Nat :=
  probe_distance_loop p can_id (can_id_hash can_id) MAX_CAN_ENTRIES 0

/-- Wrap-around of a value into the range of a signed 32-bit `int`. -/
def wrap_int32 (x : Int) : Int :=
  (x + 2147483648) % 4294967296 - 2147483648

/-- Wrap-around of a value into the range of a signed 64-bit `time_t` or
`long`. -/
def wrap_int64 (x : Int) : Int :=
  (x + 9223372036854775808) % 18446744073709551616 - 9223372036854775808

/-- The deadline `timeout_spec` that the loop of `can_shm_subscribe` computes
for `timeout_ms >= 0` from the clock reading `(tv_sec, tv_nsec)`; `/` and `%`
of C truncate towards zero, the product is an `int`, the fields are 64-bit. -/
def subscribe_deadline (timeout_ms tv_sec tv_nsec : Int) : Int × Int :=
  let tv_sec := wrap_int64 (tv_sec + Int.tdiv timeout_ms 1000)
  let tv_nsec := wrap_int64 (tv_nsec + wrap_int32 (Int.tmod timeout_ms 1000 * 1000000))
  if tv_nsec ≥ 1000000000 then (wrap_int64 (tv_sec + 1), wrap_int64 (tv_nsec - 1000000000))
  else (tv_sec, tv_nsec)

/-- The waits that a subscriber gets to examine: with `timeout_ms >= 0` those
before the first wait that timed out, otherwise all of them. -/
def live_waits (timeout_ms : Int) (events : List WaitEvent) : List WaitEvent :=
  if 0 ≤ timeout_ms then events.takeWhile (fun e => !e.timed_out) else events

/-- The records for which the callback is due, in the words of the
specification: those of the waits after which the bucket is valid, holds
`can_id` and has a version different from the last captured one. -/
def due_callbacks (can_id : Nat) : Nat → List WaitEvent → List CANData
  | _, [] => []
  | last, e :: es =>
    if e.bucket.is_valid ≠ 0 ∧ e.bucket.can_data.can_id = can_id ∧
        e.bucket.can_data.sequence ≠ last then
      e.bucket.can_data :: due_callbacks can_id e.bucket.can_data.sequence es
    else due_callbacks can_id last es

/-- Outcome of a subscription in the words of the specification: Success
with the first `subscribe_count` due callbacks once that many are due;
otherwise Timeout at the first timed-out wait; otherwise still waiting. -/
def subscribe_outcome (can_id subscribe_count : Nat) (timeout_ms : Int) (baseline : Nat)
    (events : List WaitEvent) : Option CANShmResult × List CANData :=
  let due := due_callbacks can_id baseline (live_waits timeout_ms events)
  if subscribe_count ≠ 0 ∧ subscribe_count ≤ due.length then
    (some CAN_SHM_SUCCESS, due.take subscribe_count)
  else if (live_waits timeout_ms events).length < events.length then
    (some CAN_SHM_ERROR_TIMEOUT, due)
  else (none, due)

/-- The baseline version that `can_shm_subscribe` captures before its loop. -/
def subscribe_baseline (p : Sys) (can_id : Nat) : Nat :=
  if (p.shm.buckets (idx (can_id_hash can_id))).is_valid ≠ 0 ∧
      (p.shm.buckets (idx (can_id_hash can_id))).can_data.can_id = can_id then
    (p.shm.buckets (idx (can_id_hash can_id))).can_data.sequence
  else 0

/-- State `q` has the region of `p` up to `total_gets`: the same buckets
(record, version and validity flag), `magic_number`, `version`,
`global_sequence`, `total_sets` and `total_subscribes`. -/
def ReadFrame (p q : Sys) : Prop :=
  q.shm.buckets = p.shm.buckets ∧ q.shm.magic_number = p.shm.magic_number ∧
  q.shm.version = p.shm.version ∧ q.shm.global_sequence = p.shm.global_sequence ∧
  q.shm.total_sets = p.shm.total_sets ∧ q.shm.total_subscribes = p.shm.total_subscribes

/-- State `q` has the perfect-hash store of `p`: the same records
`g_perfect_hash_table` and the same validity flags `g_perfect_hash_valid`. -/
def PerfectKept (p q : Sys) : Prop :=
  q.g_perfect_hash_table = p.g_perfect_hash_table ∧
  q.g_perfect_hash_valid = p.g_perfect_hash_valid

/-! ## Basic facts -/

theorem idx_add_inj {h i j : Nat} (hi : i < MAX_CAN_ENTRIES) (hj : j < MAX_CAN_ENTRIES)
    (e : idx (h + i) = idx (h + j)) : i = j := by
  have e2 : (h + i) % 4096 = (h + j) % 4096 := congrArg Fin.val e
  simp only [MAX_CAN_ENTRIES] at hi hj
  omega

theorem can_id_hash_lt (k : Nat) : can_id_hash k < MAX_CAN_ENTRIES :=
  Nat.mod_lt _ (by decide)

theorem idx_hash_inj {a b : Nat} (e : idx (can_id_hash a) = idx (can_id_hash b)) :
    can_id_hash a = can_id_hash b := by
  have e2 : can_id_hash a % 4096 = can_id_hash b % 4096 := congrArg Fin.val e
  have ha := can_id_hash_lt a
  have hb := can_id_hash_lt b
  simp only [MAX_CAN_ENTRIES] at ha hb
  omega

theorem is_valid_can_id_eq_true {k : Nat} (h : k ≤ CAN_ID_MAX) : is_valid_can_id k = true := by
  simp [is_valid_can_id, h]

theorem is_valid_can_id_eq_false {k : Nat} (h : k > CAN_ID_MAX) : is_valid_can_id k = false := by
  simp only [is_valid_can_id, decide_eq_false_iff_not, not_le]
  exact h

theorem add_two_even (s : Nat) (h : s % 2 = 0) : (((s + 1) % U32 + 1) % U32) % 2 = 0 := by
  simp only [U32]
  omega

/-- A quiescent reader of a record with an even version copies it in its
first pass. -/
theorem read_quiescent_even (d : CANData) (seq2 : Nat) (out : CANData)
    (h : d.sequence % 2 = 0) : read_can_data_with_seqlock (quiescent d) seq2 out = (0, d) := by
  simp [read_can_data_with_seqlock, read_can_data_with_seqlock_loop, quiescent, h]

theorem get_read_quiescent_even (d : CANData) (seq2 fuel : Nat) (out : CANData)
    (h : d.sequence % 2 = 0) :
    can_shm_get_read_loop (quiescent d) (fuel + 1) 0 seq2 out = some d := by
  simp [can_shm_get_read_loop, quiescent, h]

theorem fresh_Fresh : Fresh fresh :=
  ⟨rfl, fun _ => rfl⟩

theorem fresh_PerfectStatic : PerfectStatic fresh :=
  fun _ => ⟨rfl, rfl, rfl⟩

theorem init_perfect_SameStore (p : Sys) (h : PerfectStatic p) :
    SameStore p (init_perfect_hash_table p) := by
  unfold init_perfect_hash_table
  split
  · exact ⟨rfl, rfl, rfl, rfl, rfl, rfl⟩
  · rename_i hn
    have hf : p.g_perfect_hash_initialized = false := by simpa using hn
    obtain ⟨h1, h2, h3⟩ := h hf
    exact ⟨rfl, rfl, rfl, h1.symm, h2.symm, h3.symm⟩

/-! ## Validation -/

/-- C5. On an initialised system each of the three set functions returns
InvalidId for an identifier above `CAN_ID_MAX`, and otherwise InvalidParam
when `dlc > 64` or when `dlc > 0` with a `NULL` data pointer; in these cases
`can_shm_set` and `can_shm_set_linear_probing` return the state unchanged and
`can_shm_set_perfect_hash` leaves the region, every table, flag, version and
counter as it was. -/
theorem set_validation_atomic (p : Sys) (can_id dlc : Nat) (data : Option (List Nat))
    (ts t_start t_end : Nat) (hinit : p.g_is_initialized = true) (hstatic : PerfectStatic p) :
    (can_id > CAN_ID_MAX →
      can_shm_set p can_id dlc data ts = (CAN_SHM_ERROR_INVALID_ID, p) ∧
      can_shm_set_linear_probing p can_id dlc data ts = (CAN_SHM_ERROR_INVALID_ID, p) ∧
      (can_shm_set_perfect_hash p can_id dlc data t_start ts t_end).1
        = CAN_SHM_ERROR_INVALID_ID ∧
      SameStore p (can_shm_set_perfect_hash p can_id dlc data t_start ts t_end).2) ∧
    (can_id ≤ CAN_ID_MAX → (dlc > 64 ∨ (dlc > 0 ∧ data = none)) →
      can_shm_set p can_id dlc data ts = (CAN_SHM_ERROR_INVALID_PARAM, p) ∧
      can_shm_set_linear_probing p can_id dlc data ts = (CAN_SHM_ERROR_INVALID_PARAM, p) ∧
      (can_shm_set_perfect_hash p can_id dlc data t_start ts t_end).1
        = CAN_SHM_ERROR_INVALID_PARAM ∧
      SameStore p (can_shm_set_perfect_hash p can_id dlc data t_start ts t_end).2) := by
  have hs := init_perfect_SameStore p hstatic
  constructor
  · intro hk
    have hv := is_valid_can_id_eq_false hk
    refine ⟨?_, ?_, ?_, ?_⟩
    · simp [can_shm_set, hinit, hv]
    · simp [can_shm_set_linear_probing, hinit, hv]
    · simp [can_shm_set_perfect_hash, hinit, hv]
    · simpa [can_shm_set_perfect_hash, hinit, hv] using hs
  · intro hk hbad
    have hv := is_valid_can_id_eq_true hk
    have hcase : dlc > 64 ∨ (¬ dlc > 64 ∧ dlc > 0 ∧ data = none) := by
      rcases hbad with h | h
      · exact Or.inl h
      · by_cases h64 : dlc > 64
        · exact Or.inl h64
        · exact Or.inr ⟨h64, h⟩
    rcases hcase with h | ⟨h64, hpos, hnull⟩
    · refine ⟨?_, ?_, ?_, ?_⟩
      · simp [can_shm_set, hinit, hv, h]
      · simp [can_shm_set_linear_probing, hinit, hv, h]
      · simp [can_shm_set_perfect_hash, hinit, hv, h]
      · simpa [can_shm_set_perfect_hash, hinit, hv, h] using hs
    · refine ⟨?_, ?_, ?_, ?_⟩
      · simp [can_shm_set, hinit, hv, h64, hpos, hnull]
      · simp [can_shm_set_linear_probing, hinit, hv, h64, hpos, hnull]
      · simp [can_shm_set_perfect_hash, hinit, hv, h64, hpos, hnull]
      · simpa [can_shm_set_perfect_hash, hinit, hv, h64, hpos, hnull] using hs

/-- Witness of C5: an identifier of 30 bits and a length of 65 bytes on the
freshly initialised system. -/
theorem set_validation_atomic_witness :
    can_shm_set fresh 0x20000000 2 (some [1, 2]) 5 = (CAN_SHM_ERROR_INVALID_ID, fresh) ∧
    can_shm_set_linear_probing fresh 0x100 65 (some []) 5
      = (CAN_SHM_ERROR_INVALID_PARAM, fresh) :=
  ⟨((set_validation_atomic fresh 0x20000000 2 (some [1, 2]) 5 4 6 rfl fresh_PerfectStatic).1
      (by decide)).1,
   ((set_validation_atomic fresh 0x100 65 (some []) 5 4 6 rfl fresh_PerfectStatic).2
      (by decide) (Or.inl (by decide))).2.1⟩

/-- Result codes for an identifier above `CAN_ID_MAX` on an initialised
system with otherwise valid arguments: the linear-probing and perfect-hash
get and delete return InvalidId, while `can_shm_get`, `can_shm_subscribe` and
`can_shm_subscribe_once` return InvalidParam; `can_shm_get` leaves the state
and the output record untouched. -/
theorem nonset_out_of_range (p : Sys) (K : Nat) (out : CANData) (seq2 fuel count : Nat)
    (timeout_ms : Int) (events : List WaitEvent) (t_start t_end : Nat)
    (hinit : p.g_is_initialized = true) (hK : K > CAN_ID_MAX) :
    (can_shm_get_linear_probing p K (some out) seq2).1 = CAN_SHM_ERROR_INVALID_ID ∧
    (can_shm_delete_linear_probing p K).1 = CAN_SHM_ERROR_INVALID_ID ∧
    (can_shm_get_perfect_hash p K (some out) t_start t_end).1 = CAN_SHM_ERROR_INVALID_ID ∧
    (can_shm_delete_perfect_hash p K t_start t_end).1 = CAN_SHM_ERROR_INVALID_ID ∧
    can_shm_get p K (some out) seq2 fuel = some (CAN_SHM_ERROR_INVALID_PARAM, some out, p) ∧
    (can_shm_subscribe p K count timeout_ms true events).1
      = some CAN_SHM_ERROR_INVALID_PARAM ∧
    (can_shm_subscribe_once p K timeout_ms (some out) events).1
      = some CAN_SHM_ERROR_INVALID_PARAM := by
  have hv := is_valid_can_id_eq_false hK
  refine ⟨?_, ?_, ?_, ?_, ?_, ?_, ?_⟩
  · simp [can_shm_get_linear_probing, hinit, hv]
  · simp [can_shm_delete_linear_probing, hinit, hv]
  · simp [can_shm_get_perfect_hash, hinit, hv]
  · simp [can_shm_delete_perfect_hash, hinit, hv]
  · simp [can_shm_get, hinit, hv]
  · simp [can_shm_subscribe, hinit, hv]
  · simp [can_shm_subscribe_once, can_shm_subscribe, hinit, hv]

/-- The result codes of `nonset_out_of_range` for the identifier `0x20000000`
on the freshly initialised system. -/
theorem nonset_out_of_range_witness :
    (can_shm_get_linear_probing fresh 0x20000000 (some CANData.zero) 0).1
      = CAN_SHM_ERROR_INVALID_ID ∧
    can_shm_get fresh 0x20000000 (some CANData.zero) 0 1
      = some (CAN_SHM_ERROR_INVALID_PARAM, some CANData.zero, fresh) :=
  ⟨(nonset_out_of_range fresh 0x20000000 CANData.zero 0 1 1 100 [] 4 6 rfl (by decide)).1,
   (nonset_out_of_range fresh 0x20000000 CANData.zero 0 1 1 100 [] 4 6 rfl (by decide)).2.2.2.2.1⟩

/-- C6 fails on the code: for the 30-bit identifier `0x20000000` on the
freshly initialised system, with otherwise valid arguments, `can_shm_get`,
`can_shm_subscribe` and `can_shm_subscribe_once` do not return InvalidId.
Their combined guard on the id and the pointer returns InvalidParam, where
`can_shm_set` of the same file and the get and delete of the two other
variants test the id on its own and return InvalidId. -/
theorem nonset_out_of_range_default_api_not_invalid_id :
    Option.map Prod.fst (can_shm_get fresh 0x20000000 (some CANData.zero) 0 1)
      ≠ some CAN_SHM_ERROR_INVALID_ID ∧
    (can_shm_subscribe fresh 0x20000000 1 100 true []).1 ≠ some CAN_SHM_ERROR_INVALID_ID ∧
    (can_shm_subscribe_once fresh 0x20000000 100 (some CANData.zero) []).1
      ≠ some CAN_SHM_ERROR_INVALID_ID := by
  decide

/-! ## Default API -/

/-- State after a `can_shm_set` call that passes validation. -/
theorem can_shm_set_ok (p : Sys) (k d : Nat) (data : Option (List Nat)) (ts : Nat)
    (hinit : p.g_is_initialized = true) (hk : k ≤ CAN_ID_MAX) (hd : d ≤ 64)
    (hnull : d = 0 ∨ data ≠ none) :
    (can_shm_set p k d data ts).1 = CAN_SHM_SUCCESS ∧
    (can_shm_set p k d data ts).2.g_is_initialized = true ∧
    (can_shm_set p k d data ts).2.shm.buckets =
      Function.update p.shm.buckets (idx (can_id_hash k))
        { can_data :=
            { sequence :=
                (((p.shm.buckets (idx (can_id_hash k))).can_data.sequence + 1) % U32 + 1) % U32
              can_id := k
              dlc := d
              data :=
                if d < 64 then
                  memset0 (copy_payload (p.shm.buckets (idx (can_id_hash k))).can_data.data
                    d data) d (64 - d)
                else copy_payload (p.shm.buckets (idx (can_id_hash k))).can_data.data d data
              timestamp := ts }
          is_valid := 1 } := by
  have hv := is_valid_can_id_eq_true hk
  have h64 : ¬ d > 64 := by omega
  have hn : ¬ (d > 0 ∧ data = none) := by
    rintro ⟨h1, h2⟩
    rcases hnull with h | h
    · omega
    · exact h h2
  simp [can_shm_set, hinit, hv, h64, hn]

/-- Bytes of the payload field after the copy and the clearing of the tail
done by `can_shm_set`. -/
theorem set_payload_bytes (old : Fin 64 → Nat) (d : Nat) (data : Option (List Nat))
    (hd : d ≤ 64) (i : Fin 64) :
    (if d < 64 then memset0 (copy_payload old d data) d (64 - d) else copy_payload old d data) i
      = if i.val < d then (if data = none then old i else byteAt data i.val) else 0 := by
  have hi := i.isLt
  cases data with
  | none =>
    by_cases h : d < 64
    · by_cases h2 : i.val < d
      · have : ¬ (d ≤ i.val ∧ i.val < d + (64 - d)) := by omega
        simp [copy_payload, memset0, h, h2, this]
      · have : d ≤ i.val ∧ i.val < d + (64 - d) := by omega
        simp [copy_payload, memset0, h, h2, this]
    · have h2 : i.val < d := by omega
      simp [copy_payload, h, h2]
  | some buf =>
    by_cases h : d < 64
    · by_cases h2 : i.val < d
      · have h3 : ¬ (d ≤ i.val ∧ i.val < d + (64 - d)) := by omega
        have h4 : 0 < d := by omega
        simp [copy_payload, memset0, memcpy, byteAt, h, h2, h3, h4]
      · have h3 : d ≤ i.val ∧ i.val < d + (64 - d) := by omega
        simp [copy_payload, memset0, h, h2, h3]
    · have h2 : i.val < d := by omega
      have h4 : 0 < d := by omega
      simp [copy_payload, memcpy, byteAt, h, h2, h4]

/-- A `can_shm_get` that finds a valid bucket with the requested key and an
even version returns the bucket's record. -/
theorem can_shm_get_hit (p : Sys) (k : Nat) (out : CANData) (seq2 fuel : Nat)
    (hinit : p.g_is_initialized = true) (hk : k ≤ CAN_ID_MAX)
    (hvalid : (p.shm.buckets (idx (can_id_hash k))).is_valid ≠ 0)
    (hid : (p.shm.buckets (idx (can_id_hash k))).can_data.can_id = k)
    (heven : (p.shm.buckets (idx (can_id_hash k))).can_data.sequence % 2 = 0) :
    can_shm_get p k (some out) seq2 (fuel + 1) =
      some (CAN_SHM_SUCCESS, some (p.shm.buckets (idx (can_id_hash k))).can_data,
        { p with shm := { p.shm with total_gets := (p.shm.total_gets + 1) % U64 } }) := by
  have hv := is_valid_can_id_eq_true hk
  simp [can_shm_get, hinit, hv, hvalid, hid, get_read_quiescent_even _ _ _ _ heven]

/-- A quiescent reader of `can_shm_get` never leaves its loop when the
version is odd and differs from the initial content of `seq2`. -/
theorem get_read_quiescent_odd (d : CANData) (seq2 : Nat) (out : CANData)
    (hodd : d.sequence % 2 = 1) (hne : d.sequence ≠ seq2) :
    ∀ fuel pass, can_shm_get_read_loop (quiescent d) fuel pass seq2 out = none := by
  intro fuel
  induction fuel with
  | zero => intro pass; rfl
  | succ n ih =>
    intro pass
    simp [can_shm_get_read_loop, quiescent, hodd, hne]
    exact ih (pass + 1)

/-- With an odd version on the home bucket `can_shm_get` does not return. -/
theorem can_shm_get_stuck (p : Sys) (k : Nat) (out : CANData) (seq2 fuel : Nat)
    (hinit : p.g_is_initialized = true) (hk : k ≤ CAN_ID_MAX)
    (hvalid : (p.shm.buckets (idx (can_id_hash k))).is_valid ≠ 0)
    (hid : (p.shm.buckets (idx (can_id_hash k))).can_data.can_id = k)
    (hodd : (p.shm.buckets (idx (can_id_hash k))).can_data.sequence % 2 = 1)
    (hne : (p.shm.buckets (idx (can_id_hash k))).can_data.sequence ≠ seq2) :
    can_shm_get p k (some out) seq2 fuel = none := by
  have hv := is_valid_can_id_eq_true hk
  simp [can_shm_get, hinit, hv, hvalid, hid, get_read_quiescent_odd _ _ _ hodd hne]

/-- A `can_shm_set` call either fails validation and returns the state
unchanged, or was made on an initialised system with valid arguments. -/
theorem can_shm_set_cases (p : Sys) (k d : Nat) (data : Option (List Nat)) (ts : Nat) :
    (∃ e, e ≠ CAN_SHM_SUCCESS ∧ can_shm_set p k d data ts = (e, p)) ∨
    (p.g_is_initialized = true ∧ k ≤ CAN_ID_MAX ∧ d ≤ 64 ∧ (d = 0 ∨ data ≠ none)) := by
  by_cases h1 : p.g_is_initialized = false
  · exact Or.inl ⟨CAN_SHM_ERROR_INIT_FAILED, by decide, by simp [can_shm_set, h1]⟩
  by_cases h2 : is_valid_can_id k = false
  · exact Or.inl ⟨CAN_SHM_ERROR_INVALID_ID, by decide, by simp [can_shm_set, h1, h2]⟩
  by_cases h3 : d > 64
  · exact Or.inl ⟨CAN_SHM_ERROR_INVALID_PARAM, by decide, by simp [can_shm_set, h1, h2, h3]⟩
  by_cases h4 : d > 0 ∧ data = none
  · exact Or.inl ⟨CAN_SHM_ERROR_INVALID_PARAM, by decide,
      by simp [can_shm_set, h1, h2, h3, h4]⟩
  · right
    refine ⟨by simpa using h1, by simpa [is_valid_can_id] using h2, by omega, ?_⟩
    by_cases hd0 : d = 0
    · exact Or.inl hd0
    · exact Or.inr (fun hn => h4 ⟨by omega, hn⟩)

/-- A `can_shm_set` that returns Success was called on an initialised system
with valid arguments. -/
theorem can_shm_set_success_args (p : Sys) (k d : Nat) (data : Option (List Nat)) (ts : Nat)
    (h : (can_shm_set p k d data ts).1 = CAN_SHM_SUCCESS) :
    p.g_is_initialized = true ∧ k ≤ CAN_ID_MAX ∧ d ≤ 64 ∧ (d = 0 ∨ data ≠ none) := by
  rcases can_shm_set_cases p k d data ts with ⟨e, he, heq⟩ | hok
  · rw [heq] at h
    exact absurd h he
  · exact hok

/-- What any `can_shm_set` call does to the table: the initialisation flag is
kept, only the home bucket of the key can change, and a changed home
bucket is valid and holds the key. -/
theorem can_shm_set_frame (p : Sys) (k d : Nat) (data : Option (List Nat)) (ts : Nat) :
    (can_shm_set p k d data ts).2.g_is_initialized = p.g_is_initialized ∧
    (∀ s, s ≠ idx (can_id_hash k) →
      (can_shm_set p k d data ts).2.shm.buckets s = p.shm.buckets s) ∧
    ((can_shm_set p k d data ts).2.shm.buckets (idx (can_id_hash k))
        = p.shm.buckets (idx (can_id_hash k)) ∨
      (((can_shm_set p k d data ts).2.shm.buckets (idx (can_id_hash k))).is_valid ≠ 0 ∧
        ((can_shm_set p k d data ts).2.shm.buckets (idx (can_id_hash k))).can_data.can_id
          = k)) := by
  rcases can_shm_set_cases p k d data ts with ⟨e, _, heq⟩ | ⟨hinit, hk, hd, hnull⟩
  · rw [heq]
    exact ⟨rfl, fun _ _ => rfl, Or.inl rfl⟩
  · obtain ⟨_, h2, h3⟩ := can_shm_set_ok p k d data ts hinit hk hd hnull
    refine ⟨by rw [h2, hinit], ?_, Or.inr ?_⟩
    · intro s hs
      rw [h3, Function.update_noteq hs]
    · rw [h3, Function.update_same]
      exact ⟨Nat.one_ne_zero, rfl⟩

/-- A `can_shm_get` on a home bucket that is invalid or holds another key
returns NotFound, for any bound on the passes of the read loop. -/
theorem can_shm_get_miss (p : Sys) (k : Nat) (out : CANData) (seq2 fuel : Nat)
    (hinit : p.g_is_initialized = true) (hk : k ≤ CAN_ID_MAX)
    (hmiss : (p.shm.buckets (idx (can_id_hash k))).is_valid = 0 ∨
      (p.shm.buckets (idx (can_id_hash k))).can_data.can_id ≠ k) :
    can_shm_get p k (some out) seq2 fuel =
      some (CAN_SHM_ERROR_NOT_FOUND, some out,
        { p with shm := { p.shm with total_gets := (p.shm.total_gets + 1) % U64 } }) := by
  have hv := is_valid_can_id_eq_true hk
  simp [can_shm_get, hinit, hv, hmiss]

/-- Reading back a home bucket that holds what `can_shm_set` stores for
`(k, d, data)` over a bucket `old` with an even version. -/
theorem can_shm_get_written (q : Sys) (old : CANBucket) (k d : Nat)
    (data : Option (List Nat)) (ts : Nat) (out : CANData) (seq2 fuel : Nat)
    (hinit : q.g_is_initialized = true) (hk : k ≤ CAN_ID_MAX) (hd : d ≤ 64)
    (hnull : d = 0 ∨ data ≠ none) (heven : old.can_data.sequence % 2 = 0)
    (hb : q.shm.buckets (idx (can_id_hash k)) =
      { can_data :=
          { sequence := ((old.can_data.sequence + 1) % U32 + 1) % U32
            can_id := k
            dlc := d
            data :=
              if d < 64 then memset0 (copy_payload old.can_data.data d data) d (64 - d)
              else copy_payload old.can_data.data d data
            timestamp := ts }
        is_valid := 1 }) :
    ∃ r q1, can_shm_get q k (some out) seq2 (fuel + 1) = some (CAN_SHM_SUCCESS, some r, q1) ∧
      r.can_id = k ∧ r.dlc = d ∧
      (∀ i : Fin 64, i.val < d → r.data i = byteAt data i.val) ∧
      (∀ i : Fin 64, d ≤ i.val → r.data i = 0) := by
  have hget := can_shm_get_hit q k out seq2 fuel hinit hk
    (by rw [hb]; exact Nat.one_ne_zero) (by rw [hb]) (by rw [hb]; exact add_two_even _ heven)
  refine ⟨_, _, hget, by rw [hb], by rw [hb], ?_, ?_⟩
  · intro i hi
    rw [hb]
    have hne : data ≠ none := by
      rcases hnull with h | h
      · omega
      · exact h
    exact (set_payload_bytes _ d data hd i).trans (by rw [if_pos hi, if_neg hne])
  · intro i hi
    rw [hb]
    exact (set_payload_bytes _ d data hd i).trans (by rw [if_neg (by omega)])

/-- Round trip of the default API on an even version.  For every valid
identifier, every `dlc ≤ 64` with its data (`NULL` allowed when `dlc = 0`)
and every state of an initialised system in which the version of the
identifier's home bucket is even, `can_shm_set` returns Success and the
`can_shm_get` that follows returns Success with a record whose `can_id`,
`dlc` and first `dlc` bytes are the arguments and whose remaining bytes are
zero. -/
theorem default_set_get_roundtrip (p : Sys) (k d : Nat) (data : Option (List Nat)) (ts : Nat)
    (out : CANData) (seq2 fuel : Nat)
    (hinit : p.g_is_initialized = true) (hk : k ≤ CAN_ID_MAX) (hd : d ≤ 64)
    (hnull : d = 0 ∨ data ≠ none)
    (heven : (p.shm.buckets (idx (can_id_hash k))).can_data.sequence % 2 = 0) :
    (can_shm_set p k d data ts).1 = CAN_SHM_SUCCESS ∧
    ∃ r q, can_shm_get (can_shm_set p k d data ts).2 k (some out) seq2 (fuel + 1)
        = some (CAN_SHM_SUCCESS, some r, q) ∧
      r.can_id = k ∧ r.dlc = d ∧
      (∀ i : Fin 64, i.val < d → r.data i = byteAt data i.val) ∧
      (∀ i : Fin 64, d ≤ i.val → r.data i = 0) := by
  obtain ⟨h1, h2, h3⟩ := can_shm_set_ok p k d data ts hinit hk hd hnull
  refine ⟨h1, ?_⟩
  have hb := congrFun h3 (idx (can_id_hash k))
  rw [Function.update_same] at hb
  exact can_shm_get_written _ (p.shm.buckets (idx (can_id_hash k))) k d data ts out seq2 fuel
    h2 hk hd hnull heven hb

/-- The round trip of `default_set_get_roundtrip` when a 4-byte value
overwrites an 8-byte value of `0x100`. -/
theorem default_set_get_roundtrip_witness :
    (can_shm_set (can_shm_set fresh 0x100 8 (some [1, 2, 3, 4, 5, 6, 7, 8]) 5).2 0x100 4
      (some [0xAA, 0xBB, 0xCC, 0xDD]) 6).1 = CAN_SHM_SUCCESS ∧
    ∃ r q, can_shm_get
        (can_shm_set (can_shm_set fresh 0x100 8 (some [1, 2, 3, 4, 5, 6, 7, 8]) 5).2 0x100 4
          (some [0xAA, 0xBB, 0xCC, 0xDD]) 6).2 0x100 (some CANData.zero) 0 (0 + 1)
        = some (CAN_SHM_SUCCESS, some r, q) ∧
      r.can_id = 0x100 ∧ r.dlc = 4 ∧
      (∀ i : Fin 64, i.val < 4 → r.data i = byteAt (some [0xAA, 0xBB, 0xCC, 0xDD]) i.val) ∧
      (∀ i : Fin 64, 4 ≤ i.val → r.data i = 0) :=
  default_set_get_roundtrip (can_shm_set fresh 0x100 8 (some [1, 2, 3, 4, 5, 6, 7, 8]) 5).2
    0x100 4 (some [0xAA, 0xBB, 0xCC, 0xDD]) 6 CANData.zero 0 0
    (by decide) (by decide) (by decide) (Or.inr (by simp)) (by decide)

/-- What an odd version would do.  On the state `stalled`, where the version
of the home bucket of `0x123` is odd, `can_shm_set` returns Success and
leaves the version odd, and the read loop of the following `can_shm_get` is
not left after any number of passes.  No sequence of set and delete calls
on a freshly initialised region leads to such a state
(`stalled_not_reachable`). -/
theorem default_roundtrip_fails_on_odd_version :
    (can_shm_set stalled 0x123 8 (some [1, 2, 3, 4, 5, 6, 7, 8]) 5).1 = CAN_SHM_SUCCESS ∧
    ¬ ∃ fuel r q,
      can_shm_get (can_shm_set stalled 0x123 8 (some [1, 2, 3, 4, 5, 6, 7, 8]) 5).2 0x123
        (some CANData.zero) 0 fuel = some (CAN_SHM_SUCCESS, r, q) := by
  refine ⟨by decide, ?_⟩
  rintro ⟨fuel, r, q, h⟩
  rw [can_shm_get_stuck _ _ _ _ _ (by decide) (by decide) (by decide) (by decide) (by decide)
    (by decide)] at h
  cases h

/-! ## Linear probing: what the loops do -/

/-- The probe loop of the writer either scans only valid buckets of other
keys and returns the table-full code with the state unchanged, or stops at
the first slot `j` that is invalid or holds the key and stores there. -/
theorem set_lp_loop_cases (p : Sys) (k d : Nat) (data : Option (List Nat)) (ts h : Nat) :
    ∀ n i,
      (can_shm_set_linear_probing_loop p k d data ts h n i = (CAN_SHM_ERROR_NOT_FOUND, p) ∧
        ∀ j, i ≤ j → j < i + n →
          (p.shm.buckets (idx (h + j))).is_valid ≠ 0 ∧
          (p.shm.buckets (idx (h + j))).can_data.can_id ≠ k) ∨
      ∃ j, i ≤ j ∧ j < i + n ∧
        (∀ j', i ≤ j' → j' < j →
          (p.shm.buckets (idx (h + j'))).is_valid ≠ 0 ∧
          (p.shm.buckets (idx (h + j'))).can_data.can_id ≠ k) ∧
        ((p.shm.buckets (idx (h + j))).is_valid = 0 ∨
          (p.shm.buckets (idx (h + j))).can_data.can_id = k) ∧
        (can_shm_set_linear_probing_loop p k d data ts h n i).1 = CAN_SHM_SUCCESS ∧
        (can_shm_set_linear_probing_loop p k d data ts h n i).2.g_is_initialized
          = p.g_is_initialized ∧
        (can_shm_set_linear_probing_loop p k d data ts h n i).2.shm.buckets
          = Function.update p.shm.buckets (idx (h + j))
              (lp_written (p.shm.buckets (idx (h + j))) k d data ts) := by
  intro n
  induction n with
  | zero =>
    intro i
    exact Or.inl ⟨rfl, fun j h1 h2 => by omega⟩
  | succ n ih =>
    intro i
    by_cases hv : (p.shm.buckets (idx (h + i))).is_valid = 0
    · right
      refine ⟨i, le_refl _, by omega, fun j' h1 h2 => by omega, Or.inl hv, ?_, ?_, ?_⟩
      · simp [can_shm_set_linear_probing_loop, hv]
      · simp [can_shm_set_linear_probing_loop, hv, set_found]
      · simp [can_shm_set_linear_probing_loop, hv, set_found, lp_written]
    · by_cases hid : (p.shm.buckets (idx (h + i))).can_data.can_id = k
      · right
        refine ⟨i, le_refl _, by omega, fun j' h1 h2 => by omega, Or.inr hid, ?_, ?_, ?_⟩
        · simp [can_shm_set_linear_probing_loop, hv, hid]
        · simp [can_shm_set_linear_probing_loop, hv, hid, set_found]
        · simp [can_shm_set_linear_probing_loop, hv, hid, set_found, lp_written,
            write_can_data_with_seqlock]
      · have hstep : can_shm_set_linear_probing_loop p k d data ts h (n + 1) i
            = can_shm_set_linear_probing_loop p k d data ts h n (i + 1) := by
          simp [can_shm_set_linear_probing_loop, hv, hid]
        rw [hstep]
        rcases ih (i + 1) with ⟨heq, hall⟩ | ⟨j, h1, h2, h3, h4, h5, h6, h7⟩
        · left
          refine ⟨heq, fun j hj1 hj2 => ?_⟩
          rcases Nat.eq_or_lt_of_le hj1 with e | lt
          · subst e
            exact ⟨hv, hid⟩
          · exact hall j (by omega) (by omega)
        · right
          refine ⟨j, by omega, by omega, fun j' hj1 hj2 => ?_, h4, h5, h6, h7⟩
          rcases Nat.eq_or_lt_of_le hj1 with e | lt
          · subst e
            exact ⟨hv, hid⟩
          · exact h3 j' (by omega) hj2

/-- A `can_shm_set_linear_probing` call either returns an error with the
state unchanged, or was made on an initialised system with valid arguments
and stored into the first slot of the probe sequence that was invalid or
held the key. -/
theorem set_lp_cases (p : Sys) (k d : Nat) (data : Option (List Nat)) (ts : Nat) :
    (∃ e, e ≠ CAN_SHM_SUCCESS ∧ can_shm_set_linear_probing p k d data ts = (e, p)) ∨
    (p.g_is_initialized = true ∧ k ≤ CAN_ID_MAX ∧ d ≤ 64 ∧ (d = 0 ∨ data ≠ none) ∧
      ∃ j, j < MAX_CAN_ENTRIES ∧
        (∀ j', j' < j →
          (p.shm.buckets (idx (can_id_hash k + j'))).is_valid ≠ 0 ∧
          (p.shm.buckets (idx (can_id_hash k + j'))).can_data.can_id ≠ k) ∧
        ((p.shm.buckets (idx (can_id_hash k + j))).is_valid = 0 ∨
          (p.shm.buckets (idx (can_id_hash k + j))).can_data.can_id = k) ∧
        (can_shm_set_linear_probing p k d data ts).1 = CAN_SHM_SUCCESS ∧
        (can_shm_set_linear_probing p k d data ts).2.g_is_initialized = true ∧
        (can_shm_set_linear_probing p k d data ts).2.shm.buckets
          = Function.update p.shm.buckets (idx (can_id_hash k + j))
              (lp_written (p.shm.buckets (idx (can_id_hash k + j))) k d data ts)) := by
  by_cases h1 : p.g_is_initialized = false
  · exact Or.inl ⟨CAN_SHM_ERROR_INIT_FAILED, by decide,
      by simp [can_shm_set_linear_probing, h1]⟩
  by_cases h2 : is_valid_can_id k = false
  · exact Or.inl ⟨CAN_SHM_ERROR_INVALID_ID, by decide,
      by simp [can_shm_set_linear_probing, h1, h2]⟩
  by_cases h3 : d > 64
  · exact Or.inl ⟨CAN_SHM_ERROR_INVALID_PARAM, by decide,
      by simp [can_shm_set_linear_probing, h1, h2, h3]⟩
  by_cases h4 : d > 0 ∧ data = none
  · exact Or.inl ⟨CAN_SHM_ERROR_INVALID_PARAM, by decide,
      by simp [can_shm_set_linear_probing, h1, h2, h3, h4]⟩
  have hrun : can_shm_set_linear_probing p k d data ts
      = can_shm_set_linear_probing_loop p k d data ts (can_id_hash k) MAX_CAN_ENTRIES 0 := by
    simp [can_shm_set_linear_probing, h1, h2, h3, h4]
  have hinit : p.g_is_initialized = true := by simpa using h1
  rw [hrun]
  rcases set_lp_loop_cases p k d data ts (can_id_hash k) MAX_CAN_ENTRIES 0 with
    ⟨heq, _⟩ | ⟨j, _, hj, hbefore, hat, hres, hini, hb⟩
  · exact Or.inl ⟨CAN_SHM_ERROR_NOT_FOUND, by decide, heq⟩
  · right
    refine ⟨hinit, by simpa [is_valid_can_id] using h2, by omega, ?_, j, by omega,
      fun j' hj' => hbefore j' (Nat.zero_le _) hj', hat, hres, by rw [hini, hinit], hb⟩
    by_cases hd0 : d = 0
    · exact Or.inl hd0
    · exact Or.inr (fun hn => h4 ⟨by omega, hn⟩)

/-- The probe loop of the reader, when slot `j` is the first one that holds
the key, every earlier slot being valid, and the version there is even:
the record of slot `j` is returned. -/
theorem get_lp_loop_hit (p : Sys) (k : Nat) (out : CANData) (seq2 h j : Nat)
    (hvalid : (p.shm.buckets (idx (h + j))).is_valid ≠ 0)
    (hid : (p.shm.buckets (idx (h + j))).can_data.can_id = k)
    (heven : (p.shm.buckets (idx (h + j))).can_data.sequence % 2 = 0) :
    ∀ n i, i ≤ j → j < i + n →
      (∀ j', i ≤ j' → j' < j →
        (p.shm.buckets (idx (h + j'))).is_valid ≠ 0 ∧
        (p.shm.buckets (idx (h + j'))).can_data.can_id ≠ k) →
      can_shm_get_linear_probing_loop p k out seq2 h n i =
        (CAN_SHM_SUCCESS, (p.shm.buckets (idx (h + j))).can_data,
          { p with shm := { p.shm with total_gets := (p.shm.total_gets + 1) % U64 } }) := by
  intro n
  induction n with
  | zero => intro i h1 h2; omega
  | succ n ih =>
    intro i h1 h2 hbefore
    rcases Nat.eq_or_lt_of_le h1 with e | lt
    · subst e
      simp [can_shm_get_linear_probing_loop, hvalid, hid, read_quiescent_even _ _ _ heven]
    · obtain ⟨hv, hne⟩ := hbefore i (le_refl _) lt
      have hstep : can_shm_get_linear_probing_loop p k out seq2 h (n + 1) i
          = can_shm_get_linear_probing_loop p k out seq2 h n (i + 1) := by
        simp [can_shm_get_linear_probing_loop, hv, hne]
      rw [hstep]
      exact ih (i + 1) (by omega) (by omega) (fun j' a b => hbefore j' (by omega) b)

/-- The probe loop of the reader, when it meets an invalid slot `j` before
any slot holding the key: NotFound, nothing changed. -/
theorem get_lp_loop_stop (p : Sys) (k : Nat) (out : CANData) (seq2 h j : Nat)
    (hinvalid : (p.shm.buckets (idx (h + j))).is_valid = 0) :
    ∀ n i, i ≤ j →
      (∀ j', i ≤ j' → j' < j →
        (p.shm.buckets (idx (h + j'))).is_valid ≠ 0 ∧
        (p.shm.buckets (idx (h + j'))).can_data.can_id ≠ k) →
      can_shm_get_linear_probing_loop p k out seq2 h n i = (CAN_SHM_ERROR_NOT_FOUND, out, p) := by
  intro n
  induction n with
  | zero => intro i _ _; rfl
  | succ n ih =>
    intro i h1 hbefore
    rcases Nat.eq_or_lt_of_le h1 with e | lt
    · subst e
      simp [can_shm_get_linear_probing_loop, hinvalid]
    · obtain ⟨hv, hne⟩ := hbefore i (le_refl _) lt
      have hstep : can_shm_get_linear_probing_loop p k out seq2 h (n + 1) i
          = can_shm_get_linear_probing_loop p k out seq2 h n (i + 1) := by
        simp [can_shm_get_linear_probing_loop, hv, hne]
      rw [hstep]
      exact ih (i + 1) (by omega) (fun j' a b => hbefore j' (by omega) b)

/-- The probe loop of the reader on a table in which no valid bucket holds
the key: NotFound, nothing changed. -/
theorem get_lp_loop_nokey (p : Sys) (k : Nat) (out : CANData) (seq2 h : Nat)
    (hno : ∀ s, (p.shm.buckets s).is_valid ≠ 0 → (p.shm.buckets s).can_data.can_id ≠ k) :
    ∀ n i,
      can_shm_get_linear_probing_loop p k out seq2 h n i = (CAN_SHM_ERROR_NOT_FOUND, out, p) := by
  intro n
  induction n with
  | zero => intro i; rfl
  | succ n ih =>
    intro i
    by_cases hv : (p.shm.buckets (idx (h + i))).is_valid = 0
    · simp [can_shm_get_linear_probing_loop, hv]
    · have hne := hno _ hv
      simp [can_shm_get_linear_probing_loop, hv, hne]
      exact ih (i + 1)

/-- The probe loop of delete either returns NotFound with the state
unchanged, or clears the first slot `j` that holds the key, every earlier
slot being valid with another key. -/
theorem delete_lp_loop_cases (p : Sys) (k h : Nat) :
    ∀ n i,
      can_shm_delete_linear_probing_loop p k h n i = (CAN_SHM_ERROR_NOT_FOUND, p) ∨
      ∃ j, i ≤ j ∧ j < i + n ∧
        (∀ j', i ≤ j' → j' < j →
          (p.shm.buckets (idx (h + j'))).is_valid ≠ 0 ∧
          (p.shm.buckets (idx (h + j'))).can_data.can_id ≠ k) ∧
        (p.shm.buckets (idx (h + j))).is_valid ≠ 0 ∧
        (p.shm.buckets (idx (h + j))).can_data.can_id = k ∧
        (can_shm_delete_linear_probing_loop p k h n i).1 = CAN_SHM_SUCCESS ∧
        (can_shm_delete_linear_probing_loop p k h n i).2.g_is_initialized
          = p.g_is_initialized ∧
        (can_shm_delete_linear_probing_loop p k h n i).2.shm.buckets
          = Function.update p.shm.buckets (idx (h + j)) CANBucket.zero := by
  intro n
  induction n with
  | zero => intro i; exact Or.inl rfl
  | succ n ih =>
    intro i
    by_cases hv : (p.shm.buckets (idx (h + i))).is_valid = 0
    · left
      simp [can_shm_delete_linear_probing_loop, hv]
    · by_cases hid : (p.shm.buckets (idx (h + i))).can_data.can_id = k
      · right
        refine ⟨i, le_refl _, by omega, fun j' h1 h2 => by omega, hv, hid, ?_, ?_, ?_⟩
        · simp [can_shm_delete_linear_probing_loop, hv, hid]
        · simp [can_shm_delete_linear_probing_loop, hv, hid]
        · simp [can_shm_delete_linear_probing_loop, hv, hid, CANBucket.zero]
      · have hstep : can_shm_delete_linear_probing_loop p k h (n + 1) i
            = can_shm_delete_linear_probing_loop p k h n (i + 1) := by
          simp [can_shm_delete_linear_probing_loop, hv, hid]
        rw [hstep]
        rcases ih (i + 1) with heq | ⟨j, h1, h2, h3, h4, h5, h6, h7, h8⟩
        · exact Or.inl heq
        · right
          refine ⟨j, by omega, by omega, fun j' hj1 hj2 => ?_, h4, h5, h6, h7, h8⟩
          rcases Nat.eq_or_lt_of_le hj1 with e | lt
          · subst e
            exact ⟨hv, hid⟩
          · exact h3 j' (by omega) hj2

/-- A `can_shm_delete_linear_probing` call either returns an error with the
state unchanged, or was made on an initialised system with a valid key and
cleared the first slot of the probe sequence that held the key. -/
theorem delete_lp_cases (p : Sys) (k : Nat) :
    (∃ e, e ≠ CAN_SHM_SUCCESS ∧ can_shm_delete_linear_probing p k = (e, p)) ∨
    (p.g_is_initialized = true ∧ k ≤ CAN_ID_MAX ∧
      ∃ j, j < MAX_CAN_ENTRIES ∧
        (∀ j', j' < j →
          (p.shm.buckets (idx (can_id_hash k + j'))).is_valid ≠ 0 ∧
          (p.shm.buckets (idx (can_id_hash k + j'))).can_data.can_id ≠ k) ∧
        (p.shm.buckets (idx (can_id_hash k + j))).is_valid ≠ 0 ∧
        (p.shm.buckets (idx (can_id_hash k + j))).can_data.can_id = k ∧
        (can_shm_delete_linear_probing p k).1 = CAN_SHM_SUCCESS ∧
        (can_shm_delete_linear_probing p k).2.g_is_initialized = true ∧
        (can_shm_delete_linear_probing p k).2.shm.buckets
          = Function.update p.shm.buckets (idx (can_id_hash k + j)) CANBucket.zero) := by
  by_cases h1 : p.g_is_initialized = false
  · exact Or.inl ⟨CAN_SHM_ERROR_INIT_FAILED, by decide,
      by simp [can_shm_delete_linear_probing, h1]⟩
  by_cases h2 : is_valid_can_id k = false
  · exact Or.inl ⟨CAN_SHM_ERROR_INVALID_ID, by decide,
      by simp [can_shm_delete_linear_probing, h1, h2]⟩
  have hrun : can_shm_delete_linear_probing p k
      = can_shm_delete_linear_probing_loop p k (can_id_hash k) MAX_CAN_ENTRIES 0 := by
    simp [can_shm_delete_linear_probing, h1, h2]
  have hinit : p.g_is_initialized = true := by simpa using h1
  rw [hrun]
  rcases delete_lp_loop_cases p k (can_id_hash k) MAX_CAN_ENTRIES 0 with
    heq | ⟨j, _, hj, hbefore, hv, hid, hres, hini, hb⟩
  · exact Or.inl ⟨CAN_SHM_ERROR_NOT_FOUND, by decide, heq⟩
  · exact Or.inr ⟨hinit, by simpa [is_valid_can_id] using h2, j, by omega,
      fun j' hj' => hbefore j' (Nat.zero_le _) hj', hv, hid, hres, by rw [hini, hinit], hb⟩

/-- Whenever the probe loop of the reader ends with NotFound, the probe loop
of delete ends with NotFound too and changes nothing. -/
theorem delete_lp_loop_of_get_not_found (p : Sys) (k : Nat) (out : CANData) (seq2 h : Nat) :
    ∀ n i,
      (can_shm_get_linear_probing_loop p k out seq2 h n i).1 = CAN_SHM_ERROR_NOT_FOUND →
      can_shm_delete_linear_probing_loop p k h n i = (CAN_SHM_ERROR_NOT_FOUND, p) := by
  intro n
  induction n with
  | zero => intro i _; rfl
  | succ n ih =>
    intro i hget
    by_cases hv : (p.shm.buckets (idx (h + i))).is_valid = 0
    · simp [can_shm_delete_linear_probing_loop, hv]
    · by_cases hid : (p.shm.buckets (idx (h + i))).can_data.can_id = k
      · exfalso
        simp only [can_shm_get_linear_probing_loop, hv, hid, if_false, if_true] at hget
        split_ifs at hget
      · have hstep : can_shm_get_linear_probing_loop p k out seq2 h (n + 1) i
            = can_shm_get_linear_probing_loop p k out seq2 h n (i + 1) := by
          simp [can_shm_get_linear_probing_loop, hv, hid]
        rw [hstep] at hget
        have hstep2 : can_shm_delete_linear_probing_loop p k h (n + 1) i
            = can_shm_delete_linear_probing_loop p k h n (i + 1) := by
          simp [can_shm_delete_linear_probing_loop, hv, hid]
        rw [hstep2]
        exact ih (i + 1) hget

/-! ## Call sequences and invariants -/

theorem step_set_lp_eq (p : Sys) (c : SetCall) :
    step p (Op.set_lp c) = can_shm_set_linear_probing p c.can_id c.dlc c.data c.ts := rfl

theorem run_append (p : Sys) (a b : List Op) : run p (a ++ b) = run (run p a) b := by
  induction a generalizing p with
  | nil => rfl
  | cons o os ih => exact ih (step p o).2

theorem all_success_append (p : Sys) (a b : List Op) :
    all_success p (a ++ b) = (all_success p a && all_success (run p a) b) := by
  induction a generalizing p with
  | nil => simp [all_success, run]
  | cons o os ih =>
    show (decide ((step p o).1 = CAN_SHM_SUCCESS) && all_success (step p o).2 (os ++ b)) = _
    rw [ih]
    simp only [all_success, run, Bool.and_assoc]

theorem lp_written_valid (b : CANBucket) (k d : Nat) (data : Option (List Nat)) (ts : Nat) :
    (lp_written b k d data ts).is_valid ≠ 0 := by
  unfold lp_written
  by_cases h : b.is_valid = 0
  · simp [h]
  · simp [h]

theorem lp_written_can_id (b : CANBucket) (k d : Nat) (data : Option (List Nat)) (ts : Nat) :
    (lp_written b k d data ts).can_data.can_id = k := rfl

theorem lp_written_dlc (b : CANBucket) (k d : Nat) (data : Option (List Nat)) (ts : Nat) :
    (lp_written b k d data ts).can_data.dlc = d := rfl

theorem lp_written_even (b : CANBucket) (k d : Nat) (data : Option (List Nat)) (ts : Nat)
    (h : b.can_data.sequence % 2 = 0) :
    (lp_written b k d data ts).can_data.sequence % 2 = 0 :=
  add_two_even _ h

theorem lp_written_data (b : CANBucket) (k d : Nat) (data : Option (List Nat)) (ts : Nat)
    (hnull : d = 0 ∨ data ≠ none) (i : Fin 64) (hi : i.val < d) :
    (lp_written b k d data ts).can_data.data i = byteAt data i.val := by
  show copy_payload b.can_data.data d data i = byteAt data i.val
  cases data with
  | none =>
    rcases hnull with h | h
    · omega
    · exact absurd rfl h
  | some buf =>
    have hpos : 0 < d := by omega
    simp [copy_payload, memcpy, byteAt, hpos, hi]

/-- Every operation keeps the initialisation flag. -/
theorem step_initialized (p : Sys) (o : Op) :
    (step p o).2.g_is_initialized = p.g_is_initialized := by
  cases o with
  | set c => exact (can_shm_set_frame p c.can_id c.dlc c.data c.ts).1
  | set_lp c =>
    rcases set_lp_cases p c.can_id c.dlc c.data c.ts with
      ⟨e, _, heq⟩ | ⟨hinit, _, _, _, j, _, _, _, _, hini, _⟩
    · show (can_shm_set_linear_probing p c.can_id c.dlc c.data c.ts).2.g_is_initialized = _
      rw [heq]
    · show (can_shm_set_linear_probing p c.can_id c.dlc c.data c.ts).2.g_is_initialized = _
      rw [hini, hinit]
  | delete_lp k =>
    rcases delete_lp_cases p k with ⟨e, _, heq⟩ | ⟨hinit, _, j, _, _, _, _, _, hini, _⟩
    · show (can_shm_delete_linear_probing p k).2.g_is_initialized = _
      rw [heq]
    · show (can_shm_delete_linear_probing p k).2.g_is_initialized = _
      rw [hini, hinit]

theorem run_initialized (p : Sys) (ops : List Op) :
    (run p ops).g_is_initialized = p.g_is_initialized := by
  induction ops generalizing p with
  | nil => rfl
  | cons o os ih =>
    show (run (step p o).2 os).g_is_initialized = _
    rw [ih, step_initialized]

theorem fresh_NoKey (p : Sys) (h : Fresh p) (k : Nat) : NoKey p k := by
  intro s hv
  rw [h.2 s] at hv
  exact absurd rfl hv

theorem fresh_EvenVersions (p : Sys) (h : Fresh p) : EvenVersions p := by
  intro s
  rw [h.2 s]
  rfl

theorem fresh_ProbeChain (p : Sys) (h : Fresh p) : ProbeChain p := by
  intro s d hv
  unfold validAt at hv
  rw [h.2 s] at hv
  exact absurd rfl hv

/-- An operation on another key leaves `NoKey` in place. -/
theorem step_NoKey (p : Sys) (o : Op) (k : Nat) (ht : o.target ≠ k) (h : NoKey p k) :
    NoKey (step p o).2 k := by
  cases o with
  | set c =>
    obtain ⟨_, hother, hhome⟩ := can_shm_set_frame p c.can_id c.dlc c.data c.ts
    intro s hv
    show ((can_shm_set p c.can_id c.dlc c.data c.ts).2.shm.buckets s).can_data.can_id ≠ k
    have hv2 : ((can_shm_set p c.can_id c.dlc c.data c.ts).2.shm.buckets s).is_valid ≠ 0 := hv
    by_cases hs : s = idx (can_id_hash c.can_id)
    · subst hs
      rcases hhome with heq | ⟨_, hid⟩
      · rw [heq] at hv2 ⊢
        exact h _ hv2
      · rw [hid]
        exact ht
    · rw [hother s hs] at hv2 ⊢
      exact h _ hv2
  | set_lp c =>
    rcases set_lp_cases p c.can_id c.dlc c.data c.ts with
      ⟨e, _, heq⟩ | ⟨_, _, _, _, j, _, _, _, _, _, hb⟩
    · show NoKey (can_shm_set_linear_probing p c.can_id c.dlc c.data c.ts).2 k
      rw [heq]
      exact h
    · intro s hv
      show ((can_shm_set_linear_probing p c.can_id c.dlc c.data c.ts).2.shm.buckets s
        ).can_data.can_id ≠ k
      have hv2 : ((can_shm_set_linear_probing p c.can_id c.dlc c.data c.ts).2.shm.buckets s
        ).is_valid ≠ 0 := hv
      rw [hb] at hv2 ⊢
      by_cases hs : s = idx (can_id_hash c.can_id + j)
      · subst hs
        rw [Function.update_same, lp_written_can_id]
        exact ht
      · rw [Function.update_noteq hs] at hv2 ⊢
        exact h _ hv2
  | delete_lp k2 =>
    rcases delete_lp_cases p k2 with ⟨e, _, heq⟩ | ⟨_, _, j, _, _, _, _, _, _, hb⟩
    · show NoKey (can_shm_delete_linear_probing p k2).2 k
      rw [heq]
      exact h
    · intro s hv
      show ((can_shm_delete_linear_probing p k2).2.shm.buckets s).can_data.can_id ≠ k
      have hv2 : ((can_shm_delete_linear_probing p k2).2.shm.buckets s).is_valid ≠ 0 := hv
      rw [hb] at hv2 ⊢
      by_cases hs : s = idx (can_id_hash k2 + j)
      · subst hs
        rw [Function.update_same] at hv2
        exact absurd rfl hv2
      · rw [Function.update_noteq hs] at hv2 ⊢
        exact h _ hv2

theorem run_NoKey (p : Sys) (ops : List Op) (k : Nat) (ht : ∀ o ∈ ops, o.target ≠ k)
    (h : NoKey p k) : NoKey (run p ops) k := by
  induction ops generalizing p with
  | nil => exact h
  | cons o os ih =>
    exact ih (step p o).2 (fun x hx => ht x (List.mem_cons_of_mem _ hx))
      (step_NoKey p o k (ht o (List.mem_cons_self _ _)) h)

/-- The reader of the linear-probing table on a table without the key. -/
theorem get_lp_NoKey (p : Sys) (k : Nat) (out : CANData) (seq2 : Nat)
    (hinit : p.g_is_initialized = true) (hk : k ≤ CAN_ID_MAX) (h : NoKey p k) :
    can_shm_get_linear_probing p k (some out) seq2 = (CAN_SHM_ERROR_NOT_FOUND, some out, p) := by
  have hv := is_valid_can_id_eq_true hk
  simp [can_shm_get_linear_probing, hinit, hv, get_lp_loop_nokey p k out seq2 _ h]

/-- C7. Starting from a freshly initialised table, after any sequence of
`can_shm_set`, `can_shm_set_linear_probing` and
`can_shm_delete_linear_probing` calls none of which is called with `k`, both
`can_shm_get` and `can_shm_get_linear_probing` return NotFound for the valid
identifier `k` and leave the output record as it was. -/
theorem miss_on_untouched_key (p0 : Sys) (k : Nat) (ops : List Op) (out : CANData)
    (seq2 fuel : Nat) (hfresh : Fresh p0) (hk : k ≤ CAN_ID_MAX)
    (hops : ∀ o ∈ ops, o.target ≠ k) :
    (∃ q, can_shm_get (run p0 ops) k (some out) seq2 fuel
      = some (CAN_SHM_ERROR_NOT_FOUND, some out, q)) ∧
    can_shm_get_linear_probing (run p0 ops) k (some out) seq2
      = (CAN_SHM_ERROR_NOT_FOUND, some out, run p0 ops) := by
  have hinit : (run p0 ops).g_is_initialized = true := by
    rw [run_initialized]
    exact hfresh.1
  have hno := run_NoKey p0 ops k hops (fresh_NoKey p0 hfresh k)
  refine ⟨⟨_, can_shm_get_miss (run p0 ops) k out seq2 fuel hinit hk ?_⟩,
    get_lp_NoKey (run p0 ops) k out seq2 hinit hk hno⟩
  by_cases hv : ((run p0 ops).shm.buckets (idx (can_id_hash k))).is_valid = 0
  · exact Or.inl hv
  · exact Or.inr (hno _ hv)

/-- Witness of C7: identifier 0 after sets of `0x1000` and `0x10` and a
delete of `0x10` on the fresh system. -/
theorem miss_on_untouched_key_witness :
    (∃ q, can_shm_get
        (run fresh [Op.set ⟨0x1000, 1, some [7], 1⟩, Op.set_lp ⟨0x10, 2, some [8, 9], 2⟩,
          Op.delete_lp 0x10]) 0 (some CANData.zero) 0 1
      = some (CAN_SHM_ERROR_NOT_FOUND, some CANData.zero, q)) ∧
    can_shm_get_linear_probing
        (run fresh [Op.set ⟨0x1000, 1, some [7], 1⟩, Op.set_lp ⟨0x10, 2, some [8, 9], 2⟩,
          Op.delete_lp 0x10]) 0 (some CANData.zero) 0
      = (CAN_SHM_ERROR_NOT_FOUND, some CANData.zero,
          run fresh [Op.set ⟨0x1000, 1, some [7], 1⟩, Op.set_lp ⟨0x10, 2, some [8, 9], 2⟩,
            Op.delete_lp 0x10]) :=
  miss_on_untouched_key fresh 0 _ CANData.zero 0 1 fresh_Fresh (by decide) (by decide)

/-! ## Default API: collisions -/

/-- Default-API sets of keys with another home slot leave the home bucket
of `k` as it is. -/
theorem run_sets_home_bucket (k : Nat) (calls : List SetCall)
    (hothers : ∀ c ∈ calls, can_id_hash c.can_id ≠ can_id_hash k) :
    ∀ q : Sys, (run q (calls.map Op.set)).shm.buckets (idx (can_id_hash k))
      = q.shm.buckets (idx (can_id_hash k)) := by
  induction calls with
  | nil => intro q; rfl
  | cons c cs ih =>
    intro q
    show (run (can_shm_set q c.can_id c.dlc c.data c.ts).2 (cs.map Op.set)).shm.buckets _ = _
    rw [ih (fun x hx => hothers x (List.mem_cons_of_mem _ hx))]
    have hne : idx (can_id_hash k) ≠ idx (can_id_hash c.can_id) := by
      intro e
      exact hothers c (List.mem_cons_self _ _) (idx_hash_inj e).symm
    exact (can_shm_set_frame q c.can_id c.dlc c.data c.ts).2.1 _ hne

/-- C3 (amended). After a successful `can_shm_set(k, d, data)` on a state in
which the version of the home bucket of `k` is even, followed by any sequence
of `can_shm_set` calls on identifiers whose home slot `can_id_hash` differs
from that of `k`, `can_shm_get(k)` returns Success with a record whose
`can_id`, `dlc` and first `d` bytes are `k`, `d` and the data, and whose
remaining bytes are zero. -/
theorem default_roundtrip_without_collision (p : Sys) (k d : Nat) (data : Option (List Nat))
    (ts : Nat) (calls : List SetCall) (out : CANData) (seq2 fuel : Nat)
    (hset : (can_shm_set p k d data ts).1 = CAN_SHM_SUCCESS)
    (heven : (p.shm.buckets (idx (can_id_hash k))).can_data.sequence % 2 = 0)
    (hothers : ∀ c ∈ calls, can_id_hash c.can_id ≠ can_id_hash k) :
    ∃ r q, can_shm_get (run (can_shm_set p k d data ts).2 (calls.map Op.set)) k (some out)
        seq2 (fuel + 1) = some (CAN_SHM_SUCCESS, some r, q) ∧
      r.can_id = k ∧ r.dlc = d ∧
      (∀ i : Fin 64, i.val < d → r.data i = byteAt data i.val) ∧
      (∀ i : Fin 64, d ≤ i.val → r.data i = 0) := by
  obtain ⟨hinit, hk, hd, hnull⟩ := can_shm_set_success_args p k d data ts hset
  obtain ⟨_, h2, h3⟩ := can_shm_set_ok p k d data ts hinit hk hd hnull
  have hb := congrFun h3 (idx (can_id_hash k))
  rw [Function.update_same] at hb
  have hhome := run_sets_home_bucket k calls hothers (can_shm_set p k d data ts).2
  have hinit2 : (run (can_shm_set p k d data ts).2 (calls.map Op.set)).g_is_initialized
      = true := by
    rw [run_initialized]
    exact h2
  exact can_shm_get_written _ (p.shm.buckets (idx (can_id_hash k))) k d data ts out seq2 fuel
    hinit2 hk hd hnull heven (hhome.trans hb)

/-- Witness of C3 (amended): `0x123` is set, then `0x456` and `0x789`, which
have other home slots. -/
theorem default_roundtrip_without_collision_witness :
    ∃ r q, can_shm_get
        (run (can_shm_set fresh 0x123 8 (some [1, 2, 3, 4, 5, 6, 7, 8]) 5).2
          ([⟨0x456, 1, some [9], 6⟩, ⟨0x789, 0, none, 7⟩].map Op.set))
        0x123 (some CANData.zero) 0 (0 + 1) = some (CAN_SHM_SUCCESS, some r, q) ∧
      r.can_id = 0x123 ∧ r.dlc = 8 ∧
      (∀ i : Fin 64, i.val < 8 → r.data i = byteAt (some [1, 2, 3, 4, 5, 6, 7, 8]) i.val) ∧
      (∀ i : Fin 64, 8 ≤ i.val → r.data i = 0) :=
  default_roundtrip_without_collision fresh 0x123 8 (some [1, 2, 3, 4, 5, 6, 7, 8]) 5
    [⟨0x456, 1, some [9], 6⟩, ⟨0x789, 0, none, 7⟩] CANData.zero 0 0
    (by decide) (by decide) (by decide)

/-- C3 as stated fails: `0x10` and `0x1000` share the home slot 16; after
successful sets of `0x10` and then of `0x1000` on the fresh system, no
`can_shm_get(0x10)` returns Success (it returns NotFound). -/
theorem default_roundtrip_lost_on_collision :
    all_success fresh
      [Op.set ⟨0x10, 4, some [1, 2, 3, 4], 1⟩, Op.set ⟨0x1000, 4, some [5, 6, 7, 8], 2⟩]
      = true ∧
    Option.map Prod.fst (can_shm_get
      (run fresh
        [Op.set ⟨0x10, 4, some [1, 2, 3, 4], 1⟩, Op.set ⟨0x1000, 4, some [5, 6, 7, 8], 2⟩])
      0x10 (some CANData.zero) 0 1) = some CAN_SHM_ERROR_NOT_FOUND ∧
    ¬ ∃ fuel r q,
      can_shm_get
        (run fresh
          [Op.set ⟨0x10, 4, some [1, 2, 3, 4], 1⟩, Op.set ⟨0x1000, 4, some [5, 6, 7, 8], 2⟩])
        0x10 (some CANData.zero) 0 fuel = some (CAN_SHM_SUCCESS, r, q) := by
  refine ⟨by decide, by decide, ?_⟩
  rintro ⟨fuel, r, q, h⟩
  rw [can_shm_get_miss _ _ _ _ _ (by decide) (by decide) (Or.inr (by decide))] at h
  cases h

/-! ## Linear probing: invariants of insert and update -/

theorem step_set_lp_EvenVersions (p : Sys) (c : SetCall) (h : EvenVersions p) :
    EvenVersions (step p (Op.set_lp c)).2 := by
  rcases set_lp_cases p c.can_id c.dlc c.data c.ts with
    ⟨e, _, heq⟩ | ⟨_, _, _, _, j, _, _, _, _, _, hb⟩
  · show EvenVersions (can_shm_set_linear_probing p c.can_id c.dlc c.data c.ts).2
    rw [heq]
    exact h
  · intro s
    show ((can_shm_set_linear_probing p c.can_id c.dlc c.data c.ts).2.shm.buckets s
      ).can_data.sequence % 2 = 0
    rw [hb]
    by_cases hs : s = idx (can_id_hash c.can_id + j)
    · subst hs
      rw [Function.update_same]
      exact lp_written_even _ _ _ _ _ (h _)
    · rw [Function.update_noteq hs]
      exact h s

theorem run_set_lp_EvenVersions (calls : List SetCall) :
    ∀ p : Sys, EvenVersions p → EvenVersions (run p (calls.map Op.set_lp)) := by
  induction calls with
  | nil => intro p h; exact h
  | cons c cs ih => intro p h; exact ih _ (step_set_lp_EvenVersions p c h)

theorem step_set_lp_ProbeChain (p : Sys) (c : SetCall) (h : ProbeChain p) :
    ProbeChain (step p (Op.set_lp c)).2 := by
  rw [step_set_lp_eq]
  rcases set_lp_cases p c.can_id c.dlc c.data c.ts with
    ⟨e, _, heq⟩ | ⟨_, _, _, _, j, hj, hbefore, _, _, _, hb⟩
  · show ProbeChain (can_shm_set_linear_probing p c.can_id c.dlc c.data c.ts).2
    rw [heq]
    exact h
  · have hmono : ∀ s, validAt p s →
        validAt (can_shm_set_linear_probing p c.can_id c.dlc c.data c.ts).2 s := by
      intro s hv
      unfold validAt
      rw [hb]
      by_cases hs : s = idx (can_id_hash c.can_id + j)
      · subst hs
        rw [Function.update_same]
        exact lp_written_valid _ _ _ _ _
      · rw [Function.update_noteq hs]
        exact hv
    have hnew : validAt (can_shm_set_linear_probing p c.can_id c.dlc c.data c.ts).2
        (idx (can_id_hash c.can_id + j)) := by
      unfold validAt
      rw [hb, Function.update_same]
      exact lp_written_valid _ _ _ _ _
    intro s d hv2 hd hs2 i hi
    by_cases hst : s = idx (can_id_hash c.can_id + j)
    · have hkey : ((can_shm_set_linear_probing p c.can_id c.dlc c.data c.ts).2.shm.buckets s
          ).can_data.can_id = c.can_id := by
        rw [hb, hst, Function.update_same, lp_written_can_id]
      rw [hkey] at hs2 ⊢
      have hdj : d = j := idx_add_inj hd hj (hs2.trans hst)
      rcases Nat.eq_or_lt_of_le hi with e | lt
      · rw [e, hdj]
        exact hnew
      · exact hmono _ (hbefore i (by omega)).1
    · have hsame : (can_shm_set_linear_probing p c.can_id c.dlc c.data c.ts).2.shm.buckets s
          = p.shm.buckets s := by
        rw [hb, Function.update_noteq hst]
      have hvp : validAt p s := by
        unfold validAt at hv2 ⊢
        rw [hsame] at hv2
        exact hv2
      rw [hsame] at hs2 ⊢
      exact hmono _ (h s d hvp hd hs2 i hi)

theorem run_set_lp_ProbeChain (calls : List SetCall) :
    ∀ p : Sys, ProbeChain p → ProbeChain (run p (calls.map Op.set_lp)) := by
  induction calls with
  | nil => intro p h; exact h
  | cons c cs ih => intro p h; exact ih _ (step_set_lp_ProbeChain p c h)

/-- C10. After any sequence of `can_shm_set_linear_probing` calls on a freshly
initialised table, for every valid bucket, at slot `s` and at probe distance
`d` from the home slot of the key `K` it holds, every slot
`can_id_hash(K) + j (mod 4096)` with `j ≤ d` is valid. -/
theorem probe_chain_after_sets (p0 : Sys) (calls : List SetCall) (s : Fin MAX_CAN_ENTRIES)
    (d j : Nat) (hfresh : Fresh p0)
    (hvalid : validAt (run p0 (calls.map Op.set_lp)) s) (hd : d < MAX_CAN_ENTRIES)
    (hs : idx (can_id_hash ((run p0 (calls.map Op.set_lp)).shm.buckets s).can_data.can_id + d)
      = s)
    (hj : j ≤ d) :
    validAt (run p0 (calls.map Op.set_lp))
      (idx (can_id_hash ((run p0 (calls.map Op.set_lp)).shm.buckets s).can_data.can_id + j)) :=
  run_set_lp_ProbeChain calls p0 (fresh_ProbeChain p0 hfresh) s d hvalid hd hs j hj

/-- Witness of C10: `0x10`, `0x1000` and `0x11` are inserted; `0x11` has home
slot 17, which `0x1000` occupies, and lands in slot 18 at distance 1. -/
theorem probe_chain_after_sets_witness :
    validAt
      (run fresh ([⟨0x10, 1, some [1], 1⟩, ⟨0x1000, 1, some [2], 2⟩,
        ⟨0x11, 1, some [3], 3⟩].map Op.set_lp))
      (idx (can_id_hash ((run fresh ([⟨0x10, 1, some [1], 1⟩, ⟨0x1000, 1, some [2], 2⟩,
        ⟨0x11, 1, some [3], 3⟩].map Op.set_lp)).shm.buckets (idx 18)).can_data.can_id + 0)) :=
  probe_chain_after_sets fresh
    [⟨0x10, 1, some [1], 1⟩, ⟨0x1000, 1, some [2], 2⟩, ⟨0x11, 1, some [3], 3⟩] (idx 18) 1 0
    fresh_Fresh (by unfold validAt; decide) (by decide) (by decide) (by decide)

/-! ## Linear probing: round trip -/

/-- The reader of the linear-probing table returns the record of a key that
is stored first on its probe sequence with an even version. -/
theorem get_lp_of_StoredAt (p : Sys) (k j : Nat) (r out : CANData) (seq2 : Nat)
    (hinit : p.g_is_initialized = true) (hk : k ≤ CAN_ID_MAX) (hst : StoredAt p k j r)
    (heven : r.sequence % 2 = 0) :
    can_shm_get_linear_probing p k (some out) seq2 =
      (CAN_SHM_SUCCESS, some r,
        { p with shm := { p.shm with total_gets := (p.shm.total_gets + 1) % U64 } }) := by
  obtain ⟨hj, hv, hr, hid, hbefore⟩ := hst
  have hv2 := is_valid_can_id_eq_true hk
  have hloop := get_lp_loop_hit p k out seq2 (can_id_hash k) j hv (by rw [hr, hid])
    (by rw [hr]; exact heven) MAX_CAN_ENTRIES 0 (Nat.zero_le _) (by omega)
    (fun j' _ hj' => hbefore j' hj')
  simp [can_shm_get_linear_probing, hinit, hv2, hloop, hr]

/-- A successful `can_shm_set_linear_probing` leaves its key stored first on
its probe sequence, with the key, the length and the data bytes of the call
and, when all versions were even before, an even version. -/
theorem set_lp_StoredAt (p : Sys) (c : SetCall) (heven : EvenVersions p)
    (hok : (can_shm_set_linear_probing p c.can_id c.dlc c.data c.ts).1 = CAN_SHM_SUCCESS) :
    ∃ j r, StoredAt (can_shm_set_linear_probing p c.can_id c.dlc c.data c.ts).2 c.can_id j r ∧
      r.sequence % 2 = 0 ∧ r.dlc = c.dlc ∧
      (∀ i : Fin 64, i.val < c.dlc → r.data i = byteAt c.data i.val) ∧ c.can_id ≤ CAN_ID_MAX := by
  rcases set_lp_cases p c.can_id c.dlc c.data c.ts with
    ⟨e, he, heq⟩ | ⟨_, hk, _, hnull, j, hj, hbefore, _, _, _, hb⟩
  · rw [heq] at hok
    exact absurd hok he
  · refine ⟨j, (lp_written (p.shm.buckets (idx (can_id_hash c.can_id + j)))
      c.can_id c.dlc c.data c.ts).can_data, ⟨hj, ?_, ?_, rfl, ?_⟩, lp_written_even _ _ _ _ _
      (heven _), rfl, fun i hi => lp_written_data _ _ _ _ _ hnull i hi, hk⟩
    · rw [hb, Function.update_same]
      exact lp_written_valid _ _ _ _ _
    · rw [hb, Function.update_same]
    · intro j' hj'
      have hne : idx (can_id_hash c.can_id + j') ≠ idx (can_id_hash c.can_id + j) := by
        intro e
        have := idx_add_inj (by omega) hj e
        omega
      rw [hb, Function.update_noteq hne]
      exact hbefore j' hj'

/-- A `can_shm_set_linear_probing` call with another key leaves a stored key
stored with the same record at the same place. -/
theorem step_set_lp_StoredAt (p : Sys) (c : SetCall) (k j : Nat) (r : CANData)
    (hne : c.can_id ≠ k) (hst : StoredAt p k j r) :
    StoredAt (step p (Op.set_lp c)).2 k j r := by
  rw [step_set_lp_eq]
  rcases set_lp_cases p c.can_id c.dlc c.data c.ts with
    ⟨e, _, heq⟩ | ⟨_, _, _, _, j2, _, _, hat, _, _, hb⟩
  · rw [heq]
    exact hst
  · obtain ⟨hj, hv, hr, hid, hbefore⟩ := hst
    have hslot : idx (can_id_hash k + j) ≠ idx (can_id_hash c.can_id + j2) := by
      intro e
      rw [← e] at hat
      rcases hat with h0 | hkey
      · exact hv h0
      · rw [hr, hid] at hkey
        exact hne hkey.symm
    refine ⟨hj, ?_, ?_, hid, ?_⟩
    · rw [hb, Function.update_noteq hslot]
      exact hv
    · rw [hb, Function.update_noteq hslot]
      exact hr
    · intro j' hj'
      rw [hb]
      by_cases hs : idx (can_id_hash k + j') = idx (can_id_hash c.can_id + j2)
      · rw [hs, Function.update_same]
        exact ⟨lp_written_valid _ _ _ _ _, hne⟩
      · rw [Function.update_noteq hs]
        exact hbefore j' hj'

theorem run_set_lp_StoredAt (k j : Nat) (r : CANData) (calls : List SetCall)
    (hne : ∀ x ∈ calls, x.can_id ≠ k) :
    ∀ p : Sys, StoredAt p k j r → StoredAt (run p (calls.map Op.set_lp)) k j r := by
  induction calls with
  | nil => intro p h; exact h
  | cons c cs ih =>
    intro p h
    exact ih (fun x hx => hne x (List.mem_cons_of_mem _ hx)) _
      (step_set_lp_StoredAt p c k j r (hne c (List.mem_cons_self _ _)) h)

/-- C1. Starting from a freshly initialised table and using only
`can_shm_set_linear_probing`, for every sequence of successful sets and every
set `c` in it that is the most recent set of its key,
`can_shm_get_linear_probing` of that key returns Success with a record whose
`can_id` is the key and whose `dlc` and first `dlc` data bytes are those of
`c`, whatever other keys (colliding or not) were set before or after. -/
theorem lp_roundtrip (p0 : Sys) (pre post : List SetCall) (c : SetCall) (out : CANData)
    (seq2 : Nat) (hfresh : Fresh p0)
    (hok : all_success p0 ((pre ++ c :: post).map Op.set_lp) = true)
    (hpost : ∀ x ∈ post, x.can_id ≠ c.can_id) :
    ∃ r q, can_shm_get_linear_probing (run p0 ((pre ++ c :: post).map Op.set_lp)) c.can_id
        (some out) seq2 = (CAN_SHM_SUCCESS, some r, q) ∧
      r.can_id = c.can_id ∧ r.dlc = c.dlc ∧
      (∀ i : Fin 64, i.val < c.dlc → r.data i = byteAt c.data i.val) := by
  have hsplit : (pre ++ c :: post).map Op.set_lp
      = pre.map Op.set_lp ++ (Op.set_lp c :: post.map Op.set_lp) := by
    simp
  rw [hsplit] at hok ⊢
  rw [all_success_append] at hok
  have hc : (can_shm_set_linear_probing (run p0 (pre.map Op.set_lp)) c.can_id c.dlc c.data
      c.ts).1 = CAN_SHM_SUCCESS := by
    have h2 := (Bool.and_eq_true _ _).mp hok
    have h3 : all_success (run p0 (pre.map Op.set_lp)) (Op.set_lp c :: post.map Op.set_lp)
        = true := h2.2
    have h4 := (Bool.and_eq_true _ _).mp h3
    exact of_decide_eq_true h4.1
  have heven := run_set_lp_EvenVersions pre p0 (fresh_EvenVersions p0 hfresh)
  obtain ⟨j, r, hst, hreven, hdlc, hdata, hk⟩ :=
    set_lp_StoredAt (run p0 (pre.map Op.set_lp)) c heven hc
  have hfinal : StoredAt (run p0 (pre.map Op.set_lp ++ (Op.set_lp c :: post.map Op.set_lp)))
      c.can_id j r := by
    rw [run_append]
    exact run_set_lp_StoredAt c.can_id j r post hpost _ hst
  have hinit : (run p0 (pre.map Op.set_lp ++ (Op.set_lp c :: post.map Op.set_lp))
      ).g_is_initialized = true := by
    rw [run_initialized]
    exact hfresh.1
  exact ⟨r, _, get_lp_of_StoredAt _ c.can_id j r out seq2 hinit hk hfinal hreven,
    hfinal.2.2.2.1, hdlc, hdata⟩

/-- Witness of C1: `0x10` and `0x1000` share home slot 16; `0x10` is set,
then `0x1000`, then `0x10` again (the set read back), then `0x1000` again. -/
theorem lp_roundtrip_witness :
    ∃ r q, can_shm_get_linear_probing
        (run fresh (([SetCall.mk 0x10 4 (some [1, 2, 3, 4]) 1,
            SetCall.mk 0x1000 4 (some [5, 6, 7, 8]) 2]
          ++ SetCall.mk 0x10 2 (some [9, 10]) 3 :: [SetCall.mk 0x1000 1 (some [11]) 4]).map
            Op.set_lp))
        0x10 (some CANData.zero) 0 = (CAN_SHM_SUCCESS, some r, q) ∧
      r.can_id = 0x10 ∧ r.dlc = 2 ∧
      (∀ i : Fin 64, i.val < 2 → r.data i = byteAt (some [9, 10]) i.val) :=
  lp_roundtrip fresh [⟨0x10, 4, some [1, 2, 3, 4], 1⟩, ⟨0x1000, 4, some [5, 6, 7, 8], 2⟩]
    [⟨0x1000, 1, some [11], 4⟩] ⟨0x10, 2, some [9, 10], 3⟩ CANData.zero 0 fresh_Fresh
    (by decide) (by decide)

/-! ## Linear probing: delete and padding -/

/-- C9. In every state (so in every state reached by linear-probing sets and
deletes): if `can_shm_delete_linear_probing(k)` returns Success, it cleared
one slot that was valid and held `k`, that bucket is now invalid with an
all-zero record, every other bucket is unchanged, and the
`can_shm_get_linear_probing(k)` that follows returns NotFound; and if
`can_shm_get_linear_probing(k)` returns NotFound, the delete returns NotFound
and leaves the whole state unchanged. -/
theorem lp_delete_one_key (p : Sys) (k : Nat) (out : CANData) (seq2 : Nat) :
    ((can_shm_delete_linear_probing p k).1 = CAN_SHM_SUCCESS →
      ∃ s : Fin MAX_CAN_ENTRIES,
        validAt p s ∧ (p.shm.buckets s).can_data.can_id = k ∧
        ((can_shm_delete_linear_probing p k).2.shm.buckets s).is_valid = 0 ∧
        ((can_shm_delete_linear_probing p k).2.shm.buckets s).can_data = CANData.zero ∧
        (∀ t, t ≠ s → (can_shm_delete_linear_probing p k).2.shm.buckets t = p.shm.buckets t) ∧
        can_shm_get_linear_probing (can_shm_delete_linear_probing p k).2 k (some out) seq2
          = (CAN_SHM_ERROR_NOT_FOUND, some out, (can_shm_delete_linear_probing p k).2)) ∧
    ((can_shm_get_linear_probing p k (some out) seq2).1 = CAN_SHM_ERROR_NOT_FOUND →
      can_shm_delete_linear_probing p k = (CAN_SHM_ERROR_NOT_FOUND, p)) := by
  constructor
  · intro hdel
    rcases delete_lp_cases p k with
      ⟨e, he, heq⟩ | ⟨_, hk, j, hj, hbefore, hv, hid, _, hini, hb⟩
    · rw [heq] at hdel
      exact absurd hdel he
    · refine ⟨idx (can_id_hash k + j), hv, hid, ?_, ?_, ?_, ?_⟩
      · rw [hb, Function.update_same]
        rfl
      · rw [hb, Function.update_same]
        rfl
      · intro t ht
        rw [hb, Function.update_noteq ht]
      · have hv2 := is_valid_can_id_eq_true hk
        have hinv : ((can_shm_delete_linear_probing p k).2.shm.buckets
            (idx (can_id_hash k + j))).is_valid = 0 := by
          rw [hb, Function.update_same]
          rfl
        have hloop := get_lp_loop_stop (can_shm_delete_linear_probing p k).2 k out seq2
          (can_id_hash k) j hinv MAX_CAN_ENTRIES 0 (Nat.zero_le _)
          (fun j' _ hj' => by
            have hne : idx (can_id_hash k + j') ≠ idx (can_id_hash k + j) := by
              intro e
              have := idx_add_inj (by omega) hj e
              omega
            rw [hb, Function.update_noteq hne]
            exact hbefore j' hj')
        simp [can_shm_get_linear_probing, hini, hv2, hloop]
  · intro hget
    by_cases h1 : p.g_is_initialized = false
    · simp [can_shm_get_linear_probing, h1] at hget
    by_cases h2 : is_valid_can_id k = false
    · simp [can_shm_get_linear_probing, h1, h2] at hget
    have hg : (can_shm_get_linear_probing_loop p k out seq2 (can_id_hash k)
        MAX_CAN_ENTRIES 0).1 = CAN_SHM_ERROR_NOT_FOUND := by
      simpa [can_shm_get_linear_probing, h1, h2] using hget
    have hd := delete_lp_loop_of_get_not_found p k out seq2 (can_id_hash k)
      MAX_CAN_ENTRIES 0 hg
    simp [can_shm_delete_linear_probing, h1, h2, hd]

/-- Witness of C9: after sets of `0x10` and `0x1000` on the fresh system,
`0x10` is deleted (Success, then not found), and `0x11`, which the reader
does not find, is not found by delete either. -/
theorem lp_delete_one_key_witness :
    can_shm_get_linear_probing
        (can_shm_delete_linear_probing
          (run fresh [Op.set_lp ⟨0x10, 1, some [1], 1⟩, Op.set_lp ⟨0x1000, 1, some [2], 2⟩])
          0x10).2 0x10 (some CANData.zero) 0
      = (CAN_SHM_ERROR_NOT_FOUND, some CANData.zero,
          (can_shm_delete_linear_probing
            (run fresh [Op.set_lp ⟨0x10, 1, some [1], 1⟩, Op.set_lp ⟨0x1000, 1, some [2], 2⟩])
            0x10).2) ∧
    can_shm_delete_linear_probing
        (run fresh [Op.set_lp ⟨0x10, 1, some [1], 1⟩, Op.set_lp ⟨0x1000, 1, some [2], 2⟩]) 0x11
      = (CAN_SHM_ERROR_NOT_FOUND,
          run fresh [Op.set_lp ⟨0x10, 1, some [1], 1⟩, Op.set_lp ⟨0x1000, 1, some [2], 2⟩]) := by
  constructor
  · obtain ⟨s, _, _, _, _, _, h⟩ := (lp_delete_one_key
      (run fresh [Op.set_lp ⟨0x10, 1, some [1], 1⟩, Op.set_lp ⟨0x1000, 1, some [2], 2⟩])
      0x10 CANData.zero 0).1 (by decide)
    exact h
  · exact (lp_delete_one_key
      (run fresh [Op.set_lp ⟨0x10, 1, some [1], 1⟩, Op.set_lp ⟨0x1000, 1, some [2], 2⟩])
      0x11 CANData.zero 0).2 (by decide)

/-- C4 fails on the code: on the fresh system `0x100` is set with 8 bytes and
then with 4 bytes through `can_shm_set_linear_probing`; both calls succeed,
and the record read back has `dlc = 4` with bytes 4..7 still 5, 6, 7, 8.  The
same two calls through `can_shm_set` leave bytes 4..7 zero. -/
theorem lp_update_keeps_stale_bytes :
    all_success fresh
      [Op.set_lp ⟨0x100, 8, some [1, 2, 3, 4, 5, 6, 7, 8], 1⟩,
        Op.set_lp ⟨0x100, 4, some [0xAA, 0xBB, 0xCC, 0xDD], 2⟩] = true ∧
    (can_shm_get_linear_probing
      (run fresh
        [Op.set_lp ⟨0x100, 8, some [1, 2, 3, 4, 5, 6, 7, 8], 1⟩,
          Op.set_lp ⟨0x100, 4, some [0xAA, 0xBB, 0xCC, 0xDD], 2⟩])
      0x100 (some CANData.zero) 0).1 = CAN_SHM_SUCCESS ∧
    Option.map (fun r => (r.dlc, r.data 4, r.data 5, r.data 6, r.data 7))
      (can_shm_get_linear_probing
        (run fresh
          [Op.set_lp ⟨0x100, 8, some [1, 2, 3, 4, 5, 6, 7, 8], 1⟩,
            Op.set_lp ⟨0x100, 4, some [0xAA, 0xBB, 0xCC, 0xDD], 2⟩])
        0x100 (some CANData.zero) 0).2.1 = some (4, 5, 6, 7, 8) ∧
    Option.map (fun r => (r.dlc, r.data 4, r.data 5, r.data 6, r.data 7))
      (Option.map (fun x => x.2.1)
        (can_shm_get
          (run fresh
            [Op.set ⟨0x100, 8, some [1, 2, 3, 4, 5, 6, 7, 8], 1⟩,
              Op.set ⟨0x100, 4, some [0xAA, 0xBB, 0xCC, 0xDD], 2⟩])
          0x100 (some CANData.zero) 0 1)).join = some (4, 0, 0, 0, 0) := by
  decide

/-- C8 fails on the code: `0x10` and `0x1000` share home slot 16.  After both
are set on the fresh system `can_shm_get_linear_probing(0x1000)` succeeds;
after the successful `can_shm_delete_linear_probing(0x10)` it returns
NotFound although slot 17 is still valid and holds `0x1000`: the cleared
slot 16 ends the probe. -/
theorem lp_delete_breaks_probe_chain :
    all_success fresh
      [Op.set_lp ⟨0x10, 4, some [1, 2, 3, 4], 1⟩, Op.set_lp ⟨0x1000, 4, some [5, 6, 7, 8], 2⟩,
        Op.delete_lp 0x10] = true ∧
    (can_shm_get_linear_probing
      (run fresh
        [Op.set_lp ⟨0x10, 4, some [1, 2, 3, 4], 1⟩,
          Op.set_lp ⟨0x1000, 4, some [5, 6, 7, 8], 2⟩])
      0x1000 (some CANData.zero) 0).1 = CAN_SHM_SUCCESS ∧
    (can_shm_get_linear_probing
      (run fresh
        [Op.set_lp ⟨0x10, 4, some [1, 2, 3, 4], 1⟩,
          Op.set_lp ⟨0x1000, 4, some [5, 6, 7, 8], 2⟩, Op.delete_lp 0x10])
      0x1000 (some CANData.zero) 0).1 = CAN_SHM_ERROR_NOT_FOUND ∧
    ((run fresh
        [Op.set_lp ⟨0x10, 4, some [1, 2, 3, 4], 1⟩,
          Op.set_lp ⟨0x1000, 4, some [5, 6, 7, 8], 2⟩, Op.delete_lp 0x10]).shm.buckets
      (idx 17)).is_valid = 1 ∧
    ((run fresh
        [Op.set_lp ⟨0x10, 4, some [1, 2, 3, 4], 1⟩,
          Op.set_lp ⟨0x1000, 4, some [5, 6, 7, 8], 2⟩, Op.delete_lp 0x10]).shm.buckets
      (idx 17)).can_data.can_id = 0x1000 := by
  decide

/-! ## Linear probing: full table -/

/-- Every slot lies on the probe sequence of every home slot. -/
theorem idx_surj (h : Nat) (s : Fin MAX_CAN_ENTRIES) :
    ∃ j, j < MAX_CAN_ENTRIES ∧ idx (h + j) = s := by
  have hs := s.isLt
  simp only [MAX_CAN_ENTRIES] at hs
  refine ⟨(s.val + 4096 - h % 4096) % 4096, Nat.mod_lt _ (by decide), ?_⟩
  apply Fin.ext
  show (h + (s.val + 4096 - h % 4096) % 4096) % 4096 = s.val
  omega

/-- With valid arguments on an initialised system the writer is its probe
loop over all `MAX_CAN_ENTRIES` slots. -/
theorem set_lp_eq_loop (p : Sys) (k d : Nat) (data : Option (List Nat)) (ts : Nat)
    (hinit : p.g_is_initialized = true) (hk : k ≤ CAN_ID_MAX) (hd : d ≤ 64)
    (hnull : d = 0 ∨ data ≠ none) :
    can_shm_set_linear_probing p k d data ts
      = can_shm_set_linear_probing_loop p k d data ts (can_id_hash k) MAX_CAN_ENTRIES 0 := by
  have hv := is_valid_can_id_eq_true hk
  have h64 : ¬ d > 64 := by omega
  have hn : ¬ (d > 0 ∧ data = none) := by
    rintro ⟨h1, h2⟩
    rcases hnull with h | h
    · omega
    · exact h h2
  simp [can_shm_set_linear_probing, hinit, hv, h64, hn]

/-- C11. On an initialised system and for valid arguments,
`can_shm_set_linear_probing(k, ..)` returns an error exactly when every one
of the 4096 buckets is valid and none of them holds `k`; it then returns the
state unchanged (no bucket, `global_sequence` or `total_sets` changes).  In
every other state it returns Success. -/
theorem set_lp_error_iff_table_full (p : Sys) (k d : Nat) (data : Option (List Nat))
    (ts : Nat) (hinit : p.g_is_initialized = true) (hk : k ≤ CAN_ID_MAX) (hd : d ≤ 64)
    (hnull : d = 0 ∨ data ≠ none) :
    ((can_shm_set_linear_probing p k d data ts).1 ≠ CAN_SHM_SUCCESS ↔
      ∀ s, validAt p s ∧ (p.shm.buckets s).can_data.can_id ≠ k) ∧
    ((can_shm_set_linear_probing p k d data ts).1 ≠ CAN_SHM_SUCCESS →
      (can_shm_set_linear_probing p k d data ts).2 = p) := by
  rw [set_lp_eq_loop p k d data ts hinit hk hd hnull]
  rcases set_lp_loop_cases p k d data ts (can_id_hash k) MAX_CAN_ENTRIES 0 with
    ⟨heq, hall⟩ | ⟨j, _, hj, _, hat, hres, _, _⟩
  · rw [heq]
    refine ⟨⟨fun _ s => ?_, fun _ hc => CANShmResult.noConfusion hc⟩, fun _ => rfl⟩
    obtain ⟨j, hj, hjs⟩ := idx_surj (can_id_hash k) s
    rw [← hjs]
    exact hall j (Nat.zero_le _) (by omega)
  · refine ⟨⟨fun hne => absurd hres hne, fun hfull => ?_⟩, fun hne => absurd hres hne⟩
    exfalso
    obtain ⟨hv, hid⟩ := hfull (idx (can_id_hash k + j))
    rcases hat with h0 | hkey
    · exact hv h0
    · exact hid hkey

/-- Witness of C11: on the fresh system slot 256 is invalid, so the table is
not full and the set of `0x100` succeeds. -/
theorem set_lp_error_iff_table_full_witness :
    (can_shm_set_linear_probing fresh 0x100 1 (some [7]) 3).1 = CAN_SHM_SUCCESS := by
  have h := (set_lp_error_iff_table_full fresh 0x100 1 (some [7]) 3 rfl (by decide)
    (by decide) (Or.inr (by simp))).1
  by_contra hne
  have hfull := h.mp hne
  exact (hfull (idx 256)).1 rfl

/-! ## Perfect hash: the index function -/

/-- C12. For every `K` of `DEMO_CAN_IDS` the index `can_id_perfect_hash_demo(K)`
is below 32 and `INDEX_TO_CAN_ID_MAP_DEMO` maps it back to `K`; and two
distinct identifiers of `DEMO_CAN_IDS` have distinct indices. -/
theorem perfect_hash_roundtrip_injective :
    (∀ K ∈ DEMO_CAN_IDS,
      can_id_perfect_hash_demo K < PERFECT_HASH_TABLE_SIZE ∧
      INDEX_TO_CAN_ID_MAP_DEMO[can_id_perfect_hash_demo K]? = some K) ∧
    (∀ K1 ∈ DEMO_CAN_IDS, ∀ K2 ∈ DEMO_CAN_IDS, K1 ≠ K2 →
      can_id_perfect_hash_demo K1 ≠ can_id_perfect_hash_demo K2) := by
  decide

/-- Witness of C12: `0x203` has index 11, and `0x103` and `0x400` differ in
their indices. -/
theorem perfect_hash_roundtrip_injective_witness :
    (can_id_perfect_hash_demo 0x203 < PERFECT_HASH_TABLE_SIZE ∧
      INDEX_TO_CAN_ID_MAP_DEMO[can_id_perfect_hash_demo 0x203]? = some 0x203) ∧
    can_id_perfect_hash_demo 0x103 ≠ can_id_perfect_hash_demo 0x400 :=
  ⟨perfect_hash_roundtrip_injective.1 0x203 (by decide),
   perfect_hash_roundtrip_injective.2 0x103 (by decide) 0x400 (by decide) (by decide)⟩

/-- Every entry of the reverse table is the filler 0 or an identifier of
`DEMO_CAN_IDS`. -/
theorem reverse_table_entries :
    ∀ i, i < PERFECT_HASH_TABLE_SIZE →
      INDEX_TO_CAN_ID_MAP_DEMO.getD i 0 = 0 ∨ INDEX_TO_CAN_ID_MAP_DEMO.getD i 0 ∈ DEMO_CAN_IDS := by
  decide

/-- What the admissibility check establishes. -/
theorem admissible_facts (k : Nat) (h : is_valid_can_id_for_perfect_hash_demo k = true) :
    can_id_perfect_hash_demo k ≠ 0xFFFFFFFF ∧
    can_id_perfect_hash_demo k < PERFECT_HASH_TABLE_SIZE ∧
    INDEX_TO_CAN_ID_MAP_DEMO.getD (can_id_perfect_hash_demo k) 0 = k := by
  simpa [is_valid_can_id_for_perfect_hash_demo, and_assoc] using h

/-- Admissible keys are exactly the identifiers of `DEMO_CAN_IDS`. -/
theorem admissible_iff (k : Nat) :
    is_valid_can_id_for_perfect_hash_demo k = true ↔ k ∈ DEMO_CAN_IDS := by
  constructor
  · intro h
    obtain ⟨_, hlt, hmap⟩ := admissible_facts k h
    rcases reverse_table_entries _ hlt with h0 | hmem
    · rw [hmap] at h0
      subst h0
      exact absurd h (by decide)
    · rw [hmap] at hmem
      exact hmem
  · revert k
    decide

/-- C13. For every `k`, `is_valid_can_id_for_perfect_hash_demo(k)` is true if
and only if `k` is one of the 16 identifiers of `DEMO_CAN_IDS`; in particular
0, `0x108` and `0x1100` are not admissible. -/
theorem admissible_iff_member (k : Nat) :
    (is_valid_can_id_for_perfect_hash_demo k = true ↔
      k ∈ [0x100, 0x101, 0x102, 0x103, 0x200, 0x201, 0x202, 0x203,
           0x300, 0x301, 0x302, 0x303, 0x400, 0x401, 0x402, 0x403]) ∧
    DEMO_CAN_IDS = [0x100, 0x101, 0x102, 0x103, 0x200, 0x201, 0x202, 0x203,
           0x300, 0x301, 0x302, 0x303, 0x400, 0x401, 0x402, 0x403] ∧
    is_valid_can_id_for_perfect_hash_demo 0 = false ∧
    is_valid_can_id_for_perfect_hash_demo 0x108 = false ∧
    is_valid_can_id_for_perfect_hash_demo 0x1100 = false :=
  ⟨admissible_iff k, rfl, by decide, by decide, by decide⟩

/-! ## Perfect hash: operations -/

theorem admissible_le (k : Nat) (h : is_valid_can_id_for_perfect_hash_demo k = true) :
    k ≤ CAN_ID_MAX := by
  have hall : ∀ x ∈ DEMO_CAN_IDS, x ≤ CAN_ID_MAX := by decide
  exact hall k ((admissible_iff k).mp h)

theorem not_admissible (k : Nat) (h : k ∉ DEMO_CAN_IDS) :
    is_valid_can_id_for_perfect_hash_demo k = false := by
  cases hb : is_valid_can_id_for_perfect_hash_demo k with
  | false => rfl
  | true => exact absurd ((admissible_iff k).mp hb) h

theorem init_perfect_of_initialized (p : Sys) (h : p.g_perfect_hash_initialized = true) :
    init_perfect_hash_table p = p := by
  simp [init_perfect_hash_table, h]

theorem init_perfect_flags (p : Sys) :
    (init_perfect_hash_table p).g_perfect_hash_initialized = true ∧
    (init_perfect_hash_table p).g_is_initialized = p.g_is_initialized ∧
    (init_perfect_hash_table p).shm = p.shm ∧
    (init_perfect_hash_table p).g_hash_stats = p.g_hash_stats := by
  unfold init_perfect_hash_table
  split
  · rename_i h
    exact ⟨h, rfl, rfl, rfl⟩
  · exact ⟨rfl, rfl, rfl, rfl⟩

/-- The perfect-hash writer rejects a key outside `DEMO_CAN_IDS` with
InvalidId after the lazy set-up of the table. -/
theorem set_ph_reject (p : Sys) (K d : Nat) (data : Option (List Nat)) (t_start ts t_end : Nat)
    (hinit : p.g_is_initialized = true) (hK : K ∉ DEMO_CAN_IDS) (hd : d ≤ 64)
    (hnull : d = 0 ∨ data ≠ none) :
    can_shm_set_perfect_hash p K d data t_start ts t_end
      = (CAN_SHM_ERROR_INVALID_ID, init_perfect_hash_table p) := by
  have hadm := not_admissible K hK
  have h64 : ¬ d > 64 := by omega
  have hn : ¬ (d > 0 ∧ data = none) := by
    rintro ⟨h1, h2⟩
    rcases hnull with h | h
    · omega
    · exact h h2
  by_cases hv : is_valid_can_id K = false
  · simp [can_shm_set_perfect_hash, hinit, hv]
  · by_cases hidx : can_id_perfect_hash_demo K = 0xFFFFFFFF ∨
        can_id_perfect_hash_demo K ≥ PERFECT_HASH_TABLE_SIZE
    · simp [can_shm_set_perfect_hash, hinit, hv, h64, hn, hidx]
    · simp [can_shm_set_perfect_hash, hinit, hv, h64, hn, hidx, hadm]

/-- The perfect-hash reader rejects a key outside `DEMO_CAN_IDS` with
InvalidId and leaves the output record as it was. -/
theorem get_ph_reject (p : Sys) (K : Nat) (out : CANData) (t_start t_end : Nat)
    (hinit : p.g_is_initialized = true) (hK : K ∉ DEMO_CAN_IDS) :
    can_shm_get_perfect_hash p K (some out) t_start t_end
      = (CAN_SHM_ERROR_INVALID_ID, some out, init_perfect_hash_table p) := by
  have hadm := not_admissible K hK
  by_cases hv : is_valid_can_id K = false
  · simp [can_shm_get_perfect_hash, hinit, hv]
  · by_cases hidx : can_id_perfect_hash_demo K = 0xFFFFFFFF ∨
        can_id_perfect_hash_demo K ≥ PERFECT_HASH_TABLE_SIZE
    · simp [can_shm_get_perfect_hash, hinit, hv, hidx]
    · simp [can_shm_get_perfect_hash, hinit, hv, hidx, hadm]

/-- The perfect-hash delete rejects a key outside `DEMO_CAN_IDS` with
InvalidId. -/
theorem delete_ph_reject (p : Sys) (K : Nat) (t_start t_end : Nat)
    (hinit : p.g_is_initialized = true) (hK : K ∉ DEMO_CAN_IDS) :
    can_shm_delete_perfect_hash p K t_start t_end
      = (CAN_SHM_ERROR_INVALID_ID, init_perfect_hash_table p) := by
  have hadm := not_admissible K hK
  by_cases hv : is_valid_can_id K = false
  · simp [can_shm_delete_perfect_hash, hinit, hv]
  · by_cases hidx : can_id_perfect_hash_demo K = 0xFFFFFFFF ∨
        can_id_perfect_hash_demo K ≥ PERFECT_HASH_TABLE_SIZE
    · simp [can_shm_delete_perfect_hash, hinit, hv, hidx]
    · simp [can_shm_delete_perfect_hash, hinit, hv, hidx, hadm]

/-- C14. On an initialised system, for every `K` outside the admissible set
and otherwise valid arguments, `can_shm_set_perfect_hash`,
`can_shm_get_perfect_hash` and `can_shm_delete_perfect_hash` return InvalidId
and leave every record and validity flag of the perfect-hash table (and the
rest of the store) unchanged; the reader leaves the output record as it
was. -/
theorem ph_rejects_non_admissible (p : Sys) (K d : Nat) (data : Option (List Nat))
    (t_start ts t_end : Nat) (out : CANData)
    (hinit : p.g_is_initialized = true) (hstatic : PerfectStatic p) (hK : K ∉ DEMO_CAN_IDS)
    (hd : d ≤ 64) (hnull : d = 0 ∨ data ≠ none) :
    ((can_shm_set_perfect_hash p K d data t_start ts t_end).1 = CAN_SHM_ERROR_INVALID_ID ∧
      SameStore p (can_shm_set_perfect_hash p K d data t_start ts t_end).2) ∧
    ((can_shm_get_perfect_hash p K (some out) t_start t_end).1 = CAN_SHM_ERROR_INVALID_ID ∧
      (can_shm_get_perfect_hash p K (some out) t_start t_end).2.1 = some out ∧
      SameStore p (can_shm_get_perfect_hash p K (some out) t_start t_end).2.2) ∧
    ((can_shm_delete_perfect_hash p K t_start t_end).1 = CAN_SHM_ERROR_INVALID_ID ∧
      SameStore p (can_shm_delete_perfect_hash p K t_start t_end).2) := by
  have hs := init_perfect_SameStore p hstatic
  rw [set_ph_reject p K d data t_start ts t_end hinit hK hd hnull,
    get_ph_reject p K out t_start t_end hinit hK, delete_ph_reject p K t_start t_end hinit hK]
  exact ⟨⟨rfl, hs⟩, ⟨rfl, rfl, hs⟩, ⟨rfl, hs⟩⟩

/-- Witness of C14: `0x500`, and `0x108`, whose index 0 is the slot of
`0x100`, on the fresh system. -/
theorem ph_rejects_non_admissible_witness :
    (can_shm_set_perfect_hash fresh 0x500 4 (some [1, 2, 3, 4]) 1 2 3).1
      = CAN_SHM_ERROR_INVALID_ID ∧
    (can_shm_get_perfect_hash fresh 0x108 (some CANData.zero) 1 3).1
      = CAN_SHM_ERROR_INVALID_ID ∧
    SameStore fresh (can_shm_delete_perfect_hash fresh 0x108 1 3).2 :=
  ⟨(ph_rejects_non_admissible fresh 0x500 4 (some [1, 2, 3, 4]) 1 2 3 CANData.zero rfl
      fresh_PerfectStatic (by decide) (by decide) (Or.inr (by simp))).1.1,
   (ph_rejects_non_admissible fresh 0x108 0 none 1 2 3 CANData.zero rfl
      fresh_PerfectStatic (by decide) (by decide) (Or.inl rfl)).2.1.1,
   (ph_rejects_non_admissible fresh 0x108 0 none 1 2 3 CANData.zero rfl
      fresh_PerfectStatic (by decide) (by decide) (Or.inl rfl)).2.2.2⟩

/-- State after a `can_shm_set_perfect_hash` call with an admissible key and
valid arguments, in terms of the state after the lazy set-up. -/
theorem set_ph_ok (p : Sys) (k d : Nat) (data : Option (List Nat)) (t_start ts t_end : Nat)
    (hinit : p.g_is_initialized = true)
    (hadm : is_valid_can_id_for_perfect_hash_demo k = true) (hd : d ≤ 64)
    (hnull : d = 0 ∨ data ≠ none) :
    (can_shm_set_perfect_hash p k d data t_start ts t_end).1 = CAN_SHM_SUCCESS ∧
    (can_shm_set_perfect_hash p k d data t_start ts t_end).2.g_is_initialized = true ∧
    (can_shm_set_perfect_hash p k d data t_start ts t_end).2.g_perfect_hash_initialized = true ∧
    (can_shm_set_perfect_hash p k d data t_start ts t_end).2.shm = p.shm ∧
    (can_shm_set_perfect_hash p k d data t_start ts t_end).2.g_perfect_hash_table =
      Function.update (init_perfect_hash_table p).g_perfect_hash_table
        (pidx (can_id_perfect_hash_demo k))
        { sequence := (((init_perfect_hash_table p).g_perfect_hash_table
            (pidx (can_id_perfect_hash_demo k))).sequence + 1) % U32
          can_id := k
          dlc := d
          data := copy_payload ((init_perfect_hash_table p).g_perfect_hash_table
            (pidx (can_id_perfect_hash_demo k))).data d data
          timestamp := ts } ∧
    (can_shm_set_perfect_hash p k d data t_start ts t_end).2.g_perfect_hash_valid
      (pidx (can_id_perfect_hash_demo k)) ≠ 0 ∧
    (∀ s, s ≠ pidx (can_id_perfect_hash_demo k) →
      (can_shm_set_perfect_hash p k d data t_start ts t_end).2.g_perfect_hash_valid s
        = (init_perfect_hash_table p).g_perfect_hash_valid s) ∧
    (can_shm_set_perfect_hash p k d data t_start ts t_end).2.g_perfect_stats.total_sets
      = ((init_perfect_hash_table p).g_perfect_stats.total_sets + 1) % U64 := by
  obtain ⟨hne, hlt, _⟩ := admissible_facts k hadm
  obtain ⟨hf1, hf2, hf3, _⟩ := init_perfect_flags p
  have hv := is_valid_can_id_eq_true (admissible_le k hadm)
  have h64 : ¬ d > 64 := by omega
  have hn : ¬ (d > 0 ∧ data = none) := by
    rintro ⟨h1, h2⟩
    rcases hnull with h | h
    · omega
    · exact h h2
  have hidx : ¬ (can_id_perfect_hash_demo k = 0xFFFFFFFF ∨
      can_id_perfect_hash_demo k ≥ PERFECT_HASH_TABLE_SIZE) := by
    rintro (h | h)
    · exact hne h
    · omega
  by_cases hnew : (init_perfect_hash_table p).g_perfect_hash_valid
      (pidx (can_id_perfect_hash_demo k)) = 0
  · refine ⟨?_, ?_, ?_, ?_, ?_, ?_, ?_, ?_⟩
    · simp [can_shm_set_perfect_hash, hinit, hv, h64, hn, hidx, hadm]
    · simp [can_shm_set_perfect_hash, hinit, hv, h64, hn, hidx, hadm, hf2]
    · simp [can_shm_set_perfect_hash, hinit, hv, h64, hn, hidx, hadm, hf1]
    · simp [can_shm_set_perfect_hash, hinit, hv, h64, hn, hidx, hadm, hf3]
    · simp [can_shm_set_perfect_hash, hinit, hv, h64, hn, hidx, hadm]
    · simp [can_shm_set_perfect_hash, hinit, hv, h64, hn, hidx, hadm, hnew]
    · intro s hs
      simp [can_shm_set_perfect_hash, hinit, hv, h64, hn, hidx, hadm, hnew,
        Function.update_noteq hs]
    · simp [can_shm_set_perfect_hash, hinit, hv, h64, hn, hidx, hadm]
  · refine ⟨?_, ?_, ?_, ?_, ?_, ?_, ?_, ?_⟩
    · simp [can_shm_set_perfect_hash, hinit, hv, h64, hn, hidx, hadm]
    · simp [can_shm_set_perfect_hash, hinit, hv, h64, hn, hidx, hadm, hf2]
    · simp [can_shm_set_perfect_hash, hinit, hv, h64, hn, hidx, hadm, hf1]
    · simp [can_shm_set_perfect_hash, hinit, hv, h64, hn, hidx, hadm, hf3]
    · simp [can_shm_set_perfect_hash, hinit, hv, h64, hn, hidx, hadm]
    · simp [can_shm_set_perfect_hash, hinit, hv, h64, hn, hidx, hadm, hnew]
    · intro s _
      simp [can_shm_set_perfect_hash, hinit, hv, h64, hn, hidx, hadm, hnew]
    · simp [can_shm_set_perfect_hash, hinit, hv, h64, hn, hidx, hadm]

/-- A `can_shm_set_perfect_hash` call either fails, returning the state as it
was or as the lazy set-up leaves it, or was made on an initialised system
with an admissible key and valid arguments. -/
theorem set_ph_cases (p : Sys) (k d : Nat) (data : Option (List Nat)) (t_start ts t_end : Nat) :
    (∃ e, e ≠ CAN_SHM_SUCCESS ∧
      (can_shm_set_perfect_hash p k d data t_start ts t_end = (e, p) ∨
        (p.g_is_initialized = true ∧
          can_shm_set_perfect_hash p k d data t_start ts t_end
            = (e, init_perfect_hash_table p)))) ∨
    (p.g_is_initialized = true ∧ is_valid_can_id_for_perfect_hash_demo k = true ∧ d ≤ 64 ∧
      (d = 0 ∨ data ≠ none)) := by
  by_cases h1 : p.g_is_initialized = false
  · exact Or.inl ⟨CAN_SHM_ERROR_INIT_FAILED, by decide,
      Or.inl (by simp [can_shm_set_perfect_hash, h1])⟩
  have hinit : p.g_is_initialized = true := by simpa using h1
  by_cases h2 : is_valid_can_id k = false
  · exact Or.inl ⟨CAN_SHM_ERROR_INVALID_ID, by decide,
      Or.inr ⟨hinit, by simp [can_shm_set_perfect_hash, h1, h2]⟩⟩
  by_cases h3 : d > 64
  · exact Or.inl ⟨CAN_SHM_ERROR_INVALID_PARAM, by decide,
      Or.inr ⟨hinit, by simp [can_shm_set_perfect_hash, h1, h2, h3]⟩⟩
  by_cases h4 : d > 0 ∧ data = none
  · exact Or.inl ⟨CAN_SHM_ERROR_INVALID_PARAM, by decide,
      Or.inr ⟨hinit, by simp [can_shm_set_perfect_hash, h1, h2, h3, h4]⟩⟩
  by_cases h5 : can_id_perfect_hash_demo k = 0xFFFFFFFF ∨
      can_id_perfect_hash_demo k ≥ PERFECT_HASH_TABLE_SIZE
  · exact Or.inl ⟨CAN_SHM_ERROR_INVALID_ID, by decide,
      Or.inr ⟨hinit, by simp [can_shm_set_perfect_hash, h1, h2, h3, h4, h5]⟩⟩
  by_cases h6 : is_valid_can_id_for_perfect_hash_demo k = false
  · exact Or.inl ⟨CAN_SHM_ERROR_INVALID_ID, by decide,
      Or.inr ⟨hinit, by simp [can_shm_set_perfect_hash, h1, h2, h3, h4, h5, h6]⟩⟩
  · right
    refine ⟨hinit, by simpa using h6, by omega, ?_⟩
    by_cases hd0 : d = 0
    · exact Or.inl hd0
    · exact Or.inr (fun hn => h4 ⟨by omega, hn⟩)

/-- State after a `can_shm_delete_perfect_hash` call on an initialised table
with an admissible key whose slot is flagged valid. -/
theorem delete_ph_ok (p : Sys) (k t_start t_end : Nat)
    (hinit : p.g_is_initialized = true) (hph : p.g_perfect_hash_initialized = true)
    (hadm : is_valid_can_id_for_perfect_hash_demo k = true)
    (hvalid : p.g_perfect_hash_valid (pidx (can_id_perfect_hash_demo k)) ≠ 0) :
    (can_shm_delete_perfect_hash p k t_start t_end).1 = CAN_SHM_SUCCESS ∧
    (can_shm_delete_perfect_hash p k t_start t_end).2.g_is_initialized = true ∧
    (can_shm_delete_perfect_hash p k t_start t_end).2.g_perfect_hash_initialized = true ∧
    (can_shm_delete_perfect_hash p k t_start t_end).2.shm = p.shm ∧
    (can_shm_delete_perfect_hash p k t_start t_end).2.g_perfect_hash_table =
      Function.update p.g_perfect_hash_table (pidx (can_id_perfect_hash_demo k))
        CANData.zero ∧
    (can_shm_delete_perfect_hash p k t_start t_end).2.g_perfect_hash_valid =
      Function.update p.g_perfect_hash_valid (pidx (can_id_perfect_hash_demo k)) 0 := by
  obtain ⟨hne, hlt, _⟩ := admissible_facts k hadm
  have hv := is_valid_can_id_eq_true (admissible_le k hadm)
  have hidx : ¬ (can_id_perfect_hash_demo k = 0xFFFFFFFF ∨
      can_id_perfect_hash_demo k ≥ PERFECT_HASH_TABLE_SIZE) := by
    rintro (h | h)
    · exact hne h
    · omega
  have hq := init_perfect_of_initialized p hph
  refine ⟨?_, ?_, ?_, ?_, ?_, ?_⟩ <;>
    simp [can_shm_delete_perfect_hash, hinit, hv, hidx, hadm, hq, hvalid, hph]

/-- A `can_shm_delete_perfect_hash` call on an initialised table either
fails and returns the state unchanged, or was made with an admissible key
whose slot is flagged valid. -/
theorem delete_ph_cases (p : Sys) (k t_start t_end : Nat)
    (hph : p.g_perfect_hash_initialized = true) :
    (∃ e, e ≠ CAN_SHM_SUCCESS ∧ can_shm_delete_perfect_hash p k t_start t_end = (e, p)) ∨
    (p.g_is_initialized = true ∧ is_valid_can_id_for_perfect_hash_demo k = true ∧
      p.g_perfect_hash_valid (pidx (can_id_perfect_hash_demo k)) ≠ 0) := by
  have hq := init_perfect_of_initialized p hph
  by_cases h1 : p.g_is_initialized = false
  · exact Or.inl ⟨CAN_SHM_ERROR_INIT_FAILED, by decide,
      by simp [can_shm_delete_perfect_hash, h1]⟩
  by_cases h2 : is_valid_can_id k = false
  · exact Or.inl ⟨CAN_SHM_ERROR_INVALID_ID, by decide,
      by simp [can_shm_delete_perfect_hash, h1, h2, hq]⟩
  by_cases h5 : can_id_perfect_hash_demo k = 0xFFFFFFFF ∨
      can_id_perfect_hash_demo k ≥ PERFECT_HASH_TABLE_SIZE
  · exact Or.inl ⟨CAN_SHM_ERROR_INVALID_ID, by decide,
      by simp [can_shm_delete_perfect_hash, h1, h2, h5, hq]⟩
  by_cases h6 : is_valid_can_id_for_perfect_hash_demo k = false
  · exact Or.inl ⟨CAN_SHM_ERROR_INVALID_ID, by decide,
      by simp [can_shm_delete_perfect_hash, h1, h2, h5, h6, hq]⟩
  by_cases h7 : p.g_perfect_hash_valid (pidx (can_id_perfect_hash_demo k)) = 0
  · exact Or.inl ⟨CAN_SHM_ERROR_NOT_FOUND, by decide,
      by simp [can_shm_delete_perfect_hash, h1, h2, h5, h6, hq, h7]⟩
  · exact Or.inr ⟨by simpa using h1, by simpa using h6, h7⟩

/-- The perfect-hash reader on a stored key returns the record of its slot
when that record carries the key. -/
theorem get_ph_hit (p : Sys) (k : Nat) (r out : CANData) (t_start t_end : Nat)
    (hadm : is_valid_can_id_for_perfect_hash_demo k = true) (hst : PhStored p k r)
    (hid : r.can_id = k) :
    ∃ q, can_shm_get_perfect_hash p k (some out) t_start t_end
      = (CAN_SHM_SUCCESS, some r, q) := by
  obtain ⟨hinit, hph, hvalid, hr⟩ := hst
  obtain ⟨hne, hlt, _⟩ := admissible_facts k hadm
  have hv := is_valid_can_id_eq_true (admissible_le k hadm)
  have hidx : ¬ (can_id_perfect_hash_demo k = 0xFFFFFFFF ∨
      can_id_perfect_hash_demo k ≥ PERFECT_HASH_TABLE_SIZE) := by
    rintro (h | h)
    · exact hne h
    · omega
  have hq := init_perfect_of_initialized p hph
  refine ⟨(can_shm_get_perfect_hash p k (some out) t_start t_end).2.2, ?_⟩
  simp [can_shm_get_perfect_hash, hinit, hv, hidx, hadm, hq, hvalid, hr, hid]

/-- The perfect-hash reader on an admissible key whose slot is not flagged
valid returns NotFound and changes nothing. -/
theorem get_ph_invalid (p : Sys) (k : Nat) (out : CANData) (t_start t_end : Nat)
    (hinit : p.g_is_initialized = true) (hph : p.g_perfect_hash_initialized = true)
    (hadm : is_valid_can_id_for_perfect_hash_demo k = true)
    (hinvalid : p.g_perfect_hash_valid (pidx (can_id_perfect_hash_demo k)) = 0) :
    can_shm_get_perfect_hash p k (some out) t_start t_end
      = (CAN_SHM_ERROR_NOT_FOUND, some out, p) := by
  obtain ⟨hne, hlt, _⟩ := admissible_facts k hadm
  have hv := is_valid_can_id_eq_true (admissible_le k hadm)
  have hidx : ¬ (can_id_perfect_hash_demo k = 0xFFFFFFFF ∨
      can_id_perfect_hash_demo k ≥ PERFECT_HASH_TABLE_SIZE) := by
    rintro (h | h)
    · exact hne h
    · omega
  have hq := init_perfect_of_initialized p hph
  simp [can_shm_get_perfect_hash, hinit, hv, hidx, hadm, hq, hinvalid]

/-- Two admissible keys with the same slot are equal. -/
theorem admissible_slot_inj (a b : Nat)
    (ha : is_valid_can_id_for_perfect_hash_demo a = true)
    (hb : is_valid_can_id_for_perfect_hash_demo b = true)
    (e : pidx (can_id_perfect_hash_demo a) = pidx (can_id_perfect_hash_demo b)) : a = b := by
  obtain ⟨_, hla, hma⟩ := admissible_facts a ha
  obtain ⟨_, hlb, hmb⟩ := admissible_facts b hb
  have e2 : can_id_perfect_hash_demo a % 32 = can_id_perfect_hash_demo b % 32 :=
    congrArg Fin.val e
  simp only [PERFECT_HASH_TABLE_SIZE] at hla hlb
  have e3 : can_id_perfect_hash_demo a = can_id_perfect_hash_demo b := by omega
  rw [← hma, ← hmb, e3]

/-- The guarded copy puts the bytes of the data buffer into the first `d`
places. -/
theorem copy_payload_bytes (old : Fin 64 → Nat) (d : Nat) (data : Option (List Nat))
    (hnull : d = 0 ∨ data ≠ none) (i : Fin 64) (hi : i.val < d) :
    copy_payload old d data i = byteAt data i.val := by
  cases data with
  | none =>
    rcases hnull with h | h
    · omega
    · exact absurd rfl h
  | some buf =>
    have hpos : 0 < d := by omega
    simp [copy_payload, memcpy, byteAt, hpos, hi]

/-- A perfect-hash operation called with another key leaves a stored key
stored with the same record. -/
theorem ph_step_PhStored (p : Sys) (o : PhOp) (K : Nat) (r : CANData)
    (hK : is_valid_can_id_for_perfect_hash_demo K = true) (ht : o.target ≠ K)
    (hst : PhStored p K r) : PhStored (ph_step p o).2 K r := by
  obtain ⟨hinit, hph, hvalid, hr⟩ := hst
  have hq := init_perfect_of_initialized p hph
  cases o with
  | set c t_start t_end =>
    show PhStored (can_shm_set_perfect_hash p c.can_id c.dlc c.data t_start c.ts t_end).2 K r
    rcases set_ph_cases p c.can_id c.dlc c.data t_start c.ts t_end with
      ⟨e, _, heq | ⟨_, heq⟩⟩ | ⟨_, hadm, hd, hnull⟩
    · rw [heq]
      exact ⟨hinit, hph, hvalid, hr⟩
    · rw [heq, hq]
      exact ⟨hinit, hph, hvalid, hr⟩
    · obtain ⟨_, h2, h3, _, htab, _, hval, _⟩ :=
        set_ph_ok p c.can_id c.dlc c.data t_start c.ts t_end hinit hadm hd hnull
      have hne : pidx (can_id_perfect_hash_demo K) ≠ pidx (can_id_perfect_hash_demo c.can_id) :=
        fun e => ht (admissible_slot_inj K c.can_id hK hadm e).symm
      refine ⟨h2, h3, ?_, ?_⟩
      · rw [hval _ hne, hq]
        exact hvalid
      · rw [htab, Function.update_noteq hne, hq]
        exact hr
  | delete k t_start t_end =>
    show PhStored (can_shm_delete_perfect_hash p k t_start t_end).2 K r
    rcases delete_ph_cases p k t_start t_end hph with ⟨e, _, heq⟩ | ⟨_, hadm, hv⟩
    · rw [heq]
      exact ⟨hinit, hph, hvalid, hr⟩
    · obtain ⟨_, h2, h3, _, htab, hval⟩ := delete_ph_ok p k t_start t_end hinit hph hadm hv
      have hne : pidx (can_id_perfect_hash_demo K) ≠ pidx (can_id_perfect_hash_demo k) :=
        fun e => ht (admissible_slot_inj K k hK hadm e).symm
      refine ⟨h2, h3, ?_, ?_⟩
      · rw [hval, Function.update_noteq hne]
        exact hvalid
      · rw [htab, Function.update_noteq hne]
        exact hr

theorem ph_run_PhStored (K : Nat) (r : CANData)
    (hK : is_valid_can_id_for_perfect_hash_demo K = true) (ops : List PhOp)
    (ht : ∀ o ∈ ops, o.target ≠ K) :
    ∀ p : Sys, PhStored p K r → PhStored (ph_run p ops) K r := by
  induction ops with
  | nil => intro p h; exact h
  | cons o os ih =>
    intro p h
    exact ih (fun x hx => ht x (List.mem_cons_of_mem _ hx)) _
      (ph_step_PhStored p o K r hK (ht o (List.mem_cons_self _ _)) h)

/-- C15. After a successful `can_shm_set_perfect_hash(K, dlc, data)` (so `K`
is admissible and `dlc ≤ 64`), followed by any sequence of perfect-hash sets
and deletes called with keys other than `K`, `can_shm_get_perfect_hash(K)`
returns Success with `can_id = K`, the same `dlc` and the first `dlc` data
bytes equal to the written bytes. -/
theorem ph_roundtrip (p : Sys) (K d : Nat) (data : Option (List Nat))
    (t_start ts t_end : Nat) (ops : List PhOp) (out : CANData) (t2 t3 : Nat)
    (hset : (can_shm_set_perfect_hash p K d data t_start ts t_end).1 = CAN_SHM_SUCCESS)
    (hops : ∀ o ∈ ops, o.target ≠ K) :
    ∃ r q, can_shm_get_perfect_hash
        (ph_run (can_shm_set_perfect_hash p K d data t_start ts t_end).2 ops) K (some out)
        t2 t3 = (CAN_SHM_SUCCESS, some r, q) ∧
      r.can_id = K ∧ r.dlc = d ∧
      (∀ i : Fin 64, i.val < d → r.data i = byteAt data i.val) := by
  rcases set_ph_cases p K d data t_start ts t_end with
    ⟨e, he, heq | ⟨_, heq⟩⟩ | ⟨hinit, hadm, hd, hnull⟩
  · rw [heq] at hset
    exact absurd hset he
  · rw [heq] at hset
    exact absurd hset he
  · obtain ⟨_, h2, h3, _, htab, hval, _, _⟩ :=
      set_ph_ok p K d data t_start ts t_end hinit hadm hd hnull
    have hst : PhStored (can_shm_set_perfect_hash p K d data t_start ts t_end).2 K
        ((can_shm_set_perfect_hash p K d data t_start ts t_end).2.g_perfect_hash_table
          (pidx (can_id_perfect_hash_demo K))) := ⟨h2, h3, hval, rfl⟩
    have hfinal := ph_run_PhStored K _ hadm ops hops _ hst
    have hid : ((can_shm_set_perfect_hash p K d data t_start ts t_end).2.g_perfect_hash_table
        (pidx (can_id_perfect_hash_demo K))).can_id = K := by
      rw [htab, Function.update_same]
    obtain ⟨q, hget⟩ := get_ph_hit _ K _ out t2 t3 hadm hfinal hid
    refine ⟨_, q, hget, hid, ?_, ?_⟩
    · rw [htab, Function.update_same]
    · intro i hi
      rw [htab, Function.update_same]
      exact copy_payload_bytes _ d data hnull i hi

/-- Witness of C15: `0x100` is set on the fresh system, then `0x200` is set
and deleted and `0x101` is set. -/
theorem ph_roundtrip_witness :
    ∃ r q, can_shm_get_perfect_hash
        (ph_run (can_shm_set_perfect_hash fresh 0x100 4 (some [0xAA, 0xBB, 0xCC, 0xDD]) 1 2 3).2
          [PhOp.set ⟨0x200, 1, some [7], 5⟩ 4 6, PhOp.delete 0x200 7 8,
            PhOp.set ⟨0x101, 0, none, 10⟩ 9 11]) 0x100 (some CANData.zero) 12 13
        = (CAN_SHM_SUCCESS, some r, q) ∧
      r.can_id = 0x100 ∧ r.dlc = 4 ∧
      (∀ i : Fin 64, i.val < 4 → r.data i = byteAt (some [0xAA, 0xBB, 0xCC, 0xDD]) i.val) :=
  ph_roundtrip fresh 0x100 4 (some [0xAA, 0xBB, 0xCC, 0xDD]) 1 2 3
    [PhOp.set ⟨0x200, 1, some [7], 5⟩ 4 6, PhOp.delete 0x200 7 8,
      PhOp.set ⟨0x101, 0, none, 10⟩ 9 11] CANData.zero 12 13 (by decide) (by decide)

/-- The perfect-hash delete on an admissible key whose slot is not flagged
valid returns NotFound and changes nothing. -/
theorem delete_ph_invalid (p : Sys) (k t_start t_end : Nat)
    (hinit : p.g_is_initialized = true) (hph : p.g_perfect_hash_initialized = true)
    (hadm : is_valid_can_id_for_perfect_hash_demo k = true)
    (hinvalid : p.g_perfect_hash_valid (pidx (can_id_perfect_hash_demo k)) = 0) :
    can_shm_delete_perfect_hash p k t_start t_end = (CAN_SHM_ERROR_NOT_FOUND, p) := by
  obtain ⟨hne, hlt, _⟩ := admissible_facts k hadm
  have hv := is_valid_can_id_eq_true (admissible_le k hadm)
  have hidx : ¬ (can_id_perfect_hash_demo k = 0xFFFFFFFF ∨
      can_id_perfect_hash_demo k ≥ PERFECT_HASH_TABLE_SIZE) := by
    rintro (h | h)
    · exact hne h
    · omega
  have hq := init_perfect_of_initialized p hph
  simp [can_shm_delete_perfect_hash, hinit, hv, hidx, hadm, hq, hinvalid]

/-- C16. On an initialised system with an initialised perfect-hash table, for
every admissible `K` whose slot is flagged valid (`K` is stored),
`can_shm_delete_perfect_hash(K)` returns Success, leaves a zero record and a
cleared validity flag in the slot of `K` and every other slot as it was; the
following `can_shm_get_perfect_hash(K)` returns NotFound and a second
`can_shm_delete_perfect_hash(K)` returns NotFound, both without changing the
state. -/
theorem ph_delete_stored (p : Sys) (K : Nat) (out : CANData) (t0 t1 t2 t3 t4 t5 : Nat)
    (hinit : p.g_is_initialized = true) (hph : p.g_perfect_hash_initialized = true)
    (hK : K ∈ DEMO_CAN_IDS)
    (hstored : p.g_perfect_hash_valid (pidx (can_id_perfect_hash_demo K)) ≠ 0) :
    (can_shm_delete_perfect_hash p K t0 t1).1 = CAN_SHM_SUCCESS ∧
    (can_shm_delete_perfect_hash p K t0 t1).2.g_perfect_hash_table
      (pidx (can_id_perfect_hash_demo K)) = CANData.zero ∧
    (can_shm_delete_perfect_hash p K t0 t1).2.g_perfect_hash_valid
      (pidx (can_id_perfect_hash_demo K)) = 0 ∧
    (∀ s, s ≠ pidx (can_id_perfect_hash_demo K) →
      (can_shm_delete_perfect_hash p K t0 t1).2.g_perfect_hash_table s
        = p.g_perfect_hash_table s ∧
      (can_shm_delete_perfect_hash p K t0 t1).2.g_perfect_hash_valid s
        = p.g_perfect_hash_valid s) ∧
    can_shm_get_perfect_hash (can_shm_delete_perfect_hash p K t0 t1).2 K (some out) t2 t3
      = (CAN_SHM_ERROR_NOT_FOUND, some out, (can_shm_delete_perfect_hash p K t0 t1).2) ∧
    can_shm_delete_perfect_hash (can_shm_delete_perfect_hash p K t0 t1).2 K t4 t5
      = (CAN_SHM_ERROR_NOT_FOUND, (can_shm_delete_perfect_hash p K t0 t1).2) := by
  have hadm := (admissible_iff K).mpr hK
  obtain ⟨h1, h2, h3, _, htab, hval⟩ := delete_ph_ok p K t0 t1 hinit hph hadm hstored
  have hinv : (can_shm_delete_perfect_hash p K t0 t1).2.g_perfect_hash_valid
      (pidx (can_id_perfect_hash_demo K)) = 0 := by
    rw [hval, Function.update_same]
  refine ⟨h1, ?_, hinv, ?_, ?_, ?_⟩
  · rw [htab, Function.update_same]
  · intro s hs
    rw [htab, hval, Function.update_noteq hs, Function.update_noteq hs]
    exact ⟨rfl, rfl⟩
  · exact get_ph_invalid _ K out t2 t3 h2 h3 hadm hinv
  · exact delete_ph_invalid _ K t4 t5 h2 h3 hadm hinv

/-- Witness of C16: `0x100` is set on the fresh system and then deleted. -/
theorem ph_delete_stored_witness :
    (can_shm_delete_perfect_hash
      (can_shm_set_perfect_hash fresh 0x100 4 (some [0xFF, 0xEE, 0xDD, 0xCC]) 1 2 3).2
      0x100 4 5).1 = CAN_SHM_SUCCESS ∧
    can_shm_get_perfect_hash
      (can_shm_delete_perfect_hash
        (can_shm_set_perfect_hash fresh 0x100 4 (some [0xFF, 0xEE, 0xDD, 0xCC]) 1 2 3).2
        0x100 4 5).2 0x100 (some CANData.zero) 6 7
      = (CAN_SHM_ERROR_NOT_FOUND, some CANData.zero,
          (can_shm_delete_perfect_hash
            (can_shm_set_perfect_hash fresh 0x100 4 (some [0xFF, 0xEE, 0xDD, 0xCC]) 1 2 3).2
            0x100 4 5).2) :=
  ⟨(ph_delete_stored
      (can_shm_set_perfect_hash fresh 0x100 4 (some [0xFF, 0xEE, 0xDD, 0xCC]) 1 2 3).2
      0x100 CANData.zero 4 5 6 7 8 9 (by decide) (by decide) (by decide) (by decide)).1,
   (ph_delete_stored
      (can_shm_set_perfect_hash fresh 0x100 4 (some [0xFF, 0xEE, 0xDD, 0xCC]) 1 2 3).2
      0x100 CANData.zero 4 5 6 7 8 9 (by decide) (by decide) (by decide)
      (by decide)).2.2.2.2.1⟩

/-- C17 fails on the code: on the fresh system `0x100` is set through
`can_shm_set_perfect_hash` with 4 bytes and then with `dlc = 0` and a `NULL`
data pointer; both calls succeed, and the record read back has `dlc = 0`
with payload bytes 0..3 still `AA BB CC DD`. -/
theorem ph_dlc_zero_keeps_stale_bytes :
    (can_shm_set_perfect_hash fresh 0x100 4 (some [0xAA, 0xBB, 0xCC, 0xDD]) 1 2 3).1
      = CAN_SHM_SUCCESS ∧
    (can_shm_set_perfect_hash
      (can_shm_set_perfect_hash fresh 0x100 4 (some [0xAA, 0xBB, 0xCC, 0xDD]) 1 2 3).2
      0x100 0 none 4 5 6).1 = CAN_SHM_SUCCESS ∧
    (can_shm_get_perfect_hash
      (can_shm_set_perfect_hash
        (can_shm_set_perfect_hash fresh 0x100 4 (some [0xAA, 0xBB, 0xCC, 0xDD]) 1 2 3).2
        0x100 0 none 4 5 6).2 0x100 (some CANData.zero) 7 8).1 = CAN_SHM_SUCCESS ∧
    Option.map (fun r => (r.can_id, r.dlc, r.data 0, r.data 1, r.data 2, r.data 3))
      (can_shm_get_perfect_hash
        (can_shm_set_perfect_hash
          (can_shm_set_perfect_hash fresh 0x100 4 (some [0xAA, 0xBB, 0xCC, 0xDD]) 1 2 3).2
          0x100 0 none 4 5 6).2 0x100 (some CANData.zero) 7 8).2.1
      = some (0x100, 0, 0xAA, 0xBB, 0xCC, 0xDD) := by
  decide

/-! ## Counters -/

/-- Region counters after a `can_shm_set` call that passes validation. -/
theorem can_shm_set_counters (p : Sys) (k d : Nat) (data : Option (List Nat)) (ts : Nat)
    (hinit : p.g_is_initialized = true) (hk : k ≤ CAN_ID_MAX) (hd : d ≤ 64)
    (hnull : d = 0 ∨ data ≠ none) :
    (can_shm_set p k d data ts).2.shm.global_sequence = (p.shm.global_sequence + 1) % U64 ∧
    (can_shm_set p k d data ts).2.shm.total_sets = (p.shm.total_sets + 1) % U64 := by
  have hv := is_valid_can_id_eq_true hk
  have h64 : ¬ d > 64 := by omega
  have hn : ¬ (d > 0 ∧ data = none) := by
    rintro ⟨h1, h2⟩
    rcases hnull with h | h
    · omega
    · exact h h2
  constructor <;> simp [can_shm_set, hinit, hv, h64, hn]

/-- Region counters after the probe loop of the linear-probing writer: it
either returns the table-full code with the state unchanged, or succeeds and
has added 1 to both counters. -/
theorem set_lp_loop_counters (p : Sys) (k d : Nat) (data : Option (List Nat)) (ts h : Nat) :
    ∀ n i,
      can_shm_set_linear_probing_loop p k d data ts h n i = (CAN_SHM_ERROR_NOT_FOUND, p) ∨
      ((can_shm_set_linear_probing_loop p k d data ts h n i).1 = CAN_SHM_SUCCESS ∧
        (can_shm_set_linear_probing_loop p k d data ts h n i).2.shm.global_sequence
          = (p.shm.global_sequence + 1) % U64 ∧
        (can_shm_set_linear_probing_loop p k d data ts h n i).2.shm.total_sets
          = (p.shm.total_sets + 1) % U64) := by
  intro n
  induction n with
  | zero => intro i; exact Or.inl rfl
  | succ n ih =>
    intro i
    by_cases hv : (p.shm.buckets (idx (h + i))).is_valid = 0
    · right
      refine ⟨?_, ?_, ?_⟩ <;> simp [can_shm_set_linear_probing_loop, hv, set_found]
    · by_cases hid : (p.shm.buckets (idx (h + i))).can_data.can_id = k
      · right
        refine ⟨?_, ?_, ?_⟩ <;> simp [can_shm_set_linear_probing_loop, hv, hid, set_found]
      · have hstep : can_shm_set_linear_probing_loop p k d data ts h (n + 1) i
            = can_shm_set_linear_probing_loop p k d data ts h n (i + 1) := by
          simp [can_shm_set_linear_probing_loop, hv, hid]
        rw [hstep]
        exact ih (i + 1)

/-- C18. Every successful `can_shm_set` and every successful
`can_shm_set_linear_probing` adds 1 to `global_sequence` and to `total_sets`
in 64-bit arithmetic, which is exactly `+ 1` (a strict increase) whenever the
counter is below `2^64 - 1`; a call that returns an error changes neither
counter. -/
theorem set_counters (p : Sys) (k d : Nat) (data : Option (List Nat)) (ts : Nat) :
    ((can_shm_set p k d data ts).1 = CAN_SHM_SUCCESS →
      (can_shm_set p k d data ts).2.shm.global_sequence = (p.shm.global_sequence + 1) % U64 ∧
      (can_shm_set p k d data ts).2.shm.total_sets = (p.shm.total_sets + 1) % U64 ∧
      (p.shm.global_sequence < U64 - 1 →
        (can_shm_set p k d data ts).2.shm.global_sequence = p.shm.global_sequence + 1) ∧
      (p.shm.total_sets < U64 - 1 →
        (can_shm_set p k d data ts).2.shm.total_sets = p.shm.total_sets + 1)) ∧
    ((can_shm_set p k d data ts).1 ≠ CAN_SHM_SUCCESS →
      (can_shm_set p k d data ts).2.shm.global_sequence = p.shm.global_sequence ∧
      (can_shm_set p k d data ts).2.shm.total_sets = p.shm.total_sets) ∧
    ((can_shm_set_linear_probing p k d data ts).1 = CAN_SHM_SUCCESS →
      (can_shm_set_linear_probing p k d data ts).2.shm.global_sequence
        = (p.shm.global_sequence + 1) % U64 ∧
      (can_shm_set_linear_probing p k d data ts).2.shm.total_sets
        = (p.shm.total_sets + 1) % U64 ∧
      (p.shm.global_sequence < U64 - 1 →
        (can_shm_set_linear_probing p k d data ts).2.shm.global_sequence
          = p.shm.global_sequence + 1) ∧
      (p.shm.total_sets < U64 - 1 →
        (can_shm_set_linear_probing p k d data ts).2.shm.total_sets
          = p.shm.total_sets + 1)) ∧
    ((can_shm_set_linear_probing p k d data ts).1 ≠ CAN_SHM_SUCCESS →
      (can_shm_set_linear_probing p k d data ts).2.shm.global_sequence
        = p.shm.global_sequence ∧
      (can_shm_set_linear_probing p k d data ts).2.shm.total_sets = p.shm.total_sets) := by
  have hmod : ∀ x : Nat, x < U64 - 1 → (x + 1) % U64 = x + 1 := by
    intro x hx
    simp only [U64] at hx ⊢
    omega
  refine ⟨?_, ?_, ?_, ?_⟩
  · intro hok
    obtain ⟨hinit, hk, hd, hnull⟩ := can_shm_set_success_args p k d data ts hok
    obtain ⟨h1, h2⟩ := can_shm_set_counters p k d data ts hinit hk hd hnull
    exact ⟨h1, h2, fun hlt => by rw [h1, hmod _ hlt], fun hlt => by rw [h2, hmod _ hlt]⟩
  · intro herr
    rcases can_shm_set_cases p k d data ts with ⟨e, _, heq⟩ | ⟨hinit, hk, hd, hnull⟩
    · rw [heq]
      exact ⟨rfl, rfl⟩
    · exact absurd (can_shm_set_ok p k d data ts hinit hk hd hnull).1 herr
  · intro hok
    rcases set_lp_cases p k d data ts with ⟨e, he, heq⟩ | ⟨hinit, hk, hd, hnull, _⟩
    · rw [heq] at hok
      exact absurd hok he
    · rw [set_lp_eq_loop p k d data ts hinit hk hd hnull] at hok ⊢
      rcases set_lp_loop_counters p k d data ts (can_id_hash k) MAX_CAN_ENTRIES 0 with
        heq | ⟨_, h1, h2⟩
      · rw [heq] at hok
        exact CANShmResult.noConfusion hok
      · exact ⟨h1, h2, fun hlt => by rw [h1, hmod _ hlt], fun hlt => by rw [h2, hmod _ hlt]⟩
  · intro herr
    rcases set_lp_cases p k d data ts with ⟨e, _, heq⟩ | ⟨_, _, _, _, j, _, _, _, hres, _, _⟩
    · rw [heq]
      exact ⟨rfl, rfl⟩
    · exact absurd hres herr

/-- Witness of C18: a successful `can_shm_set` on the fresh system takes
`global_sequence` from 0 to 1, and a `can_shm_set_linear_probing` with a
length of 65 leaves it at 0. -/
theorem set_counters_witness :
    (can_shm_set fresh 0x123 2 (some [1, 2]) 5).2.shm.global_sequence
      = fresh.shm.global_sequence + 1 ∧
    (can_shm_set_linear_probing fresh 0x123 65 (some []) 5).2.shm.global_sequence
      = fresh.shm.global_sequence :=
  ⟨((set_counters fresh 0x123 2 (some [1, 2]) 5).1 (by decide)).2.2.1 (by decide),
   ((set_counters fresh 0x123 65 (some []) 5).2.2.2 (by decide)).1⟩

/-- C19 (amended). A successful `can_shm_set_perfect_hash` leaves the region
untouched, so `global_sequence` and the `total_sets` reported by
`can_shm_get_stats` keep their values; it counts the set in the statistics of
the perfect-hash table, adding 1 to `g_perfect_stats.total_sets` in 64-bit
arithmetic. -/
theorem ph_set_counts_locally (p : Sys) (k d : Nat) (data : Option (List Nat))
    (t_start ts t_end : Nat) (hstatic : PerfectStatic p)
    (hok : (can_shm_set_perfect_hash p k d data t_start ts t_end).1 = CAN_SHM_SUCCESS) :
    (can_shm_set_perfect_hash p k d data t_start ts t_end).2.shm = p.shm ∧
    can_shm_get_stats (can_shm_set_perfect_hash p k d data t_start ts t_end).2
      = can_shm_get_stats p ∧
    (can_shm_set_perfect_hash p k d data t_start ts t_end).2.g_perfect_stats.total_sets
      = (p.g_perfect_stats.total_sets + 1) % U64 := by
  rcases set_ph_cases p k d data t_start ts t_end with
    ⟨e, he, heq | ⟨_, heq⟩⟩ | ⟨hinit, hadm, hd, hnull⟩
  · rw [heq] at hok
    exact absurd hok he
  · rw [heq] at hok
    exact absurd hok he
  · obtain ⟨_, h2, _, hshm, _, _, _, hcount⟩ :=
      set_ph_ok p k d data t_start ts t_end hinit hadm hd hnull
    have hstats := (init_perfect_SameStore p hstatic).2.2.2.2.2
    refine ⟨hshm, ?_, by rw [hcount, hstats]⟩
    simp [can_shm_get_stats, h2, hinit, hshm]

/-- Witness of C19 (amended): the first perfect-hash set on the fresh
system. -/
theorem ph_set_counts_locally_witness :
    (can_shm_set_perfect_hash fresh 0x100 4 (some [1, 2, 3, 4]) 1 2 3).2.shm = fresh.shm ∧
    can_shm_get_stats (can_shm_set_perfect_hash fresh 0x100 4 (some [1, 2, 3, 4]) 1 2 3).2
      = can_shm_get_stats fresh ∧
    (can_shm_set_perfect_hash fresh 0x100 4 (some [1, 2, 3, 4]) 1 2 3).2.g_perfect_stats.total_sets
      = (fresh.g_perfect_stats.total_sets + 1) % U64 :=
  ph_set_counts_locally fresh 0x100 4 (some [1, 2, 3, 4]) 1 2 3 fresh_PerfectStatic (by decide)

/-- C19 as stated fails: the perfect-hash set of `0x100` on the fresh system
succeeds, `global_sequence` is 0 before and after (no strict increase), and
`can_shm_get_stats` still reports 0 sets. -/
theorem ph_set_does_not_publish :
    (can_shm_set_perfect_hash fresh 0x100 4 (some [1, 2, 3, 4]) 1 2 3).1 = CAN_SHM_SUCCESS ∧
    ¬ (fresh.shm.global_sequence
      < (can_shm_set_perfect_hash fresh 0x100 4 (some [1, 2, 3, 4]) 1 2 3).2.shm.global_sequence) ∧
    (can_shm_get_stats fresh).2 = some (0, 0, 0) ∧
    (can_shm_get_stats
      (can_shm_set_perfect_hash fresh 0x100 4 (some [1, 2, 3, 4]) 1 2 3).2).2
      = some (0, 0, 0) := by
  decide

/-- C20 fails on the code: on the fresh system `0x999` is not stored;
`can_shm_get_linear_probing(0x999)` passes validation, returns NotFound and
leaves `total_gets` at 0, while `can_shm_get(0x999)` returns NotFound and
takes `total_gets` from 0 to 1. -/
theorem get_lp_not_found_not_counted :
    fresh.shm.total_gets = 0 ∧
    (can_shm_get_linear_probing fresh 0x999 (some CANData.zero) 0).1
      = CAN_SHM_ERROR_NOT_FOUND ∧
    (can_shm_get_linear_probing fresh 0x999 (some CANData.zero) 0).2.2.shm.total_gets = 0 ∧
    Option.map (fun x => (x.1, x.2.2.shm.total_gets))
      (can_shm_get fresh 0x999 (some CANData.zero) 0 1)
      = some (CAN_SHM_ERROR_NOT_FOUND, 1) := by
  decide

/-! ## Initialisation -/

/-- C22. In a process that is not yet initialised and whose `shm_open`,
`ftruncate` and `mmap` succeed, `can_shm_init` on a region whose
`magic_number` is not `0xCADDA7A` returns Success and yields a region with
`magic_number = 0xCADDA7A`, `version = 1`, `global_sequence = 0`, the three
statistics counters 0 and all 4096 buckets invalid with zero records; on a
region whose `magic_number` is `0xCADDA7A` it returns Success and leaves the
region unchanged; and in an already initialised process it returns Success
and leaves the whole state unchanged. -/
theorem init_region_contract (p : Sys) (os_ok : Bool) :
    (p.g_is_initialized = false → p.shm.magic_number ≠ MAGIC_NUMBER →
      (can_shm_init p true).1 = CAN_SHM_SUCCESS ∧
      (can_shm_init p true).2.g_is_initialized = true ∧
      (can_shm_init p true).2.shm.magic_number = 0xCADDA7A ∧
      (can_shm_init p true).2.shm.version = 1 ∧
      (can_shm_init p true).2.shm.global_sequence = 0 ∧
      (can_shm_init p true).2.shm.total_sets = 0 ∧
      (can_shm_init p true).2.shm.total_gets = 0 ∧
      (can_shm_init p true).2.shm.total_subscribes = 0 ∧
      ∀ s, ((can_shm_init p true).2.shm.buckets s).is_valid = 0 ∧
        ((can_shm_init p true).2.shm.buckets s).can_data = CANData.zero) ∧
    (p.g_is_initialized = false → p.shm.magic_number = MAGIC_NUMBER →
      (can_shm_init p true).1 = CAN_SHM_SUCCESS ∧
      (can_shm_init p true).2.g_is_initialized = true ∧
      (can_shm_init p true).2.shm = p.shm) ∧
    (p.g_is_initialized = true → can_shm_init p os_ok = (CAN_SHM_SUCCESS, p)) := by
  refine ⟨fun h1 h2 => ?_, fun h1 h2 => ?_, fun h1 => ?_⟩
  · have hrun : can_shm_init p true
        = (CAN_SHM_SUCCESS, { p with shm := init_region, g_is_initialized := true }) := by
      simp [can_shm_init, h1, h2]
    rw [hrun]
    exact ⟨rfl, rfl, rfl, rfl, rfl, rfl, rfl, rfl, fun _ => ⟨rfl, rfl⟩⟩
  · have hrun : can_shm_init p true = (CAN_SHM_SUCCESS, { p with g_is_initialized := true }) := by
      simp [can_shm_init, h1, h2]
    rw [hrun]
    exact ⟨rfl, rfl, rfl⟩
  · simp [can_shm_init, h1]

/-- Witness of C22: the first initialisation of a new region, a second
process attaching to the initialised region, and a second call in the first
process. -/
theorem init_region_contract_witness :
    (can_shm_init boot true).2.shm.version = 1 ∧
    (can_shm_init { fresh with g_is_initialized := false } true).2.shm = fresh.shm ∧
    can_shm_init fresh false = (CAN_SHM_SUCCESS, fresh) :=
  ⟨((init_region_contract boot true).1 rfl (by decide)).2.2.2.1,
   ((init_region_contract { fresh with g_is_initialized := false } true).2.1 rfl rfl).2.2,
   (init_region_contract fresh false).2.2 rfl⟩

/-! ## Versions of the main table -/

theorem seq_plus_two (v : Nat) : ((v + 1) % U32 + 1) % U32 = (v + 2) % U32 := by
  simp only [U32]
  omega

/-- Versions after any `can_shm_set`: either the call failed and nothing
changed, or it succeeded and the version of the home bucket advanced by 2
modulo `2^32` while every other bucket is as it was. -/
theorem can_shm_set_versions (p : Sys) (c : SetCall) :
    ((can_shm_set p c.can_id c.dlc c.data c.ts).1 ≠ CAN_SHM_SUCCESS ∧
      (can_shm_set p c.can_id c.dlc c.data c.ts).2 = p) ∨
    ((can_shm_set p c.can_id c.dlc c.data c.ts).1 = CAN_SHM_SUCCESS ∧
      ∃ t, versionAt (can_shm_set p c.can_id c.dlc c.data c.ts).2 t
          = (versionAt p t + 2) % U32 ∧
        ∀ s, s ≠ t →
          (can_shm_set p c.can_id c.dlc c.data c.ts).2.shm.buckets s = p.shm.buckets s) := by
  rcases can_shm_set_cases p c.can_id c.dlc c.data c.ts with
    ⟨e, he, heq⟩ | ⟨hinit, hk, hd, hnull⟩
  · left
    rw [heq]
    exact ⟨he, rfl⟩
  · right
    obtain ⟨h1, _, h3⟩ := can_shm_set_ok p c.can_id c.dlc c.data c.ts hinit hk hd hnull
    refine ⟨h1, idx (can_id_hash c.can_id), ?_, fun s hs => ?_⟩
    · unfold versionAt
      rw [h3, Function.update_same]
      exact seq_plus_two _
    · rw [h3, Function.update_noteq hs]

/-- Versions after any `can_shm_set_linear_probing`: either the call failed
and nothing changed, or it succeeded and the version of the bucket it wrote
advanced by 2 modulo `2^32` while every other bucket is as it was. -/
theorem set_lp_versions (p : Sys) (c : SetCall) :
    ((can_shm_set_linear_probing p c.can_id c.dlc c.data c.ts).1 ≠ CAN_SHM_SUCCESS ∧
      (can_shm_set_linear_probing p c.can_id c.dlc c.data c.ts).2 = p) ∨
    ((can_shm_set_linear_probing p c.can_id c.dlc c.data c.ts).1 = CAN_SHM_SUCCESS ∧
      ∃ t, versionAt (can_shm_set_linear_probing p c.can_id c.dlc c.data c.ts).2 t
          = (versionAt p t + 2) % U32 ∧
        ∀ s, s ≠ t →
          (can_shm_set_linear_probing p c.can_id c.dlc c.data c.ts).2.shm.buckets s
            = p.shm.buckets s) := by
  rcases set_lp_cases p c.can_id c.dlc c.data c.ts with
    ⟨e, he, heq⟩ | ⟨_, _, _, _, j, _, _, _, hres, _, hb⟩
  · left
    rw [heq]
    exact ⟨he, rfl⟩
  · right
    refine ⟨hres, idx (can_id_hash c.can_id + j), ?_, fun s hs => ?_⟩
    · unfold versionAt
      rw [hb, Function.update_same]
      exact seq_plus_two _
    · rw [hb, Function.update_noteq hs]

/-- One set operation of either kind: failure changes nothing, success
advances the version of exactly one bucket by 2 modulo `2^32`. -/
theorem step_set_versions (p : Sys) (o : Op) (ho : o.isSet) :
    ((step p o).1 ≠ CAN_SHM_SUCCESS ∧ (step p o).2 = p) ∨
    ((step p o).1 = CAN_SHM_SUCCESS ∧
      ∃ t, versionAt (step p o).2 t = (versionAt p t + 2) % U32 ∧
        ∀ s, s ≠ t → (step p o).2.shm.buckets s = p.shm.buckets s) := by
  cases o with
  | set c => exact can_shm_set_versions p c
  | set_lp c => exact set_lp_versions p c
  | delete_lp k => exact absurd ho (fun h => h)

theorem step_set_EvenVersions (p : Sys) (o : Op) (ho : o.isSet) (h : EvenVersions p) :
    EvenVersions (step p o).2 := by
  rcases step_set_versions p o ho with ⟨_, heq⟩ | ⟨_, t, ht, hother⟩
  · rw [heq]
    exact h
  · intro s
    by_cases hs : s = t
    · subst hs
      have h1 := h s
      unfold versionAt at ht
      rw [ht]
      simp only [U32]
      omega
    · rw [hother s hs]
      exact h s

theorem run_set_EvenVersions (ops : List Op) (hops : ∀ o ∈ ops, o.isSet) :
    ∀ p : Sys, EvenVersions p → EvenVersions (run p ops) := by
  induction ops with
  | nil => intro p h; exact h
  | cons o os ih =>
    intro p h
    exact ih (fun x hx => hops x (List.mem_cons_of_mem _ hx)) _
      (step_set_EvenVersions p o (hops o (List.mem_cons_self _ _)) h)

/-- C29. Starting from a freshly initialised region, after any sequence of
`can_shm_set` and `can_shm_set_linear_probing` calls every bucket's version
is even; and one further such call, when it succeeds, advances the version
of the one bucket it writes by exactly 2 modulo `2^32` and leaves every other
bucket (so its version) unchanged, and when it fails changes nothing. -/
theorem version_parity_main_table (p0 : Sys) (ops : List Op) (o : Op) (hfresh : Fresh p0)
    (hops : ∀ x ∈ ops, x.isSet) (ho : o.isSet) :
    (∀ s, versionAt (run p0 ops) s % 2 = 0) ∧
    (((step (run p0 ops) o).1 ≠ CAN_SHM_SUCCESS ∧ (step (run p0 ops) o).2 = run p0 ops) ∨
      ((step (run p0 ops) o).1 = CAN_SHM_SUCCESS ∧
        ∃ t, versionAt (step (run p0 ops) o).2 t = (versionAt (run p0 ops) t + 2) % U32 ∧
          ∀ s, s ≠ t → versionAt (step (run p0 ops) o).2 s = versionAt (run p0 ops) s)) := by
  refine ⟨run_set_EvenVersions ops hops p0 (fresh_EvenVersions p0 hfresh), ?_⟩
  rcases step_set_versions (run p0 ops) o ho with h | ⟨h1, t, ht, hother⟩
  · exact Or.inl h
  · exact Or.inr ⟨h1, t, ht, fun s hs => by unfold versionAt; rw [hother s hs]⟩

/-- Witness of C29: after `can_shm_set(0x10)` and
`can_shm_set_linear_probing(0x1000)` on the fresh system the version of
slot 17 is even. -/
theorem version_parity_main_table_witness :
    versionAt (run fresh [Op.set ⟨0x10, 1, some [1], 1⟩,
      Op.set_lp ⟨0x1000, 1, some [2], 2⟩]) (idx 17) % 2 = 0 :=
  (version_parity_main_table fresh
    [Op.set ⟨0x10, 1, some [1], 1⟩, Op.set_lp ⟨0x1000, 1, some [2], 2⟩]
    (Op.set_lp ⟨0x11, 0, none, 3⟩) fresh_Fresh
    (by intro x hx; simp at hx; rcases hx with h | h <;> subst h <;> trivial) trivial).1
    (idx 17)

theorem delete_lp_versions (p : Sys) (k : Nat) (s : Fin MAX_CAN_ENTRIES) :
    versionAt (can_shm_delete_linear_probing p k).2 s = versionAt p s ∨
    versionAt (can_shm_delete_linear_probing p k).2 s = 0 := by
  rcases delete_lp_cases p k with ⟨e, _, heq⟩ | ⟨_, _, j, _, _, _, _, _, _, hb⟩
  · left
    rw [heq]
  · by_cases hs : s = idx (can_id_hash k + j)
    · right
      unfold versionAt
      rw [hb, hs, Function.update_same]
      rfl
    · left
      unfold versionAt
      rw [hb, Function.update_noteq hs]

/-- On a full table that does not hold `k`, `can_shm_set_linear_probing(k)`
with valid arguments returns `CAN_SHM_ERROR_NOT_FOUND` and changes nothing. -/
theorem set_lp_full_not_found (p : Sys) (k d : Nat) (data : Option (List Nat)) (ts : Nat)
    (hinit : p.g_is_initialized = true) (hk : k ≤ CAN_ID_MAX) (hd : d ≤ 64)
    (hnull : d = 0 ∨ data ≠ none)
    (hfull : ∀ s, (p.shm.buckets s).is_valid ≠ 0 ∧ (p.shm.buckets s).can_data.can_id ≠ k) :
    can_shm_set_linear_probing p k d data ts = (CAN_SHM_ERROR_NOT_FOUND, p) := by
  rw [set_lp_eq_loop p k d data ts hinit hk hd hnull]
  rcases set_lp_loop_cases p k d data ts (can_id_hash k) MAX_CAN_ENTRIES 0 with
    ⟨h, _⟩ | ⟨j, _, _, _, hj, _⟩
  · exact h
  · rcases hj with h | h
    · exact absurd h (hfull _).1
    · exact absurd h (hfull _).2

theorem can_shm_set_not_not_found (p : Sys) (k d : Nat) (data : Option (List Nat)) (ts : Nat) :
    (can_shm_set p k d data ts).1 ≠ CAN_SHM_ERROR_NOT_FOUND := by
  rcases can_shm_set_cases p k d data ts with ⟨e, he, heq⟩ | ⟨hinit, hk, hd, hnull⟩
  · by_cases h1 : p.g_is_initialized = false
    · simp [can_shm_set, h1]
    by_cases h2 : is_valid_can_id k = false
    · simp [can_shm_set, h1, h2]
    by_cases h3 : d > 64
    · simp [can_shm_set, h1, h2, h3]
    by_cases h4 : d > 0 ∧ data = none
    · simp [can_shm_set, h1, h2, h3, h4]
    · simp [can_shm_set, h1, h2, h3, h4]
  · rw [(can_shm_set_ok p k d data ts hinit hk hd hnull).1]
    decide

theorem set_ph_not_not_found (p : Sys) (k d : Nat) (data : Option (List Nat))
    (t_start ts t_end : Nat) :
    (can_shm_set_perfect_hash p k d data t_start ts t_end).1 ≠ CAN_SHM_ERROR_NOT_FOUND := by
  rcases set_ph_cases p k d data t_start ts t_end with
    ⟨e, he, heq⟩ | ⟨hinit, hadm, hd, hnull⟩
  · by_cases h1 : p.g_is_initialized = false
    · simp [can_shm_set_perfect_hash, h1]
    by_cases h2 : is_valid_can_id k = false
    · simp [can_shm_set_perfect_hash, h1, h2]
    by_cases h3 : d > 64
    · simp [can_shm_set_perfect_hash, h1, h2, h3]
    by_cases h4 : d > 0 ∧ data = none
    · simp [can_shm_set_perfect_hash, h1, h2, h3, h4]
    by_cases h5 : can_id_perfect_hash_demo k = 0xFFFFFFFF ∨
        can_id_perfect_hash_demo k ≥ PERFECT_HASH_TABLE_SIZE
    · simp [can_shm_set_perfect_hash, h1, h2, h3, h4, h5]
    by_cases h6 : is_valid_can_id_for_perfect_hash_demo k = false
    · simp [can_shm_set_perfect_hash, h1, h2, h3, h4, h5, h6]
    · simp [can_shm_set_perfect_hash, h1, h2, h3, h4, h5, h6]
  · rw [(set_ph_ok p k d data t_start ts t_end hinit hadm hd hnull).1]
    decide

theorem full_table_full (k : Nat) (hk : MAX_CAN_ENTRIES ≤ k) (s : Fin MAX_CAN_ENTRIES) :
    (full_table.shm.buckets s).is_valid ≠ 0 ∧
    (full_table.shm.buckets s).can_data.can_id ≠ k := by
  refine ⟨Nat.one_ne_zero, ?_⟩
  have h1 : (full_table.shm.buckets s).can_data.can_id = can_id_hash s.val := rfl
  have h2 := can_id_hash_lt s.val
  rw [h1]
  omega

/-- C26 fails on the code for `can_shm_set_linear_probing`: on the full
table, whose 4096 buckets are valid and hold keys below 4096, the call for
`0x1000` with valid arguments returns `CAN_SHM_ERROR_NOT_FOUND` and changes
nothing.  `can_shm_set` and `can_shm_set_perfect_hash` never return that
code. -/
theorem set_lp_reports_not_found_when_full :
    full_table.g_is_initialized = true ∧
    (∀ s, (full_table.shm.buckets s).is_valid = 1) ∧
    can_shm_set_linear_probing full_table 0x1000 1 (some [1]) 7
      = (CAN_SHM_ERROR_NOT_FOUND, full_table) ∧
    (∀ p k d data ts, (can_shm_set p k d data ts).1 ≠ CAN_SHM_ERROR_NOT_FOUND) ∧
    (∀ p k d data t_start ts t_end,
      (can_shm_set_perfect_hash p k d data t_start ts t_end).1 ≠ CAN_SHM_ERROR_NOT_FOUND) :=
  ⟨rfl, fun _ => rfl,
    set_lp_full_not_found full_table 0x1000 1 (some [1]) 7 rfl (by decide) (by decide)
      (Or.inr (by simp)) (full_table_full 0x1000 (by decide)),
    can_shm_set_not_not_found, set_ph_not_not_found⟩

/-! ## Versions of the perfect-hash table -/

/-- C30 fails on the code: after the completed
`can_shm_set_perfect_hash(0x100)` on the fresh system,
`can_shm_get_perfect_hash(0x100)` returns Success with a record whose version
is 1, an odd value; after a second completed set the version is 2. -/
theorem ph_version_odd_after_set :
    (can_shm_set_perfect_hash fresh 0x100 4 (some [1, 2, 3, 4]) 0 5 1).1 = CAN_SHM_SUCCESS ∧
    (can_shm_get_perfect_hash
      (can_shm_set_perfect_hash fresh 0x100 4 (some [1, 2, 3, 4]) 0 5 1).2
      0x100 (some CANData.zero) 2 3).1 = CAN_SHM_SUCCESS ∧
    Option.map CANData.sequence (can_shm_get_perfect_hash
      (can_shm_set_perfect_hash fresh 0x100 4 (some [1, 2, 3, 4]) 0 5 1).2
      0x100 (some CANData.zero) 2 3).2.1 = some 1 ∧
    Option.map CANData.sequence (can_shm_get_perfect_hash
      (ph_run fresh [PhOp.set ⟨0x100, 4, some [1, 2, 3, 4], 5⟩ 0 1,
        PhOp.set ⟨0x100, 4, some [5, 6, 7, 8], 9⟩ 2 3])
      0x100 (some CANData.zero) 4 5).2.1 = some 2 := by
  decide

/-- C30, amended.  A completed `can_shm_set_perfect_hash` on an initialised
system, for an admissible key and valid arguments, returns Success, advances
the version of the record in the key's slot by exactly 1 modulo `2^32`, so
that its parity alternates from one completed set to the next, and leaves the
record of every other slot as it was (after the lazy set-up of the table). -/
theorem ph_set_version_plus_one (p : Sys) (k d : Nat) (data : Option (List Nat))
    (t_start ts t_end : Nat) (hinit : p.g_is_initialized = true)
    (hadm : is_valid_can_id_for_perfect_hash_demo k = true) (hd : d ≤ 64)
    (hnull : d = 0 ∨ data ≠ none) :
    (can_shm_set_perfect_hash p k d data t_start ts t_end).1 = CAN_SHM_SUCCESS ∧
    ((can_shm_set_perfect_hash p k d data t_start ts t_end).2.g_perfect_hash_table
        (pidx (can_id_perfect_hash_demo k))).sequence
      = (((init_perfect_hash_table p).g_perfect_hash_table
          (pidx (can_id_perfect_hash_demo k))).sequence + 1) % U32 ∧
    (((init_perfect_hash_table p).g_perfect_hash_table
          (pidx (can_id_perfect_hash_demo k))).sequence + 1 < U32 →
      ((can_shm_set_perfect_hash p k d data t_start ts t_end).2.g_perfect_hash_table
          (pidx (can_id_perfect_hash_demo k))).sequence % 2
        ≠ ((init_perfect_hash_table p).g_perfect_hash_table
          (pidx (can_id_perfect_hash_demo k))).sequence % 2) ∧
    (∀ s, s ≠ pidx (can_id_perfect_hash_demo k) →
      (can_shm_set_perfect_hash p k d data t_start ts t_end).2.g_perfect_hash_table s
        = (init_perfect_hash_table p).g_perfect_hash_table s) := by
  obtain ⟨h1, _, _, _, h5, _⟩ := set_ph_ok p k d data t_start ts t_end hinit hadm hd hnull
  have hseq : ((can_shm_set_perfect_hash p k d data t_start ts t_end).2.g_perfect_hash_table
        (pidx (can_id_perfect_hash_demo k))).sequence
      = (((init_perfect_hash_table p).g_perfect_hash_table
          (pidx (can_id_perfect_hash_demo k))).sequence + 1) % U32 := by
    rw [h5, Function.update_same]
  refine ⟨h1, hseq, fun hlt => ?_, fun s hs => ?_⟩
  · rw [hseq]
    simp only [U32] at hlt ⊢
    omega
  · rw [h5, Function.update_noteq hs]

/-- Witness of C30, amended: the first completed set of `0x100` on the fresh
system leaves version 1 in its slot. -/
theorem ph_set_version_plus_one_witness :
    ((can_shm_set_perfect_hash fresh 0x100 4 (some [1, 2, 3, 4]) 0 5 1).2.g_perfect_hash_table
        (pidx (can_id_perfect_hash_demo 0x100))).sequence
      = (((init_perfect_hash_table fresh).g_perfect_hash_table
          (pidx (can_id_perfect_hash_demo 0x100))).sequence + 1) % U32 :=
  (ph_set_version_plus_one fresh 0x100 4 (some [1, 2, 3, 4]) 0 5 1 rfl (by decide) (by decide)
    (Or.inr (by simp))).2.1

/-! ## Seqlock readers under concurrent writes -/

/-- C27 fails on the code: `continue` in the `do .. while` loop jumps to the
condition `seq1 != seq2`, where `seq2` still holds the value of the pass
before.  On the passes of `racing_obs` (first pass: even `v1 = 2`, copy,
`v2 = 3`; second pass: odd `v1 = 3`, copy skipped) no pass loads an even `v1`
followed by `v2 = v1`, yet `read_can_data_with_seqlock` returns 0 and the read
loop of `can_shm_get` exits, both after the second pass and with the record
copied in the first pass, whatever `seq2` and `*data_out` held at the
start. -/
theorem reader_succeeds_after_odd_pass :
    (∀ n, ¬ ((racing_obs n).seq1 % 2 = 0 ∧ (racing_obs n).seq2 = (racing_obs n).seq1)) ∧
    (racing_obs 1).seq1 % 2 = 1 ∧
    (∀ seq2 out, read_can_data_with_seqlock racing_obs seq2 out = (0, (racing_obs 0).copy)) ∧
    (∀ seq2 out, read_can_data_with_seqlock_loop racing_obs 1 0 seq2 out
      ≠ (0, (racing_obs 0).copy)) ∧
    (∀ seq2 out, can_shm_get_read_loop racing_obs 2 0 seq2 out = some (racing_obs 0).copy) ∧
    (∀ seq2 out, can_shm_get_read_loop racing_obs 1 0 seq2 out = none) := by
  refine ⟨fun n => ?_, rfl, fun seq2 out => ?_, fun seq2 out => ?_, fun seq2 out => ?_,
    fun seq2 out => ?_⟩
  · by_cases h : n = 0
    · simp [racing_obs, h]
    · simp [racing_obs, h]
  · simp [read_can_data_with_seqlock, read_can_data_with_seqlock_loop, racing_obs, MAX_RETRIES]
  · simp [read_can_data_with_seqlock_loop, racing_obs]
  · simp [can_shm_get_read_loop, racing_obs]
  · simp [can_shm_get_read_loop, racing_obs]

/-- Passes beyond `MAX_RETRIES + 1` are never made by
`read_can_data_with_seqlock`: more fuel gives the same result. -/
theorem read_loop_fuel (obs : Nat → ReadAttempt) :
    ∀ n retry_count seq2 out m, retry_count ≤ MAX_RETRIES → MAX_RETRIES + 1 ≤ retry_count + n →
      read_can_data_with_seqlock_loop obs (n + m) retry_count seq2 out
        = read_can_data_with_seqlock_loop obs n retry_count seq2 out := by
  intro n
  induction n with
  | zero =>
    intro rc seq2 out m h1 h2
    simp only [MAX_RETRIES] at h1 h2
    omega
  | succ n ih =>
    intro rc seq2 out m h1 h2
    have hnm : n + 1 + m = (n + m) + 1 := by omega
    rw [hnm]
    by_cases hlast : rc + 1 > MAX_RETRIES
    · simp [read_can_data_with_seqlock_loop, hlast]
    · have h3 : rc + 1 ≤ MAX_RETRIES := by omega
      have h4 : MAX_RETRIES + 1 ≤ rc + 1 + n := by omega
      simp only [read_can_data_with_seqlock_loop, hlast, if_false]
      rw [ih (rc + 1) seq2 out m h3 h4, ih (rc + 1) (obs rc).seq2 (obs rc).copy m h3 h4]

/-- When every load is odd and none equals the content of the local `seq2`,
`read_can_data_with_seqlock` returns -1 and leaves `*data_out`. -/
theorem read_all_odd_fails (obs : Nat → ReadAttempt) (seq2 : Nat) (out : CANData)
    (hodd : ∀ n, (obs n).seq1 % 2 = 1) (hne : ∀ n, (obs n).seq1 ≠ seq2) :
    ∀ n retry_count, read_can_data_with_seqlock_loop obs n retry_count seq2 out = (-1, out) := by
  intro n
  induction n with
  | zero => intro rc; rfl
  | succ n ih =>
    intro rc
    simp only [read_can_data_with_seqlock_loop, hodd rc, if_true]
    rw [ih (rc + 1)]
    simp [hne rc]

/-- When the first pass loads an even version, copies and loads the same
version again, `read_can_data_with_seqlock` returns 0 on that pass with the
copy in `*data_out`. -/
theorem read_first_pass (obs : Nat → ReadAttempt) (seq2 : Nat) (out : CANData)
    (heven : (obs 0).seq1 % 2 = 0) (hsame : (obs 0).seq2 = (obs 0).seq1) :
    read_can_data_with_seqlock obs seq2 out = (0, (obs 0).copy) ∧
    read_can_data_with_seqlock_loop obs 1 0 seq2 out = (0, (obs 0).copy) := by
  simp [read_can_data_with_seqlock, read_can_data_with_seqlock_loop, heven, hsame]

/-- C28 fails on the code in its middle part.  In the region reached by
`can_shm_set(0x123)` on `stalled` the home bucket of `0x123` is valid, holds
`0x123` and keeps the odd version 3, so every load of the reader is odd.  When
the local `seq2` of `read_can_data_with_seqlock` starts with the content 3 the
first pass ends the loop at `seq1 != seq2`: the function returns 0 and
`can_shm_get_linear_probing` returns Success, not MutexFailed.  When `seq2`
starts with another content, here 0, the function returns -1 and
`can_shm_get_linear_probing` returns MutexFailed. -/
theorem reader_all_odd_reports_success :
    ((can_shm_set stalled 0x123 8 (some [1, 2, 3, 4, 5, 6, 7, 8]) 5).2.shm.buckets
      (idx (can_id_hash 0x123))).can_data.sequence = 3 ∧
    (read_can_data_with_seqlock
      (quiescent ((can_shm_set stalled 0x123 8 (some [1, 2, 3, 4, 5, 6, 7, 8]) 5).2.shm.buckets
        (idx (can_id_hash 0x123))).can_data) 3 CANData.zero).1 = 0 ∧
    (can_shm_get_linear_probing
      (can_shm_set stalled 0x123 8 (some [1, 2, 3, 4, 5, 6, 7, 8]) 5).2
      0x123 (some CANData.zero) 3).1 = CAN_SHM_SUCCESS ∧
    (read_can_data_with_seqlock
      (quiescent ((can_shm_set stalled 0x123 8 (some [1, 2, 3, 4, 5, 6, 7, 8]) 5).2.shm.buckets
        (idx (can_id_hash 0x123))).can_data) 0 CANData.zero).1 = -1 ∧
    (can_shm_get_linear_probing
      (can_shm_set stalled 0x123 8 (some [1, 2, 3, 4, 5, 6, 7, 8]) 5).2
      0x123 (some CANData.zero) 0).1 = CAN_SHM_ERROR_MUTEX_FAILED := by
  decide

/-! ## The key of a record returned by get -/

/-- Whenever `can_shm_get_perfect_hash` returns Success, the record in
`*data_out` has the requested key. -/
theorem get_ph_success_can_id (p : Sys) (k : Nat) (out r : CANData) (t_start t_end : Nat)
    (q : Sys)
    (h : can_shm_get_perfect_hash p k (some out) t_start t_end = (CAN_SHM_SUCCESS, some r, q)) :
    r.can_id = k := by
  by_cases h1 : p.g_is_initialized = false
  · simp [can_shm_get_perfect_hash, h1] at h
  by_cases h2 : is_valid_can_id k = false
  · simp [can_shm_get_perfect_hash, h1, h2] at h
  by_cases h3 : can_id_perfect_hash_demo k = 0xFFFFFFFF ∨
      can_id_perfect_hash_demo k ≥ PERFECT_HASH_TABLE_SIZE
  · simp [can_shm_get_perfect_hash, h1, h2, h3] at h
  by_cases h4 : is_valid_can_id_for_perfect_hash_demo k = false
  · simp [can_shm_get_perfect_hash, h1, h2, h3, h4] at h
  by_cases h5 : (init_perfect_hash_table p).g_perfect_hash_valid
      (pidx (can_id_perfect_hash_demo k)) = 0
  · simp [can_shm_get_perfect_hash, h1, h2, h3, h4, h5] at h
  by_cases h6 : ((init_perfect_hash_table p).g_perfect_hash_table
      (pidx (can_id_perfect_hash_demo k))).can_id ≠ k
  · simp [can_shm_get_perfect_hash, h1, h2, h3, h4, h5, h6] at h
  · simp [can_shm_get_perfect_hash, h1, h2, h3, h4, h5, h6] at h
    rw [← h.1]
    exact not_not.mp h6

/-- With no writer running, the racing form of the probe loop of
`can_shm_get_linear_probing` is the loop itself. -/
theorem get_lp_racing_loop_quiescent (p : Sys) (k : Nat) (out : CANData) (seq2 h : Nat) :
    ∀ n i, can_shm_get_linear_probing_racing_loop p k out seq2 h quiescent n i
      = can_shm_get_linear_probing_loop p k out seq2 h n i := by
  intro n
  induction n with
  | zero => intro i; rfl
  | succ n ih =>
    intro i
    simp only [can_shm_get_linear_probing_racing_loop, can_shm_get_linear_probing_loop, ih]

/-- With no writer running, the racing forms of the two readers of the main
table are the readers themselves. -/
theorem get_racing_quiescent (p : Sys) (k : Nat) (data_out : Option CANData) (seq2 fuel : Nat) :
    can_shm_get_linear_probing_racing p k data_out seq2 quiescent
      = can_shm_get_linear_probing p k data_out seq2 ∧
    can_shm_get_racing p k data_out seq2 fuel quiescent = can_shm_get p k data_out seq2 fuel := by
  refine ⟨?_, rfl⟩
  unfold can_shm_get_linear_probing_racing can_shm_get_linear_probing
  simp only [get_lp_racing_loop_quiescent]

/-- C25 fails on the code for the two readers of the main table: they compare
the key on the bucket before the seqlock read and never on the record read.

Slot reclaimed during the read.  `can_shm_get_linear_probing(0x10)` finds
`0x10` in slot 16; before its first version load `0x10` is deleted and
`0x1000` is set into slot 16, so the one pass of the reader loads version 2,
copies the record of `0x1000` and loads version 2: Success with
`can_id = 0x1000`.  `can_shm_get(0x10)` likewise, when `can_shm_set(0x1000)`
overwrites the shared home bucket after the validity test.

No writer running.  In the region reached by `can_shm_set(0x123)` on `stalled`
the home bucket of `0x123` is valid, holds `0x123` and has the odd version 3.
With 3 as the initial content of the local `seq2` both readers return Success
after one pass that skipped the copy: `*data_out`, zero before the call,
still has `can_id = 0`. -/
theorem get_success_with_other_key :
    Option.map CANData.can_id
      (can_shm_get_linear_probing (run fresh [Op.set_lp ⟨0x10, 4, some [1, 2, 3, 4], 1⟩])
        0x10 (some CANData.zero) 0).2.1 = some 0x10 ∧
    (can_shm_get_linear_probing_racing (run fresh [Op.set_lp ⟨0x10, 4, some [1, 2, 3, 4], 1⟩])
      0x10 (some CANData.zero) 0
      (fun _ => quiescent ((run fresh [Op.set_lp ⟨0x10, 4, some [1, 2, 3, 4], 1⟩,
        Op.delete_lp 0x10, Op.set_lp ⟨0x1000, 4, some [5, 6, 7, 8], 2⟩]).shm.buckets
          (idx 16)).can_data)).1 = CAN_SHM_SUCCESS ∧
    Option.map CANData.can_id
      (can_shm_get_linear_probing_racing
        (run fresh [Op.set_lp ⟨0x10, 4, some [1, 2, 3, 4], 1⟩])
        0x10 (some CANData.zero) 0
        (fun _ => quiescent ((run fresh [Op.set_lp ⟨0x10, 4, some [1, 2, 3, 4], 1⟩,
          Op.delete_lp 0x10, Op.set_lp ⟨0x1000, 4, some [5, 6, 7, 8], 2⟩]).shm.buckets
            (idx 16)).can_data)).2.1 = some 0x1000 ∧
    Option.map (fun r => (r.1, Option.map CANData.can_id r.2.1))
      (can_shm_get_racing (run fresh [Op.set ⟨0x10, 4, some [1, 2, 3, 4], 1⟩])
        0x10 (some CANData.zero) 0 1
        (fun _ => quiescent ((run fresh [Op.set ⟨0x10, 4, some [1, 2, 3, 4], 1⟩,
          Op.set ⟨0x1000, 4, some [5, 6, 7, 8], 2⟩]).shm.buckets (idx 16)).can_data))
      = some (CAN_SHM_SUCCESS, some 0x1000) ∧
    ((can_shm_set stalled 0x123 8 (some [1, 2, 3, 4, 5, 6, 7, 8]) 5).2.shm.buckets
      (idx (can_id_hash 0x123))).is_valid = 1 ∧
    ((can_shm_set stalled 0x123 8 (some [1, 2, 3, 4, 5, 6, 7, 8]) 5).2.shm.buckets
      (idx (can_id_hash 0x123))).can_data.can_id = 0x123 ∧
    (can_shm_get_linear_probing
      (can_shm_set stalled 0x123 8 (some [1, 2, 3, 4, 5, 6, 7, 8]) 5).2
      0x123 (some CANData.zero) 3).1 = CAN_SHM_SUCCESS ∧
    Option.map CANData.can_id (can_shm_get_linear_probing
      (can_shm_set stalled 0x123 8 (some [1, 2, 3, 4, 5, 6, 7, 8]) 5).2
      0x123 (some CANData.zero) 3).2.1 = some 0 ∧
    Option.map (fun r => (r.1, Option.map CANData.can_id r.2.1))
      (can_shm_get (can_shm_set stalled 0x123 8 (some [1, 2, 3, 4, 5, 6, 7, 8]) 5).2
        0x123 (some CANData.zero) 3 1) = some (CAN_SHM_SUCCESS, some 0) := by
  decide

/-! ## Subscription -/

/-- C23 fails on the code: the loop of `can_shm_subscribe` waits on the
condition variable before it looks at the bucket.  A subscriber to `0x400`
on the fresh system captures the baseline 0; the successful
`can_shm_set(0x400)` that completes before the first wait leaves version 2 in
the bucket, and its broadcast finds no waiter.  With no further wake the first
wait ends with `ETIMEDOUT`, and the subscriber returns Timeout without a
callback; without a timeout it is still waiting, again without a callback.
Only a further wake makes it deliver the record. -/
theorem subscribe_misses_set_before_first_wait :
    (can_shm_set fresh 0x400 1 (some [7]) 5).1 = CAN_SHM_SUCCESS ∧
    versionAt fresh (idx (can_id_hash 0x400)) = 0 ∧
    versionAt (can_shm_set fresh 0x400 1 (some [7]) 5).2 (idx (can_id_hash 0x400)) = 2 ∧
    (can_shm_subscribe fresh 0x400 1 1000 true
      [expired (can_shm_set fresh 0x400 1 (some [7]) 5).2 0x400]).1
      = some CAN_SHM_ERROR_TIMEOUT ∧
    (can_shm_subscribe fresh 0x400 1 1000 true
      [expired (can_shm_set fresh 0x400 1 (some [7]) 5).2 0x400]).2.1.length = 0 ∧
    (can_shm_subscribe fresh 0x400 1 (-1) true []).1 = none ∧
    (can_shm_subscribe fresh 0x400 1 (-1) true []).2.1.length = 0 ∧
    (can_shm_subscribe fresh 0x400 1 1000 true
      [woken (can_shm_set fresh 0x400 1 (some [7]) 5).2 0x400]).1 = some CAN_SHM_SUCCESS ∧
    List.map CANData.sequence (can_shm_subscribe fresh 0x400 1 1000 true
      [woken (can_shm_set fresh 0x400 1 (some [7]) 5).2 0x400]).2.1 = [2] := by
  decide

/-- C24 fails on the code: `can_shm_subscribe` takes its baseline from, and
examines after each wake, the home bucket of the id only.  After
`can_shm_set_linear_probing` of `0x10` and `0x1000` on the fresh system
`0x1000` is stored in slot 17, next to its home slot 16 that holds `0x10`.  A
subscriber to `0x1000` then is woken after a further successful
`can_shm_set_linear_probing(0x1000)`, which `can_shm_get_linear_probing`
reads back with the new payload byte 9: the subscriber makes no callback and
goes on waiting, and returns Timeout when the next wait times out. -/
theorem subscribe_ignores_displaced_key :
    all_success fresh
      [Op.set_lp ⟨0x10, 4, some [1, 2, 3, 4], 1⟩, Op.set_lp ⟨0x1000, 4, some [5, 6, 7, 8], 2⟩,
        Op.set_lp ⟨0x1000, 4, some [9, 9, 9, 9], 3⟩] = true ∧
    ((run fresh
        [Op.set_lp ⟨0x10, 4, some [1, 2, 3, 4], 1⟩,
          Op.set_lp ⟨0x1000, 4, some [5, 6, 7, 8], 2⟩]).shm.buckets (idx 17)).can_data.can_id
      = 0x1000 ∧
    Option.map (fun r => (r.can_id, r.data 0))
      (can_shm_get_linear_probing
        (run fresh
          [Op.set_lp ⟨0x10, 4, some [1, 2, 3, 4], 1⟩,
            Op.set_lp ⟨0x1000, 4, some [5, 6, 7, 8], 2⟩,
            Op.set_lp ⟨0x1000, 4, some [9, 9, 9, 9], 3⟩])
        0x1000 (some CANData.zero) 0).2.1 = some (0x1000, 9) ∧
    (can_shm_subscribe
      (run fresh
        [Op.set_lp ⟨0x10, 4, some [1, 2, 3, 4], 1⟩, Op.set_lp ⟨0x1000, 4, some [5, 6, 7, 8], 2⟩])
      0x1000 1 1000 true
      [woken (run fresh
        [Op.set_lp ⟨0x10, 4, some [1, 2, 3, 4], 1⟩, Op.set_lp ⟨0x1000, 4, some [5, 6, 7, 8], 2⟩,
          Op.set_lp ⟨0x1000, 4, some [9, 9, 9, 9], 3⟩]) 0x1000]).1 = none ∧
    (can_shm_subscribe
      (run fresh
        [Op.set_lp ⟨0x10, 4, some [1, 2, 3, 4], 1⟩, Op.set_lp ⟨0x1000, 4, some [5, 6, 7, 8], 2⟩])
      0x1000 1 1000 true
      [woken (run fresh
        [Op.set_lp ⟨0x10, 4, some [1, 2, 3, 4], 1⟩, Op.set_lp ⟨0x1000, 4, some [5, 6, 7, 8], 2⟩,
          Op.set_lp ⟨0x1000, 4, some [9, 9, 9, 9], 3⟩]) 0x1000]).2.1.length = 0 ∧
    (can_shm_subscribe
      (run fresh
        [Op.set_lp ⟨0x10, 4, some [1, 2, 3, 4], 1⟩, Op.set_lp ⟨0x1000, 4, some [5, 6, 7, 8], 2⟩])
      0x1000 1 1000 true
      [woken (run fresh
        [Op.set_lp ⟨0x10, 4, some [1, 2, 3, 4], 1⟩, Op.set_lp ⟨0x1000, 4, some [5, 6, 7, 8], 2⟩,
          Op.set_lp ⟨0x1000, 4, some [9, 9, 9, 9], 3⟩]) 0x1000,
       expired (run fresh
        [Op.set_lp ⟨0x10, 4, some [1, 2, 3, 4], 1⟩, Op.set_lp ⟨0x1000, 4, some [5, 6, 7, 8], 2⟩,
          Op.set_lp ⟨0x1000, 4, some [9, 9, 9, 9], 3⟩]) 0x1000]).1
      = some CAN_SHM_ERROR_TIMEOUT := by
  decide

/-! ## Hash functions -/

/-- C33. For every `can_id`, with `c` the low 29 bits of `can_id`,
`can_id_hash(can_id)` is `(c XOR (c / 2^16) XOR (c / 2^8)) mod 4096`; the
result is below 4096, a valid bucket index; and two ids that agree on their
low 29 bits have the same home slot. -/
theorem can_id_hash_formula (k1 k2 : Nat) :
    can_id_hash k1
      = ((k1 % 2 ^ 29) ^^^ (k1 % 2 ^ 29 / 2 ^ 16) ^^^ (k1 % 2 ^ 29 / 2 ^ 8)) % 4096 ∧
    can_id_hash k1 < 4096 ∧
    (k1 % 2 ^ 29 = k2 % 2 ^ 29 → can_id_hash k1 = can_id_hash k2) := by
  have hform : ∀ k, can_id_hash k
      = ((k % 2 ^ 29) ^^^ (k % 2 ^ 29 / 2 ^ 16) ^^^ (k % 2 ^ 29 / 2 ^ 8)) % 4096 := by
    intro k
    have hand : k &&& CAN_ID_MAX = k % 2 ^ 29 := Nat.and_pow_two_sub_one_eq_mod k 29
    unfold can_id_hash
    simp only [hand, Nat.shiftRight_eq_div_pow, MAX_CAN_ENTRIES]
  refine ⟨hform k1, can_id_hash_lt k1, fun h => ?_⟩
  rw [hform k1, hform k2, h]

/-- Witness of C33: `0x10` and `0x20000010` agree on their low 29 bits. -/
theorem can_id_hash_formula_witness : can_id_hash 0x10 = can_id_hash 0x20000010 :=
  (can_id_hash_formula 0x10 0x20000010).2.2 (by decide)

theorem perfect_hash_demo_cases (k : Nat) :
    can_id_perfect_hash_demo k = 0xFFFFFFFF ∨ can_id_perfect_hash_demo k < 32 := by
  have h7 : (k &&& 0xF) &&& 0x7 ≤ 7 := Nat.and_le_right
  unfold can_id_perfect_hash_demo
  simp only [PERFECT_HASH_TABLE_SIZE]
  split_ifs <;> first | exact Or.inl rfl | (right; omega)

/-- C34. For every `k`, `can_id_perfect_hash_demo(k)` is the sentinel
`0xFFFFFFFF` or a value below 32.  On the sentinel the three perfect-hash
operations of an initialised system do not succeed, so they use no table
slot; on any other value the index is below the length of
`INDEX_TO_CAN_ID_MAP_DEMO` and below `PERFECT_HASH_TABLE_SIZE`, and the slot
used is the index itself. -/
theorem perfect_hash_index_in_bounds (k : Nat) :
    (can_id_perfect_hash_demo k = 0xFFFFFFFF ∨
      can_id_perfect_hash_demo k < PERFECT_HASH_TABLE_SIZE) ∧
    (can_id_perfect_hash_demo k = 0xFFFFFFFF →
      ∀ p d data t_start ts t_end out, p.g_is_initialized = true →
        (can_shm_set_perfect_hash p k d data t_start ts t_end).1 ≠ CAN_SHM_SUCCESS ∧
        (can_shm_get_perfect_hash p k (some out) t_start t_end).1 ≠ CAN_SHM_SUCCESS ∧
        (can_shm_delete_perfect_hash p k t_start t_end).1 ≠ CAN_SHM_SUCCESS) ∧
    (can_id_perfect_hash_demo k ≠ 0xFFFFFFFF →
      can_id_perfect_hash_demo k < INDEX_TO_CAN_ID_MAP_DEMO.length ∧
      can_id_perfect_hash_demo k < PERFECT_HASH_TABLE_SIZE ∧
      (pidx (can_id_perfect_hash_demo k)).val = can_id_perfect_hash_demo k) := by
  refine ⟨perfect_hash_demo_cases k, fun hs p d data t_start ts t_end out hinit => ?_,
    fun hne => ?_⟩
  · have h5 : can_id_perfect_hash_demo k = 0xFFFFFFFF ∨
        can_id_perfect_hash_demo k ≥ PERFECT_HASH_TABLE_SIZE := Or.inl hs
    refine ⟨?_, ?_, ?_⟩
    · by_cases h2 : is_valid_can_id k = false
      · simp [can_shm_set_perfect_hash, hinit, h2]
      by_cases h3 : d > 64
      · simp [can_shm_set_perfect_hash, hinit, h2, h3]
      by_cases h4 : d > 0 ∧ data = none
      · simp [can_shm_set_perfect_hash, hinit, h2, h3, h4]
      · simp [can_shm_set_perfect_hash, hinit, h2, h3, h4, h5]
    · by_cases h2 : is_valid_can_id k = false
      · simp [can_shm_get_perfect_hash, hinit, h2]
      · simp [can_shm_get_perfect_hash, hinit, h2, h5]
    · by_cases h2 : is_valid_can_id k = false
      · simp [can_shm_delete_perfect_hash, hinit, h2]
      · simp [can_shm_delete_perfect_hash, hinit, h2, h5]
  · have hlt2 : can_id_perfect_hash_demo k < 32 :=
      (perfect_hash_demo_cases k).resolve_left hne
    refine ⟨hlt2, hlt2, ?_⟩
    show can_id_perfect_hash_demo k % 32 = can_id_perfect_hash_demo k
    exact Nat.mod_eq_of_lt hlt2

/-- Witness of C34: `0x500` maps to the sentinel and is rejected by
`can_shm_set_perfect_hash`; `0x203` uses slot 11. -/
theorem perfect_hash_index_in_bounds_witness :
    (can_shm_set_perfect_hash fresh 0x500 1 (some [1]) 0 1 2).1 ≠ CAN_SHM_SUCCESS ∧
    (pidx (can_id_perfect_hash_demo 0x203)).val = can_id_perfect_hash_demo 0x203 :=
  ⟨((perfect_hash_index_in_bounds 0x500).2.1 (by decide) fresh 1 (some [1]) 0 1 2
      CANData.zero rfl).1,
   ((perfect_hash_index_in_bounds 0x203).2.2 (by decide)).2.2⟩

/-! ## Frame of the perfect-hash operations and of the readers -/

theorem set_ph_region (p : Sys) (k d : Nat) (data : Option (List Nat))
    (t_start ts t_end : Nat) :
    (can_shm_set_perfect_hash p k d data t_start ts t_end).2.shm = p.shm ∧
    (can_shm_set_perfect_hash p k d data t_start ts t_end).2.g_is_initialized
      = p.g_is_initialized := by
  obtain ⟨_, hf2, hf3, _⟩ := init_perfect_flags p
  rcases set_ph_cases p k d data t_start ts t_end with
    ⟨e, _, heq | ⟨_, heq⟩⟩ | ⟨hinit, hadm, hd, hnull⟩
  · rw [heq]
    exact ⟨rfl, rfl⟩
  · rw [heq]
    exact ⟨hf3, hf2⟩
  · obtain ⟨_, h2, _, h4, _⟩ := set_ph_ok p k d data t_start ts t_end hinit hadm hd hnull
    exact ⟨h4, by rw [h2, hinit]⟩

theorem delete_ph_region (p : Sys) (k t_start t_end : Nat) :
    (can_shm_delete_perfect_hash p k t_start t_end).2.shm = p.shm ∧
    (can_shm_delete_perfect_hash p k t_start t_end).2.g_is_initialized
      = p.g_is_initialized := by
  obtain ⟨_, hf2, hf3, _⟩ := init_perfect_flags p
  by_cases h1 : p.g_is_initialized = false
  · simp [can_shm_delete_perfect_hash, h1]
  by_cases h2 : is_valid_can_id k = false
  · simp [can_shm_delete_perfect_hash, h1, h2, hf2, hf3]
  by_cases h5 : can_id_perfect_hash_demo k = 0xFFFFFFFF ∨
      can_id_perfect_hash_demo k ≥ PERFECT_HASH_TABLE_SIZE
  · simp [can_shm_delete_perfect_hash, h1, h2, h5, hf2, hf3]
  by_cases h6 : is_valid_can_id_for_perfect_hash_demo k = false
  · simp [can_shm_delete_perfect_hash, h1, h2, h5, h6, hf2, hf3]
  by_cases h7 : (init_perfect_hash_table p).g_perfect_hash_valid
      (pidx (can_id_perfect_hash_demo k)) = 0
  · simp [can_shm_delete_perfect_hash, h1, h2, h5, h6, h7, hf2, hf3]
  · simp [can_shm_delete_perfect_hash, h1, h2, h5, h6, h7, hf2, hf3]

theorem ph_step_region (p : Sys) (o : PhOp) :
    (ph_step p o).2.shm = p.shm ∧ (ph_step p o).2.g_is_initialized = p.g_is_initialized := by
  cases o with
  | set c t_start t_end => exact set_ph_region p c.can_id c.dlc c.data t_start c.ts t_end
  | delete k t_start t_end => exact delete_ph_region p k t_start t_end

theorem ph_run_region (ops : List PhOp) :
    ∀ p : Sys, (ph_run p ops).shm = p.shm ∧
      (ph_run p ops).g_is_initialized = p.g_is_initialized := by
  induction ops with
  | nil => intro p; exact ⟨rfl, rfl⟩
  | cons o os ih =>
    intro p
    obtain ⟨h1, h2⟩ := ih (ph_step p o).2
    obtain ⟨h3, h4⟩ := ph_step_region p o
    exact ⟨h1.trans h3, h2.trans h4⟩

/-- C35. `can_shm_set_perfect_hash` and `can_shm_delete_perfect_hash` leave
the whole shared region, so every bucket of the main table, unchanged,
whatever they return; hence after any sequence of them on a freshly
initialised table `can_shm_get` and `can_shm_get_linear_probing` return
NotFound for every valid identifier. -/
theorem ph_ops_leave_main_table (p : Sys) (ops : List PhOp) :
    (∀ o, (ph_step p o).2.shm = p.shm) ∧
    (∀ s, (ph_run p ops).shm.buckets s = p.shm.buckets s) ∧
    (Fresh p → ∀ k out seq2 fuel, k ≤ CAN_ID_MAX →
      (∃ q, can_shm_get (ph_run p ops) k (some out) seq2 fuel
        = some (CAN_SHM_ERROR_NOT_FOUND, some out, q)) ∧
      can_shm_get_linear_probing (ph_run p ops) k (some out) seq2
        = (CAN_SHM_ERROR_NOT_FOUND, some out, ph_run p ops)) := by
  obtain ⟨hshm, hini⟩ := ph_run_region ops p
  refine ⟨fun o => (ph_step_region p o).1, fun s => by rw [hshm],
    fun hfresh k out seq2 fuel hk => ?_⟩
  have hinit : (ph_run p ops).g_is_initialized = true := hini.trans hfresh.1
  have hF : Fresh (ph_run p ops) := ⟨hinit, fun i => by rw [hshm]; exact hfresh.2 i⟩
  refine ⟨⟨_, can_shm_get_miss (ph_run p ops) k out seq2 fuel hinit hk ?_⟩,
    get_lp_NoKey (ph_run p ops) k out seq2 hinit hk (fresh_NoKey _ hF k)⟩
  left
  rw [hF.2]
  rfl

/-- Witness of C35: after `0x100` is set through the perfect-hash variant on
the fresh system, `can_shm_get_linear_probing(0x100)` returns NotFound. -/
theorem ph_ops_leave_main_table_witness :
    can_shm_get_linear_probing (ph_run fresh [PhOp.set ⟨0x100, 1, some [7], 5⟩ 4 6])
      0x100 (some CANData.zero) 0
      = (CAN_SHM_ERROR_NOT_FOUND, some CANData.zero,
        ph_run fresh [PhOp.set ⟨0x100, 1, some [7], 5⟩ 4 6]) :=
  ((ph_ops_leave_main_table fresh [PhOp.set ⟨0x100, 1, some [7], 5⟩ 4 6]).2.2 fresh_Fresh
    0x100 CANData.zero 0 0 (by decide)).2

theorem ReadFrame_refl (p : Sys) : ReadFrame p p :=
  ⟨rfl, rfl, rfl, rfl, rfl, rfl⟩

theorem ReadFrame_gets (p : Sys) (n : Nat) :
    ReadFrame p { p with shm := { p.shm with total_gets := n } } :=
  ⟨rfl, rfl, rfl, rfl, rfl, rfl⟩

theorem get_lp_loop_frame (p : Sys) (k : Nat) (out : CANData) (seq2 h : Nat) :
    ∀ n i, ReadFrame p (can_shm_get_linear_probing_loop p k out seq2 h n i).2.2 := by
  intro n
  induction n with
  | zero => intro i; exact ReadFrame_refl p
  | succ n ih =>
    intro i
    by_cases hv : (p.shm.buckets (idx (h + i))).is_valid = 0
    · simp only [can_shm_get_linear_probing_loop, hv, if_true]
      exact ReadFrame_refl p
    · by_cases hid : (p.shm.buckets (idx (h + i))).can_data.can_id = k
      · simp only [can_shm_get_linear_probing_loop, hv, hid, if_true, if_false]
        split
        · exact ReadFrame_gets p _
        · exact ReadFrame_refl p
      · simp only [can_shm_get_linear_probing_loop, hv, hid, if_false]
        exact ih (i + 1)

/-- The state after the probe loop of `can_shm_get_linear_probing` is the
state before with, at most, another `total_gets`. -/
theorem get_lp_loop_state (p : Sys) (k : Nat) (out : CANData) (seq2 h : Nat) :
    ∀ n i, ∃ m, (can_shm_get_linear_probing_loop p k out seq2 h n i).2.2
      = { p with shm := { p.shm with total_gets := m } } := by
  intro n
  induction n with
  | zero => intro i; exact ⟨p.shm.total_gets, rfl⟩
  | succ n ih =>
    intro i
    by_cases hv : (p.shm.buckets (idx (h + i))).is_valid = 0
    · simp only [can_shm_get_linear_probing_loop, hv, if_true]
      exact ⟨p.shm.total_gets, rfl⟩
    · by_cases hid : (p.shm.buckets (idx (h + i))).can_data.can_id = k
      · simp only [can_shm_get_linear_probing_loop, hv, hid, if_true, if_false]
        split
        · exact ⟨_, rfl⟩
        · exact ⟨p.shm.total_gets, rfl⟩
      · simp only [can_shm_get_linear_probing_loop, hv, hid, if_false]
        exact ih (i + 1)

/-- The state after `can_shm_get_linear_probing` is the state before with, at
most, another `total_gets`. -/
theorem get_lp_state (p : Sys) (k : Nat) (data_out : Option CANData) (seq2 : Nat) :
    ∃ m, (can_shm_get_linear_probing p k data_out seq2).2.2
      = { p with shm := { p.shm with total_gets := m } } := by
  by_cases h1 : p.g_is_initialized = false
  · have hrun : can_shm_get_linear_probing p k data_out seq2
        = (CAN_SHM_ERROR_INIT_FAILED, data_out, p) := by
      simp [can_shm_get_linear_probing, h1]
    rw [hrun]
    exact ⟨p.shm.total_gets, rfl⟩
  by_cases h2 : is_valid_can_id k = false
  · have hrun : can_shm_get_linear_probing p k data_out seq2
        = (CAN_SHM_ERROR_INVALID_ID, data_out, p) := by
      simp [can_shm_get_linear_probing, h1, h2]
    rw [hrun]
    exact ⟨p.shm.total_gets, rfl⟩
  cases data_out with
  | none =>
    have hrun : can_shm_get_linear_probing p k none seq2
        = (CAN_SHM_ERROR_INVALID_PARAM, none, p) := by
      simp [can_shm_get_linear_probing, h1, h2]
    rw [hrun]
    exact ⟨p.shm.total_gets, rfl⟩
  | some out =>
    have hrun : (can_shm_get_linear_probing p k (some out) seq2).2.2
        = (can_shm_get_linear_probing_loop p k out seq2 (can_id_hash k)
            MAX_CAN_ENTRIES 0).2.2 := by
      simp [can_shm_get_linear_probing, h1, h2]
    rw [hrun]
    exact get_lp_loop_state p k out seq2 (can_id_hash k) MAX_CAN_ENTRIES 0

/-- When `can_shm_get` returns, the state is the state before with, at most,
another `total_gets`. -/
theorem get_state (p : Sys) (k : Nat) (data_out : Option CANData) (seq2 fuel : Nat)
    (r : CANShmResult × Option CANData × Sys)
    (hr : can_shm_get p k data_out seq2 fuel = some r) :
    ∃ m, r.2.2 = { p with shm := { p.shm with total_gets := m } } := by
  by_cases h1 : p.g_is_initialized = false
  · have hrun : can_shm_get p k data_out seq2 fuel
        = some (CAN_SHM_ERROR_INIT_FAILED, data_out, p) := by
      simp [can_shm_get, h1]
    rw [hrun] at hr
    rw [← Option.some.inj hr]
    exact ⟨p.shm.total_gets, rfl⟩
  cases data_out with
  | none =>
    have hrun : can_shm_get p k none seq2 fuel
        = some (CAN_SHM_ERROR_INVALID_PARAM, none, p) := by
      simp [can_shm_get, h1]
    rw [hrun] at hr
    rw [← Option.some.inj hr]
    exact ⟨p.shm.total_gets, rfl⟩
  | some out =>
    by_cases h2 : is_valid_can_id k = false
    · have hrun : can_shm_get p k (some out) seq2 fuel
          = some (CAN_SHM_ERROR_INVALID_PARAM, some out, p) := by
        simp [can_shm_get, h1, h2]
      rw [hrun] at hr
      rw [← Option.some.inj hr]
      exact ⟨p.shm.total_gets, rfl⟩
    by_cases h3 : (p.shm.buckets (idx (can_id_hash k))).is_valid = 0 ∨
        (p.shm.buckets (idx (can_id_hash k))).can_data.can_id ≠ k
    · have hrun : can_shm_get p k (some out) seq2 fuel
          = some (CAN_SHM_ERROR_NOT_FOUND, some out,
              { p with shm := { p.shm with total_gets := (p.shm.total_gets + 1) % U64 } }) := by
        simp [can_shm_get, h1, h2, h3]
      rw [hrun] at hr
      rw [← Option.some.inj hr]
      exact ⟨_, rfl⟩
    · cases hloop : can_shm_get_read_loop
        (quiescent (p.shm.buckets (idx (can_id_hash k))).can_data) fuel 0 seq2 out with
      | none =>
        have hrun : can_shm_get p k (some out) seq2 fuel = none := by
          simp [can_shm_get, h1, h2, h3, hloop]
        rw [hrun] at hr
        cases hr
      | some d =>
        have hrun : can_shm_get p k (some out) seq2 fuel
            = some (CAN_SHM_SUCCESS, some d,
                { p with
                  shm := { p.shm with total_gets := (p.shm.total_gets + 1) % U64 } }) := by
          simp [can_shm_get, h1, h2, h3, hloop]
        rw [hrun] at hr
        rw [← Option.some.inj hr]
        exact ⟨_, rfl⟩

/-- The perfect-hash store after `can_shm_get_perfect_hash`, whatever it
returns, is the one before, once the static arrays hold their zero
initialisers or the table was set up. -/
theorem get_ph_perfect_kept (p : Sys) (k : Nat) (data_out : Option CANData)
    (t_start t_end : Nat) (hst : PerfectStatic p) :
    PerfectKept p (can_shm_get_perfect_hash p k data_out t_start t_end).2.2 := by
  obtain ⟨_, _, _, ht, hvl, _⟩ := init_perfect_SameStore p hst
  by_cases h1 : p.g_is_initialized = false
  · have hrun : can_shm_get_perfect_hash p k data_out t_start t_end
        = (CAN_SHM_ERROR_INIT_FAILED, data_out, p) := by
      simp [can_shm_get_perfect_hash, h1]
    rw [hrun]
    exact ⟨rfl, rfl⟩
  have hinit : PerfectKept (init_perfect_hash_table p)
      (can_shm_get_perfect_hash p k data_out t_start t_end).2.2 := by
    unfold PerfectKept
    by_cases h2 : is_valid_can_id k = false
    · simp [can_shm_get_perfect_hash, h1, h2]
    cases data_out with
    | none => simp [can_shm_get_perfect_hash, h1, h2]
    | some out =>
      by_cases h3 : can_id_perfect_hash_demo k = 0xFFFFFFFF ∨
          can_id_perfect_hash_demo k ≥ PERFECT_HASH_TABLE_SIZE
      · simp [can_shm_get_perfect_hash, h1, h2, h3]
      by_cases h4 : is_valid_can_id_for_perfect_hash_demo k = false
      · simp [can_shm_get_perfect_hash, h1, h2, h3, h4]
      by_cases h5 : (init_perfect_hash_table p).g_perfect_hash_valid
          (pidx (can_id_perfect_hash_demo k)) = 0
      · simp [can_shm_get_perfect_hash, h1, h2, h3, h4, h5]
      by_cases h6 : ((init_perfect_hash_table p).g_perfect_hash_table
          (pidx (can_id_perfect_hash_demo k))).can_id ≠ k
      · simp [can_shm_get_perfect_hash, h1, h2, h3, h4, h5, h6]
      · simp [can_shm_get_perfect_hash, h1, h2, h3, h4, h5, h6]
  exact ⟨hinit.1.trans ht, hinit.2.trans hvl⟩

theorem get_ph_region (p : Sys) (k : Nat) (data_out : Option CANData) (t_start t_end : Nat) :
    (can_shm_get_perfect_hash p k data_out t_start t_end).2.2.shm = p.shm := by
  obtain ⟨_, _, hf3, _⟩ := init_perfect_flags p
  by_cases h1 : p.g_is_initialized = false
  · simp [can_shm_get_perfect_hash, h1]
  by_cases h2 : is_valid_can_id k = false
  · simp [can_shm_get_perfect_hash, h1, h2, hf3]
  cases data_out with
  | none => simp [can_shm_get_perfect_hash, h1, h2, hf3]
  | some out =>
    by_cases h3 : can_id_perfect_hash_demo k = 0xFFFFFFFF ∨
        can_id_perfect_hash_demo k ≥ PERFECT_HASH_TABLE_SIZE
    · simp [can_shm_get_perfect_hash, h1, h2, h3, hf3]
    by_cases h4 : is_valid_can_id_for_perfect_hash_demo k = false
    · simp [can_shm_get_perfect_hash, h1, h2, h3, h4, hf3]
    by_cases h5 : (init_perfect_hash_table p).g_perfect_hash_valid
        (pidx (can_id_perfect_hash_demo k)) = 0
    · simp [can_shm_get_perfect_hash, h1, h2, h3, h4, h5, hf3]
    by_cases h6 : ((init_perfect_hash_table p).g_perfect_hash_table
        (pidx (can_id_perfect_hash_demo k))).can_id ≠ k
    · simp [can_shm_get_perfect_hash, h1, h2, h3, h4, h5, h6, hf3]
    · simp [can_shm_get_perfect_hash, h1, h2, h3, h4, h5, h6, hf3]

/-- C37. The three readers leave the store as it is, whatever they return.
After `can_shm_get` (when it returns) and after `can_shm_get_linear_probing`
the state is the state before with at most another `total_gets`: every
bucket (record, version, validity flag), `global_sequence`, `total_sets` and
`total_subscribes` are unchanged, and so is the perfect-hash store.  After
`can_shm_get_perfect_hash` the whole region is unchanged, and the records
and validity flags of the perfect-hash table, the store this reader works
on, are unchanged as well (the static arrays holding their zero initialisers
until the table is set up). -/
theorem gets_leave_store (p : Sys) (k : Nat) (data_out : Option CANData)
    (seq2 fuel t_start t_end : Nat) :
    (match can_shm_get p k data_out seq2 fuel with
      | none => True
      | some r =>
        (∃ m, r.2.2 = { p with shm := { p.shm with total_gets := m } }) ∧
        ReadFrame p r.2.2 ∧ PerfectKept p r.2.2) ∧
    ((∃ m, (can_shm_get_linear_probing p k data_out seq2).2.2
        = { p with shm := { p.shm with total_gets := m } }) ∧
      ReadFrame p (can_shm_get_linear_probing p k data_out seq2).2.2 ∧
      PerfectKept p (can_shm_get_linear_probing p k data_out seq2).2.2) ∧
    (can_shm_get_perfect_hash p k data_out t_start t_end).2.2.shm = p.shm ∧
    (PerfectStatic p →
      PerfectKept p (can_shm_get_perfect_hash p k data_out t_start t_end).2.2) := by
  refine ⟨?_, ?_, get_ph_region p k data_out t_start t_end,
    get_ph_perfect_kept p k data_out t_start t_end⟩
  · cases hget : can_shm_get p k data_out seq2 fuel with
    | none => trivial
    | some r =>
      obtain ⟨m, hm⟩ := get_state p k data_out seq2 fuel r hget
      refine ⟨⟨m, hm⟩, ?_, ?_⟩
      · rw [hm]
        exact ReadFrame_gets p m
      · rw [hm]
        exact ⟨rfl, rfl⟩
  · obtain ⟨m, hm⟩ := get_lp_state p k data_out seq2
    refine ⟨⟨m, hm⟩, ?_, ?_⟩
    · rw [hm]
      exact ReadFrame_gets p m
    · rw [hm]
      exact ⟨rfl, rfl⟩

/-- Witness of C37: after `0x100` and `0x200` are stored in the perfect-hash
table, `can_shm_get_perfect_hash(0x100)` leaves its records and validity
flags as they were. -/
theorem gets_leave_store_witness :
    PerfectKept
      (ph_run fresh [PhOp.set ⟨0x100, 1, some [7], 5⟩ 4 6, PhOp.set ⟨0x200, 1, some [8], 7⟩ 8 9])
      (can_shm_get_perfect_hash
        (ph_run fresh
          [PhOp.set ⟨0x100, 1, some [7], 5⟩ 4 6, PhOp.set ⟨0x200, 1, some [8], 7⟩ 8 9])
        0x100 (some CANData.zero) 10 11).2.2 :=
  (gets_leave_store
    (ph_run fresh [PhOp.set ⟨0x100, 1, some [7], 5⟩ 4 6, PhOp.set ⟨0x200, 1, some [8], 7⟩ 8 9])
    0x100 (some CANData.zero) 0 1 10 11).2.2.2
    (fun h => absurd h (by decide))

/-! ## Key uniqueness -/

/-- C36 fails on the code: `0x10` and `0x1000` share home slot 16.  After
the successful calls set(0x10), set(0x1000), delete(0x10), set(0x1000) of the
linear-probing variant on the fresh system, slots 16 and 17 are both valid
and both hold `0x1000`: the last set stops at the cleared slot 16 and never
reaches the copy in slot 17.  After the further successful calls
delete(0x1000) and set(0x10), `can_shm_get_linear_probing(0x1000)` returns
Success with the stale payload byte 5 of the copy in slot 17. -/
theorem lp_duplicate_key_after_delete :
    all_success fresh
      [Op.set_lp ⟨0x10, 4, some [1, 2, 3, 4], 1⟩, Op.set_lp ⟨0x1000, 4, some [5, 6, 7, 8], 2⟩,
        Op.delete_lp 0x10, Op.set_lp ⟨0x1000, 4, some [9, 9, 9, 9], 3⟩,
        Op.delete_lp 0x1000, Op.set_lp ⟨0x10, 4, some [1, 2, 3, 4], 4⟩] = true ∧
    ((run fresh
        [Op.set_lp ⟨0x10, 4, some [1, 2, 3, 4], 1⟩, Op.set_lp ⟨0x1000, 4, some [5, 6, 7, 8], 2⟩,
          Op.delete_lp 0x10, Op.set_lp ⟨0x1000, 4, some [9, 9, 9, 9], 3⟩]).shm.buckets
      (idx 16)).is_valid = 1 ∧
    ((run fresh
        [Op.set_lp ⟨0x10, 4, some [1, 2, 3, 4], 1⟩, Op.set_lp ⟨0x1000, 4, some [5, 6, 7, 8], 2⟩,
          Op.delete_lp 0x10, Op.set_lp ⟨0x1000, 4, some [9, 9, 9, 9], 3⟩]).shm.buckets
      (idx 16)).can_data.can_id = 0x1000 ∧
    ((run fresh
        [Op.set_lp ⟨0x10, 4, some [1, 2, 3, 4], 1⟩, Op.set_lp ⟨0x1000, 4, some [5, 6, 7, 8], 2⟩,
          Op.delete_lp 0x10, Op.set_lp ⟨0x1000, 4, some [9, 9, 9, 9], 3⟩]).shm.buckets
      (idx 17)).is_valid = 1 ∧
    ((run fresh
        [Op.set_lp ⟨0x10, 4, some [1, 2, 3, 4], 1⟩, Op.set_lp ⟨0x1000, 4, some [5, 6, 7, 8], 2⟩,
          Op.delete_lp 0x10, Op.set_lp ⟨0x1000, 4, some [9, 9, 9, 9], 3⟩]).shm.buckets
      (idx 17)).can_data.can_id = 0x1000 ∧
    idx 16 ≠ idx 17 ∧
    (can_shm_get_linear_probing
      (run fresh
        [Op.set_lp ⟨0x10, 4, some [1, 2, 3, 4], 1⟩, Op.set_lp ⟨0x1000, 4, some [5, 6, 7, 8], 2⟩,
          Op.delete_lp 0x10, Op.set_lp ⟨0x1000, 4, some [9, 9, 9, 9], 3⟩,
          Op.delete_lp 0x1000, Op.set_lp ⟨0x10, 4, some [1, 2, 3, 4], 4⟩])
      0x1000 (some CANData.zero) 0).1 = CAN_SHM_SUCCESS ∧
    Option.map (fun r => (r.can_id, r.data 0))
      (can_shm_get_linear_probing
        (run fresh
          [Op.set_lp ⟨0x10, 4, some [1, 2, 3, 4], 1⟩,
            Op.set_lp ⟨0x1000, 4, some [5, 6, 7, 8], 2⟩,
            Op.delete_lp 0x10, Op.set_lp ⟨0x1000, 4, some [9, 9, 9, 9], 3⟩,
            Op.delete_lp 0x1000, Op.set_lp ⟨0x10, 4, some [1, 2, 3, 4], 4⟩])
        0x1000 (some CANData.zero) 0).2.1 = some (0x1000, 5) := by
  decide

/-! ## Deadline of a timed wait -/

theorem wrap_int32_of_range (x : Int) (h0 : -2147483648 ≤ x) (h1 : x < 2147483648) :
    wrap_int32 x = x := by
  unfold wrap_int32
  rw [Int.emod_eq_of_lt (by omega) (by omega)]
  omega

theorem wrap_int64_of_range (x : Int) (h0 : -9223372036854775808 ≤ x)
    (h1 : x < 9223372036854775808) : wrap_int64 x = x := by
  unfold wrap_int64
  rw [Int.emod_eq_of_lt (by omega) (by omega)]
  omega

/-- C38. For every `timeout_ms` of a non-negative `int`, and every clock
reading with `0 <= tv_nsec < 10^9` whose seconds leave room for the timeout in
a 64-bit `time_t`, the product `(timeout_ms % 1000) * 1000000` is below `2^31`
and so does not overflow, the deadline computed in `can_shm_subscribe` has
`0 <= tv_nsec < 10^9`, and it lies exactly `timeout_ms` milliseconds after the
clock reading. -/
theorem subscribe_deadline_exact (timeout_ms tv_sec tv_nsec : Int)
    (h0 : 0 ≤ timeout_ms) (h31 : timeout_ms < 2147483648)
    (hn0 : 0 ≤ tv_nsec) (hn1 : tv_nsec < 1000000000)
    (hs0 : -9223372036854775808 ≤ tv_sec) (hs1 : tv_sec < 9223372036852628160) :
    0 ≤ Int.tmod timeout_ms 1000 * 1000000 ∧
    Int.tmod timeout_ms 1000 * 1000000 < 2147483648 ∧
    wrap_int32 (Int.tmod timeout_ms 1000 * 1000000) = Int.tmod timeout_ms 1000 * 1000000 ∧
    0 ≤ (subscribe_deadline timeout_ms tv_sec tv_nsec).2 ∧
    (subscribe_deadline timeout_ms tv_sec tv_nsec).2 < 1000000000 ∧
    (subscribe_deadline timeout_ms tv_sec tv_nsec).1 * 1000000000
        + (subscribe_deadline timeout_ms tv_sec tv_nsec).2
      = tv_sec * 1000000000 + tv_nsec + timeout_ms * 1000000 := by
  have hm : Int.tmod timeout_ms 1000 = timeout_ms % 1000 :=
    Int.tmod_eq_emod h0 (by decide)
  have hd : Int.tdiv timeout_ms 1000 = timeout_ms / 1000 :=
    Int.tdiv_eq_ediv h0 (by decide)
  have hp0 : 0 ≤ Int.tmod timeout_ms 1000 * 1000000 := by omega
  have hp1 : Int.tmod timeout_ms 1000 * 1000000 < 2147483648 := by omega
  have hw := wrap_int32_of_range (Int.tmod timeout_ms 1000 * 1000000) (by omega) hp1
  have hsec : wrap_int64 (tv_sec + Int.tdiv timeout_ms 1000)
      = tv_sec + Int.tdiv timeout_ms 1000 :=
    wrap_int64_of_range _ (by omega) (by omega)
  have hnsec : wrap_int64 (tv_nsec + Int.tmod timeout_ms 1000 * 1000000)
      = tv_nsec + Int.tmod timeout_ms 1000 * 1000000 :=
    wrap_int64_of_range _ (by omega) (by omega)
  refine ⟨hp0, hp1, hw, ?_⟩
  unfold subscribe_deadline
  simp only [hw, hsec, hnsec]
  by_cases hc : tv_nsec + Int.tmod timeout_ms 1000 * 1000000 ≥ 1000000000
  · rw [if_pos hc, wrap_int64_of_range _ (by omega) (by omega),
      wrap_int64_of_range _ (by omega) (by omega)]
    refine ⟨by omega, by omega, ?_⟩
    omega
  · rw [if_neg hc]
    refine ⟨by omega, by omega, ?_⟩
    omega

/-- Witness of C38: 1500 ms after the clock reading (10 s, 999999999 ns) is
(12 s, 499999999 ns). -/
theorem subscribe_deadline_exact_witness :
    (subscribe_deadline 1500 10 999999999).1 * 1000000000
        + (subscribe_deadline 1500 10 999999999).2
      = 10 * 1000000000 + 999999999 + 1500 * 1000000 :=
  (subscribe_deadline_exact 1500 10 999999999 (by decide) (by decide) (by decide) (by decide)
    (by decide) (by decide)).2.2.2.2.2

/-! ## Number of valid buckets -/

/-- Effect on the number of valid buckets of replacing one bucket. -/
theorem valid_count_update (p q : Sys) (t : Fin MAX_CAN_ENTRIES) (b : CANBucket)
    (h : q.shm.buckets = Function.update p.shm.buckets t b) :
    valid_count q + (if (p.shm.buckets t).is_valid ≠ 0 then 1 else 0)
      = valid_count p + (if b.is_valid ≠ 0 then 1 else 0) := by
  unfold valid_count
  rw [Finset.card_filter, Finset.card_filter]
  have hq := Finset.add_sum_erase Finset.univ
    (fun s => if (q.shm.buckets s).is_valid ≠ 0 then 1 else 0) (Finset.mem_univ t)
  have hp := Finset.add_sum_erase Finset.univ
    (fun s => if (p.shm.buckets s).is_valid ≠ 0 then 1 else 0) (Finset.mem_univ t)
  have heq : (Finset.univ.erase t).sum
        (fun s => if (q.shm.buckets s).is_valid ≠ 0 then 1 else 0)
      = (Finset.univ.erase t).sum
        (fun s => if (p.shm.buckets s).is_valid ≠ 0 then 1 else 0) := by
    refine Finset.sum_congr rfl (fun s hs => ?_)
    rw [h, Function.update_noteq (Finset.ne_of_mem_erase hs)]
  have hqt : q.shm.buckets t = b := by rw [h, Function.update_same]
  beta_reduce at hq hp heq
  rw [hqt] at hq
  rw [heq] at hq
  omega

theorem valid_count_le (p : Sys) : valid_count p ≤ 4096 := by
  unfold valid_count
  refine (Finset.card_filter_le _ _).trans (le_of_eq ?_)
  rw [Finset.card_univ, Fintype.card_fin]

/-- C32. A successful `can_shm_set_linear_probing(k, ..)` writes exactly one
bucket: the first slot on the probe sequence of `k` that is invalid or holds
`k`.  That bucket is valid afterwards and holds `k`; every other bucket is
unchanged, record and validity flag; and the number of valid buckets grows
by 1 when the slot was invalid (insert) and is unchanged when it was valid
(update). -/
theorem set_lp_touches_one_slot (p : Sys) (k d : Nat) (data : Option (List Nat)) (ts : Nat)
    (hsucc : (can_shm_set_linear_probing p k d data ts).1 = CAN_SHM_SUCCESS) :
    ∃ j, j < MAX_CAN_ENTRIES ∧
      (∀ j', j' < j →
        (p.shm.buckets (idx (can_id_hash k + j'))).is_valid ≠ 0 ∧
        (p.shm.buckets (idx (can_id_hash k + j'))).can_data.can_id ≠ k) ∧
      ((p.shm.buckets (idx (can_id_hash k + j))).is_valid = 0 ∨
        (p.shm.buckets (idx (can_id_hash k + j))).can_data.can_id = k) ∧
      ((can_shm_set_linear_probing p k d data ts).2.shm.buckets
        (idx (can_id_hash k + j))).is_valid ≠ 0 ∧
      ((can_shm_set_linear_probing p k d data ts).2.shm.buckets
        (idx (can_id_hash k + j))).can_data.can_id = k ∧
      (∀ s, s ≠ idx (can_id_hash k + j) →
        (can_shm_set_linear_probing p k d data ts).2.shm.buckets s = p.shm.buckets s) ∧
      ((p.shm.buckets (idx (can_id_hash k + j))).is_valid = 0 →
        valid_count (can_shm_set_linear_probing p k d data ts).2 = valid_count p + 1) ∧
      ((p.shm.buckets (idx (can_id_hash k + j))).is_valid ≠ 0 →
        valid_count (can_shm_set_linear_probing p k d data ts).2 = valid_count p) := by
  rcases set_lp_cases p k d data ts with
    ⟨e, he, heq⟩ | ⟨_, _, _, _, j, hj, hbefore, hslot, _, _, hb⟩
  · rw [heq] at hsucc
    exact absurd hsucc he
  · have hcount := valid_count_update p (can_shm_set_linear_probing p k d data ts).2
      (idx (can_id_hash k + j)) _ hb
    have hval := lp_written_valid (p.shm.buckets (idx (can_id_hash k + j))) k d data ts
    rw [if_pos hval] at hcount
    refine ⟨j, hj, hbefore, hslot, ?_, ?_, fun s hs => ?_, fun h0 => ?_, fun h1 => ?_⟩
    · rw [hb, Function.update_same]
      exact hval
    · rw [hb, Function.update_same]
      rfl
    · rw [hb, Function.update_noteq hs]
    · rw [if_neg (not_not.mpr h0)] at hcount
      omega
    · rw [if_pos h1] at hcount
      omega

/-- Witness of C32: the insert of `0x1000` after `0x10` on the fresh system
writes one slot at some probe distance. -/
theorem set_lp_touches_one_slot_witness :
    ∃ j, j < MAX_CAN_ENTRIES ∧
      (∀ j', j' < j →
        ((run fresh [Op.set_lp ⟨0x10, 1, some [1], 1⟩]).shm.buckets
          (idx (can_id_hash 0x1000 + j'))).is_valid ≠ 0 ∧
        ((run fresh [Op.set_lp ⟨0x10, 1, some [1], 1⟩]).shm.buckets
          (idx (can_id_hash 0x1000 + j'))).can_data.can_id ≠ 0x1000) ∧
      (((run fresh [Op.set_lp ⟨0x10, 1, some [1], 1⟩]).shm.buckets
          (idx (can_id_hash 0x1000 + j))).is_valid = 0 ∨
        ((run fresh [Op.set_lp ⟨0x10, 1, some [1], 1⟩]).shm.buckets
          (idx (can_id_hash 0x1000 + j))).can_data.can_id = 0x1000) ∧
      ((can_shm_set_linear_probing (run fresh [Op.set_lp ⟨0x10, 1, some [1], 1⟩])
        0x1000 1 (some [2]) 2).2.shm.buckets (idx (can_id_hash 0x1000 + j))).is_valid ≠ 0 ∧
      ((can_shm_set_linear_probing (run fresh [Op.set_lp ⟨0x10, 1, some [1], 1⟩])
        0x1000 1 (some [2]) 2).2.shm.buckets
          (idx (can_id_hash 0x1000 + j))).can_data.can_id = 0x1000 ∧
      (∀ s, s ≠ idx (can_id_hash 0x1000 + j) →
        (can_shm_set_linear_probing (run fresh [Op.set_lp ⟨0x10, 1, some [1], 1⟩])
          0x1000 1 (some [2]) 2).2.shm.buckets s
          = (run fresh [Op.set_lp ⟨0x10, 1, some [1], 1⟩]).shm.buckets s) ∧
      (((run fresh [Op.set_lp ⟨0x10, 1, some [1], 1⟩]).shm.buckets
          (idx (can_id_hash 0x1000 + j))).is_valid = 0 →
        valid_count (can_shm_set_linear_probing (run fresh [Op.set_lp ⟨0x10, 1, some [1], 1⟩])
          0x1000 1 (some [2]) 2).2
          = valid_count (run fresh [Op.set_lp ⟨0x10, 1, some [1], 1⟩]) + 1) ∧
      (((run fresh [Op.set_lp ⟨0x10, 1, some [1], 1⟩]).shm.buckets
          (idx (can_id_hash 0x1000 + j))).is_valid ≠ 0 →
        valid_count (can_shm_set_linear_probing (run fresh [Op.set_lp ⟨0x10, 1, some [1], 1⟩])
          0x1000 1 (some [2]) 2).2
          = valid_count (run fresh [Op.set_lp ⟨0x10, 1, some [1], 1⟩])) :=
  set_lp_touches_one_slot (run fresh [Op.set_lp ⟨0x10, 1, some [1], 1⟩]) 0x1000 1 (some [2]) 2
    (by decide)

/-! ## Linear-probing statistics -/

/-- Statistics after the probe loop of `can_shm_set_linear_probing`: on
success a slot at the distance given by `probe_distance_loop` was written,
`current_entries` was incremented when that slot was invalid, and
`max_probe_distance` is the larger of its old value and that distance. -/
theorem set_lp_loop_stats (p : Sys) (k d : Nat) (data : Option (List Nat)) (ts h : Nat) :
    ∀ n i,
      can_shm_set_linear_probing_loop p k d data ts h n i = (CAN_SHM_ERROR_NOT_FOUND, p) ∨
      ∃ j, i ≤ j ∧ j < i + n ∧ probe_distance_loop p k h n i = some j ∧
        (can_shm_set_linear_probing_loop p k d data ts h n i).1 = CAN_SHM_SUCCESS ∧
        (can_shm_set_linear_probing_loop p k d data ts h n i).2.shm.buckets
          = Function.update p.shm.buckets (idx (h + j))
              (lp_written (p.shm.buckets (idx (h + j))) k d data ts) ∧
        (can_shm_set_linear_probing_loop p k d data ts h n i).2.g_hash_stats.current_entries
          = (if (p.shm.buckets (idx (h + j))).is_valid = 0
              then (p.g_hash_stats.current_entries + 1) % U32
              else p.g_hash_stats.current_entries) ∧
        (can_shm_set_linear_probing_loop p k d data ts h n i).2.g_hash_stats.max_probe_distance
          = (if j > p.g_hash_stats.max_probe_distance then j
              else p.g_hash_stats.max_probe_distance) := by
  intro n
  induction n with
  | zero => intro i; exact Or.inl rfl
  | succ n ih =>
    intro i
    by_cases hv : (p.shm.buckets (idx (h + i))).is_valid = 0
    · right
      refine ⟨i, le_refl i, by omega, ?_, ?_, ?_, ?_, ?_⟩ <;>
        simp [can_shm_set_linear_probing_loop, probe_distance_loop, hv, set_found, lp_written]
    · by_cases hid : (p.shm.buckets (idx (h + i))).can_data.can_id = k
      · right
        refine ⟨i, le_refl i, by omega, ?_, ?_, ?_, ?_, ?_⟩ <;>
          simp [can_shm_set_linear_probing_loop, probe_distance_loop, hv, hid, set_found,
            lp_written, write_can_data_with_seqlock]
      · have hstep : can_shm_set_linear_probing_loop p k d data ts h (n + 1) i
            = can_shm_set_linear_probing_loop p k d data ts h n (i + 1) := by
          simp [can_shm_set_linear_probing_loop, hv, hid]
        have hstep2 : probe_distance_loop p k h (n + 1) i
            = probe_distance_loop p k h n (i + 1) := by
          simp [probe_distance_loop, hv, hid]
        rw [hstep, hstep2]
        rcases ih (i + 1) with hnf | ⟨j, h1, h2, h3⟩
        · exact Or.inl hnf
        · exact Or.inr ⟨j, by omega, by omega, h3⟩

/-- Statistics after `can_shm_set_linear_probing`. -/
theorem set_lp_stats (p : Sys) (k d : Nat) (data : Option (List Nat)) (ts : Nat) :
    (∃ e, e ≠ CAN_SHM_SUCCESS ∧ can_shm_set_linear_probing p k d data ts = (e, p)) ∨
    ∃ j, j < MAX_CAN_ENTRIES ∧ probe_distance p k = some j ∧
      (can_shm_set_linear_probing p k d data ts).1 = CAN_SHM_SUCCESS ∧
      (can_shm_set_linear_probing p k d data ts).2.shm.buckets
        = Function.update p.shm.buckets (idx (can_id_hash k + j))
            (lp_written (p.shm.buckets (idx (can_id_hash k + j))) k d data ts) ∧
      (can_shm_set_linear_probing p k d data ts).2.g_hash_stats.current_entries
        = (if (p.shm.buckets (idx (can_id_hash k + j))).is_valid = 0
            then (p.g_hash_stats.current_entries + 1) % U32
            else p.g_hash_stats.current_entries) ∧
      (can_shm_set_linear_probing p k d data ts).2.g_hash_stats.max_probe_distance
        = (if j > p.g_hash_stats.max_probe_distance then j
            else p.g_hash_stats.max_probe_distance) := by
  rcases set_lp_cases p k d data ts with ⟨e, he, heq⟩ | ⟨hinit, hk, hd, hnull, _⟩
  · exact Or.inl ⟨e, he, heq⟩
  · rw [set_lp_eq_loop p k d data ts hinit hk hd hnull]
    rcases set_lp_loop_stats p k d data ts (can_id_hash k) MAX_CAN_ENTRIES 0 with
      hnf | ⟨j, _, h2, h3⟩
    · exact Or.inl ⟨CAN_SHM_ERROR_NOT_FOUND, by decide, hnf⟩
    · exact Or.inr ⟨j, by omega, h3⟩

/-- Statistics after the probe loop of `can_shm_delete_linear_probing`: on
success one valid bucket was cleared and `current_entries` decremented;
`max_probe_distance` is never changed. -/
theorem delete_lp_loop_stats (p : Sys) (k h : Nat) :
    ∀ n i,
      can_shm_delete_linear_probing_loop p k h n i = (CAN_SHM_ERROR_NOT_FOUND, p) ∨
      ∃ j, (p.shm.buckets (idx (h + j))).is_valid ≠ 0 ∧
        (can_shm_delete_linear_probing_loop p k h n i).2.shm.buckets
          = Function.update p.shm.buckets (idx (h + j)) CANBucket.zero ∧
        (can_shm_delete_linear_probing_loop p k h n i).2.g_hash_stats.current_entries
          = (p.g_hash_stats.current_entries + (U32 - 1)) % U32 ∧
        (can_shm_delete_linear_probing_loop p k h n i).2.g_hash_stats.max_probe_distance
          = p.g_hash_stats.max_probe_distance := by
  intro n
  induction n with
  | zero => intro i; exact Or.inl rfl
  | succ n ih =>
    intro i
    by_cases hv : (p.shm.buckets (idx (h + i))).is_valid = 0
    · left
      simp [can_shm_delete_linear_probing_loop, hv]
    · by_cases hid : (p.shm.buckets (idx (h + i))).can_data.can_id = k
      · right
        have hrun : ∀ x, x = (p.g_hash_stats.current_entries + (U32 - 1)) % U32 →
            can_shm_delete_linear_probing_loop p k h (n + 1) i
              = (CAN_SHM_SUCCESS,
                  { p with
                    shm :=
                      { p.shm with
                        buckets := Function.update p.shm.buckets (idx (h + i)) CANBucket.zero }
                    g_hash_stats := { p.g_hash_stats with current_entries := x } }) := by
          intro x hx
          rw [hx]
          unfold can_shm_delete_linear_probing_loop
          rw [if_neg hv, if_pos hid]
          rfl
        obtain ⟨x, hx⟩ : ∃ x, x = (p.g_hash_stats.current_entries + (U32 - 1)) % U32 :=
          ⟨_, rfl⟩
        rw [hrun x hx]
        exact ⟨i, hv, rfl, hx, rfl⟩
      · have hstep : can_shm_delete_linear_probing_loop p k h (n + 1) i
            = can_shm_delete_linear_probing_loop p k h n (i + 1) := by
          simp [can_shm_delete_linear_probing_loop, hv, hid]
        rw [hstep]
        exact ih (i + 1)

/-- Statistics after `can_shm_delete_linear_probing`. -/
theorem delete_lp_stats (p : Sys) (k : Nat) :
    can_shm_delete_linear_probing p k = ((can_shm_delete_linear_probing p k).1, p) ∨
    ∃ t, (p.shm.buckets t).is_valid ≠ 0 ∧
      (can_shm_delete_linear_probing p k).2.shm.buckets
        = Function.update p.shm.buckets t CANBucket.zero ∧
      (can_shm_delete_linear_probing p k).2.g_hash_stats.current_entries
        = (p.g_hash_stats.current_entries + (U32 - 1)) % U32 ∧
      (can_shm_delete_linear_probing p k).2.g_hash_stats.max_probe_distance
        = p.g_hash_stats.max_probe_distance := by
  by_cases h1 : p.g_is_initialized = false
  · left
    simp [can_shm_delete_linear_probing, h1]
  by_cases h2 : is_valid_can_id k = false
  · left
    simp [can_shm_delete_linear_probing, h1, h2]
  have hrun : can_shm_delete_linear_probing p k
      = can_shm_delete_linear_probing_loop p k (can_id_hash k) MAX_CAN_ENTRIES 0 := by
    simp [can_shm_delete_linear_probing, h1, h2]
  rw [hrun]
  rcases delete_lp_loop_stats p k (can_id_hash k) MAX_CAN_ENTRIES 0 with hnf | ⟨j, hj⟩
  · left
    rw [hnf]
  · exact Or.inr ⟨_, hj⟩

theorem fresh_valid_count (p : Sys) (h : Fresh p) : valid_count p = 0 := by
  unfold valid_count
  rw [Finset.card_eq_zero, Finset.filter_eq_empty_iff]
  intro s _ hv
  rw [h.2 s] at hv
  exact hv rfl

/-- One linear-probing operation keeps `current_entries` equal to the number
of valid buckets and does not lower `max_probe_distance`. -/
theorem step_lp_stats (p : Sys) (o : Op) (ho : o.isLp)
    (h : p.g_hash_stats.current_entries = valid_count p) :
    (step p o).2.g_hash_stats.current_entries = valid_count (step p o).2 ∧
    p.g_hash_stats.max_probe_distance ≤ (step p o).2.g_hash_stats.max_probe_distance := by
  cases o with
  | set c => exact absurd ho (fun h => h)
  | set_lp c =>
    show (can_shm_set_linear_probing p c.can_id c.dlc c.data c.ts).2.g_hash_stats.current_entries
        = valid_count (can_shm_set_linear_probing p c.can_id c.dlc c.data c.ts).2 ∧
      p.g_hash_stats.max_probe_distance
        ≤ (can_shm_set_linear_probing p c.can_id c.dlc c.data c.ts).2.g_hash_stats.max_probe_distance
    rcases set_lp_stats p c.can_id c.dlc c.data c.ts with
      ⟨e, _, heq⟩ | ⟨j, _, _, _, hb, hce, hmax⟩
    · rw [heq]
      exact ⟨h, le_refl _⟩
    · have hcount := valid_count_update p
        (can_shm_set_linear_probing p c.can_id c.dlc c.data c.ts).2 _ _ hb
      rw [if_pos (lp_written_valid _ _ _ _ _)] at hcount
      have hle := valid_count_le (can_shm_set_linear_probing p c.can_id c.dlc c.data c.ts).2
      refine ⟨?_, ?_⟩
      · rw [hce]
        by_cases h0 : (p.shm.buckets (idx (can_id_hash c.can_id + j))).is_valid = 0
        · rw [if_pos h0]
          rw [if_neg (not_not.mpr h0)] at hcount
          simp only [U32]
          omega
        · rw [if_neg h0]
          rw [if_pos h0] at hcount
          omega
      · rw [hmax]
        split <;> omega
  | delete_lp k =>
    show (can_shm_delete_linear_probing p k).2.g_hash_stats.current_entries
        = valid_count (can_shm_delete_linear_probing p k).2 ∧
      p.g_hash_stats.max_probe_distance
        ≤ (can_shm_delete_linear_probing p k).2.g_hash_stats.max_probe_distance
    rcases delete_lp_stats p k with heq | ⟨t, hv, hb, hce, hmax⟩
    · rw [heq]
      exact ⟨h, le_refl _⟩
    · have hcount := valid_count_update p (can_shm_delete_linear_probing p k).2 t _ hb
      rw [if_pos hv] at hcount
      have hz : ¬ CANBucket.zero.is_valid ≠ 0 := fun hne => hne rfl
      rw [if_neg hz] at hcount
      have hle := valid_count_le p
      refine ⟨?_, le_of_eq hmax.symm⟩
      rw [hce]
      simp only [U32]
      omega

theorem run_lp_stats (ops : List Op) (hops : ∀ o ∈ ops, o.isLp) :
    ∀ p : Sys, p.g_hash_stats.current_entries = valid_count p →
      (run p ops).g_hash_stats.current_entries = valid_count (run p ops) ∧
      p.g_hash_stats.max_probe_distance ≤ (run p ops).g_hash_stats.max_probe_distance := by
  induction ops with
  | nil => intro p h; exact ⟨h, le_refl _⟩
  | cons o os ih =>
    intro p h
    obtain ⟨h1, h2⟩ := step_lp_stats p o (hops o (List.mem_cons_self _ _)) h
    obtain ⟨h3, h4⟩ := ih (fun x hx => hops x (List.mem_cons_of_mem _ hx)) (step p o).2 h1
    exact ⟨h3, le_trans h2 h4⟩

/-- C39. In a process whose table is freshly initialised and whose
`current_entries` is 0, after any sequence of `can_shm_set_linear_probing`
and `can_shm_delete_linear_probing` calls `g_hash_stats.current_entries`
equals the number of valid buckets, and `max_probe_distance` is at least the
probe distance of every successful set of the sequence. -/
theorem lp_stats_invariant (p0 : Sys) (ops : List Op) (hfresh : Fresh p0)
    (hzero : p0.g_hash_stats.current_entries = 0) (hops : ∀ o ∈ ops, o.isLp) :
    (run p0 ops).g_hash_stats.current_entries = valid_count (run p0 ops) ∧
    ∀ pre c post d, ops = pre ++ Op.set_lp c :: post →
      (step (run p0 pre) (Op.set_lp c)).1 = CAN_SHM_SUCCESS →
      probe_distance (run p0 pre) c.can_id = some d →
      d ≤ (run p0 ops).g_hash_stats.max_probe_distance := by
  have hstart : p0.g_hash_stats.current_entries = valid_count p0 := by
    rw [hzero, fresh_valid_count p0 hfresh]
  refine ⟨(run_lp_stats ops hops p0 hstart).1, fun pre c post d hsplit hsucc hd => ?_⟩
  subst hsplit
  have hpre : ∀ o ∈ pre, o.isLp := fun o ho => hops o (List.mem_append_left _ ho)
  have hpost : ∀ o ∈ post, o.isLp :=
    fun o ho => hops o (List.mem_append_right _ (List.mem_cons_of_mem _ ho))
  have hI := (run_lp_stats pre hpre p0 hstart).1
  have hI2 := (step_lp_stats (run p0 pre) (Op.set_lp c) trivial hI).1
  have hmono := (run_lp_stats post hpost (step (run p0 pre) (Op.set_lp c)).2 hI2).2
  have hrun : run p0 (pre ++ Op.set_lp c :: post)
      = run (step (run p0 pre) (Op.set_lp c)).2 post := by
    rw [run_append]
    rfl
  rw [hrun]
  refine le_trans ?_ hmono
  rw [step_set_lp_eq] at hsucc ⊢
  rcases set_lp_stats (run p0 pre) c.can_id c.dlc c.data c.ts with
    ⟨e, he, heq⟩ | ⟨j, _, hj, _, _, _, hmax⟩
  · rw [heq] at hsucc
    exact absurd hsucc he
  · rw [hj] at hd
    have hjd : j = d := Option.some.inj hd
    rw [hmax, ← hjd]
    split <;> omega

/-- Witness of C39: after two inserts and one delete on the fresh system
`current_entries` equals the number of valid buckets. -/
theorem lp_stats_invariant_witness :
    (run fresh [Op.set_lp ⟨0x10, 1, some [1], 1⟩, Op.set_lp ⟨0x1000, 1, some [2], 2⟩,
      Op.delete_lp 0x10]).g_hash_stats.current_entries
      = valid_count (run fresh [Op.set_lp ⟨0x10, 1, some [1], 1⟩,
          Op.set_lp ⟨0x1000, 1, some [2], 2⟩, Op.delete_lp 0x10]) :=
  (lp_stats_invariant fresh
    [Op.set_lp ⟨0x10, 1, some [1], 1⟩, Op.set_lp ⟨0x1000, 1, some [2], 2⟩, Op.delete_lp 0x10]
    fresh_Fresh rfl
    (by intro x hx; simp at hx; rcases hx with h | h | h <;> subst h <;> trivial)).1

/-! ## The loop of `can_shm_subscribe` -/

theorem live_waits_cons_timed (t : Int) (e : WaitEvent) (es : List WaitEvent)
    (h : 0 ≤ t ∧ e.timed_out = true) : live_waits t (e :: es) = [] := by
  simp [live_waits, h.1, h.2]

theorem live_waits_cons_live (t : Int) (e : WaitEvent) (es : List WaitEvent)
    (h : ¬ (0 ≤ t ∧ e.timed_out = true)) :
    live_waits t (e :: es) = e :: live_waits t es := by
  by_cases ht : 0 ≤ t
  · have he : e.timed_out = false := by
      cases hto : e.timed_out with
      | false => rfl
      | true => exact absurd ⟨ht, hto⟩ h
    simp [live_waits, ht, he]
  · simp [live_waits, ht]

theorem live_waits_length_le (t : Int) (es : List WaitEvent) :
    (live_waits t es).length ≤ es.length := by
  unfold live_waits
  split
  · exact (List.takeWhile_sublist _).length_le
  · exact le_refl _

/-- The loop of `can_shm_subscribe` for `subscribe_count = 0`: it delivers
every due callback of the live waits and ends only by Timeout. -/
theorem subscribe_loop_unbounded (can_id : Nat) (t : Int) :
    ∀ (events : List WaitEvent) (r last : Nat) (calls : List CANData),
      can_shm_subscribe_loop can_id 0 t events r last calls
        = (if (live_waits t events).length < events.length then some CAN_SHM_ERROR_TIMEOUT
            else none,
           calls ++ due_callbacks can_id last (live_waits t events)) := by
  intro events
  induction events with
  | nil =>
    intro r last calls
    simp [can_shm_subscribe_loop, live_waits, due_callbacks]
  | cons e es ih =>
    intro r last calls
    by_cases hto : 0 ≤ t ∧ e.timed_out = true
    · rw [live_waits_cons_timed t e es hto]
      simp [can_shm_subscribe_loop, hto.1, hto.2, due_callbacks]
    · rw [live_waits_cons_live t e es hto]
      by_cases hm : e.bucket.is_valid ≠ 0 ∧ e.bucket.can_data.can_id = can_id
      · by_cases hs : e.bucket.can_data.sequence ≠ last
        · have hdue : e.bucket.is_valid ≠ 0 ∧ e.bucket.can_data.can_id = can_id ∧
              e.bucket.can_data.sequence ≠ last := ⟨hm.1, hm.2, hs⟩
          rw [due_callbacks, if_pos hdue]
          simp [can_shm_subscribe_loop, hto, hm, hs, ih]
        · have hdue : ¬ (e.bucket.is_valid ≠ 0 ∧ e.bucket.can_data.can_id = can_id ∧
              e.bucket.can_data.sequence ≠ last) := fun h => hs h.2.2
          rw [due_callbacks, if_neg hdue]
          simp [can_shm_subscribe_loop, hto, hm, hs, ih]
      · have hdue : ¬ (e.bucket.is_valid ≠ 0 ∧ e.bucket.can_data.can_id = can_id ∧
            e.bucket.can_data.sequence ≠ last) := fun h => hm ⟨h.1, h.2.1⟩
        rw [due_callbacks, if_neg hdue]
        simp [can_shm_subscribe_loop, hto, hm, ih]

/-- The loop of `can_shm_subscribe` for `0 < subscribe_count < 2^32`, entered
with `received_count = r`: Success once `subscribe_count - r` callbacks were
due, otherwise Timeout at the first timed-out wait, otherwise still
waiting. -/
theorem subscribe_loop_bounded (can_id n : Nat) (t : Int) (hn0 : 0 < n) (hn : n < U32) :
    ∀ (events : List WaitEvent) (r last : Nat) (calls : List CANData), r ≤ n →
      can_shm_subscribe_loop can_id n t events r last calls
        = (if n - r ≤ (due_callbacks can_id last (live_waits t events)).length then
            (some CAN_SHM_SUCCESS,
              calls ++ (due_callbacks can_id last (live_waits t events)).take (n - r))
          else if (live_waits t events).length < events.length then
            (some CAN_SHM_ERROR_TIMEOUT,
              calls ++ due_callbacks can_id last (live_waits t events))
          else (none, calls ++ due_callbacks can_id last (live_waits t events))) := by
  intro events
  induction events with
  | nil =>
    intro r last calls hr
    by_cases hrun : r < n
    · have h1 : ¬ n - r ≤ 0 := by omega
      simp [can_shm_subscribe_loop, live_waits, due_callbacks, hrun, h1]
    · have h1 : n - r = 0 := by omega
      have h2 : ¬ (n = 0 ∨ r < n) := by omega
      simp [can_shm_subscribe_loop, live_waits, due_callbacks, h1, h2]
  | cons e es ih =>
    intro r last calls hr
    by_cases hrun : r < n
    · have hc : n = 0 ∨ r < n := Or.inr hrun
      by_cases hto : 0 ≤ t ∧ e.timed_out = true
      · have h1 : ¬ n - r ≤ 0 := by omega
        rw [live_waits_cons_timed t e es hto]
        simp [can_shm_subscribe_loop, hc, hto.1, hto.2, due_callbacks, h1]
      · rw [live_waits_cons_live t e es hto]
        by_cases hm : e.bucket.is_valid ≠ 0 ∧ e.bucket.can_data.can_id = can_id
        · by_cases hs : e.bucket.can_data.sequence ≠ last
          · have hdue : e.bucket.is_valid ≠ 0 ∧ e.bucket.can_data.can_id = can_id ∧
                e.bucket.can_data.sequence ≠ last := ⟨hm.1, hm.2, hs⟩
            have hwrap : (r + 1) % U32 = r + 1 := by
              simp only [U32] at hn ⊢
              omega
            have hstep : can_shm_subscribe_loop can_id n t (e :: es) r last calls
                = can_shm_subscribe_loop can_id n t es (r + 1) e.bucket.can_data.sequence
                    (calls ++ [e.bucket.can_data]) := by
              simp [can_shm_subscribe_loop, hc, hto, hm, hs, hwrap]
            rw [hstep, ih (r + 1) _ _ (by omega), due_callbacks, if_pos hdue]
            have hsub : n - r = (n - (r + 1)) + 1 := by omega
            rw [hsub]
            simp [List.take_succ_cons]
          · have hdue : ¬ (e.bucket.is_valid ≠ 0 ∧ e.bucket.can_data.can_id = can_id ∧
                e.bucket.can_data.sequence ≠ last) := fun h => hs h.2.2
            have hstep : can_shm_subscribe_loop can_id n t (e :: es) r last calls
                = can_shm_subscribe_loop can_id n t es r last calls := by
              simp [can_shm_subscribe_loop, hc, hto, hm, hs]
            rw [hstep, ih r _ _ hr, due_callbacks, if_neg hdue]
            simp
        · have hdue : ¬ (e.bucket.is_valid ≠ 0 ∧ e.bucket.can_data.can_id = can_id ∧
              e.bucket.can_data.sequence ≠ last) := fun h => hm ⟨h.1, h.2.1⟩
          have hstep : can_shm_subscribe_loop can_id n t (e :: es) r last calls
              = can_shm_subscribe_loop can_id n t es r last calls := by
            simp [can_shm_subscribe_loop, hc, hto, hm]
          rw [hstep, ih r _ _ hr, due_callbacks, if_neg hdue]
          simp
    · have h1 : n - r = 0 := by omega
      have h2 : ¬ (n = 0 ∨ r < n) := by omega
      simp [can_shm_subscribe_loop, h1, h2]

/-- On an initialised system, for a valid id and a callback, the result and
the callbacks of `can_shm_subscribe` are those of its loop entered with
`received_count = 0` and the captured baseline. -/
theorem subscribe_eq_loop (p : Sys) (can_id n : Nat) (t : Int) (events : List WaitEvent)
    (hinit : p.g_is_initialized = true) (hid : can_id ≤ CAN_ID_MAX) :
    ((can_shm_subscribe p can_id n t true events).1,
      (can_shm_subscribe p can_id n t true events).2.1)
      = can_shm_subscribe_loop can_id n t events 0 (subscribe_baseline p can_id) [] := by
  have hv := is_valid_can_id_eq_true hid
  simp [can_shm_subscribe, hinit, hv, subscribe_baseline]

/-- The loop of `can_shm_subscribe`, entered with `received_count = 0`,
computes the outcome stated in the words of the specification. -/
theorem subscribe_loop_outcome (can_id n : Nat) (t : Int) (baseline : Nat)
    (events : List WaitEvent) (hn : n < U32) :
    can_shm_subscribe_loop can_id n t events 0 baseline []
      = subscribe_outcome can_id n t baseline events := by
  unfold subscribe_outcome
  by_cases hn0 : n = 0
  · subst hn0
    rw [subscribe_loop_unbounded]
    by_cases hl : (live_waits t events).length < events.length
    · simp [hl]
    · simp [hl]
  · rw [subscribe_loop_bounded can_id n t (by omega) hn events 0 baseline [] (by omega)]
    simp [hn0]

/-- C31. On an initialised system, for a valid id, a callback and a
`subscribe_count` of 32 bits, `can_shm_subscribe` over any sequence of wait
outcomes behaves as the specification says.  The callback is made for a wait
exactly when that wait is examined (it did not time out, and no earlier wait
did), and the bucket seen after it is valid, holds `can_id` and has a version
different from the last captured one.  With `subscribe_count = n > 0` the
result is Success exactly when `n` callbacks were made, these being the first
`n` due ones; otherwise the result is Timeout at the first timed-out wait, and
the call is still waiting when there is none.  When the first wait times out,
as when every wait does, the result is Timeout with no callback. -/
theorem subscribe_loop_semantics (p : Sys) (can_id n : Nat) (t : Int)
    (events : List WaitEvent) (hinit : p.g_is_initialized = true)
    (hid : can_id ≤ CAN_ID_MAX) (hn : n < U32) :
    ((can_shm_subscribe p can_id n t true events).1,
      (can_shm_subscribe p can_id n t true events).2.1)
      = subscribe_outcome can_id n t (subscribe_baseline p can_id) events ∧
    (0 < n → ((can_shm_subscribe p can_id n t true events).1 = some CAN_SHM_SUCCESS ↔
      (can_shm_subscribe p can_id n t true events).2.1.length = n)) ∧
    (0 ≤ t → ∀ e es, events = e :: es → e.timed_out = true →
      (can_shm_subscribe p can_id n t true events).1 = some CAN_SHM_ERROR_TIMEOUT ∧
      (can_shm_subscribe p can_id n t true events).2.1 = []) := by
  have hmain : ((can_shm_subscribe p can_id n t true events).1,
      (can_shm_subscribe p can_id n t true events).2.1)
      = subscribe_outcome can_id n t (subscribe_baseline p can_id) events := by
    rw [subscribe_eq_loop p can_id n t events hinit hid, subscribe_loop_outcome _ _ _ _ _ hn]
  have h1 := congrArg Prod.fst hmain
  have h2 := congrArg Prod.snd hmain
  simp only at h1 h2
  refine ⟨hmain, fun hn0 => ?_, fun ht e es hev hto => ?_⟩
  · rw [h1, h2]
    unfold subscribe_outcome
    by_cases hd : n ≤ (due_callbacks can_id (subscribe_baseline p can_id)
        (live_waits t events)).length
    · have hc : n ≠ 0 ∧ n ≤ (due_callbacks can_id (subscribe_baseline p can_id)
          (live_waits t events)).length := ⟨by omega, hd⟩
      rw [if_pos hc]
      exact ⟨fun _ => (List.length_take _ _).trans (Nat.min_eq_left hd), fun _ => rfl⟩
    · have hc : ¬ (n ≠ 0 ∧ n ≤ (due_callbacks can_id (subscribe_baseline p can_id)
          (live_waits t events)).length) := fun h => hd h.2
      rw [if_neg hc]
      constructor
      · intro h
        split at h <;> simp at h
      · intro h
        split at h
        · exact absurd (le_of_eq h.symm) hd
        · exact absurd (le_of_eq h.symm) hd
  · rw [h1, h2, hev]
    unfold subscribe_outcome
    rw [live_waits_cons_timed t e es ⟨ht, hto⟩]
    have hc : ¬ (n ≠ 0 ∧ n ≤ (due_callbacks can_id (subscribe_baseline p can_id)
        ([] : List WaitEvent)).length) := by
      rintro ⟨h1, h2⟩
      simp [due_callbacks] at h2
      exact h1 h2
    simp only [if_neg hc]
    simp [due_callbacks]

/-- Witness of C31: a subscriber to `0x400` on the fresh system with
`subscribe_count = 1` and a timeout whose single wait times out. -/
theorem subscribe_loop_semantics_witness :
    (can_shm_subscribe fresh 0x400 1 100 true [expired fresh 0x400]).1
      = some CAN_SHM_ERROR_TIMEOUT ∧
    (can_shm_subscribe fresh 0x400 1 100 true [expired fresh 0x400]).2.1 = [] :=
  (subscribe_loop_semantics fresh 0x400 1 100 [expired fresh 0x400] rfl (by decide)
    (by decide)).2.2 (by decide) (expired fresh 0x400) [] rfl rfl

/-! ## Round trip of the default API on reachable states -/

theorem step_EvenVersions (p : Sys) (o : Op) (h : EvenVersions p) :
    EvenVersions (step p o).2 := by
  cases o with
  | set c => exact step_set_EvenVersions p (Op.set c) trivial h
  | set_lp c => exact step_set_EvenVersions p (Op.set_lp c) trivial h
  | delete_lp k =>
    intro s
    have hs := h s
    rcases delete_lp_versions p k s with h1 | h1
    · unfold versionAt at h1
      show ((can_shm_delete_linear_probing p k).2.shm.buckets s).can_data.sequence % 2 = 0
      rw [h1]
      exact hs
    · unfold versionAt at h1
      show ((can_shm_delete_linear_probing p k).2.shm.buckets s).can_data.sequence % 2 = 0
      rw [h1]

/-- Every bucket has an even version after any sequence of `can_shm_set`,
`can_shm_set_linear_probing` and `can_shm_delete_linear_probing` calls on a
state where this holds. -/
theorem run_EvenVersions (ops : List Op) :
    ∀ p : Sys, EvenVersions p → EvenVersions (run p ops) := by
  induction ops with
  | nil => intro p h; exact h
  | cons o os ih => intro p h; exact ih _ (step_EvenVersions p o h)

/-- The bucket array of `stalled`, with its odd version, is not reached from a
freshly initialised region by any sequence of set and delete calls. -/
theorem stalled_not_reachable (p0 : Sys) (ops : List Op) (hfresh : Fresh p0) :
    (run p0 ops).shm.buckets ≠ stalled.shm.buckets := by
  intro h
  have heven := run_EvenVersions ops p0 (fresh_EvenVersions p0 hfresh) (idx (can_id_hash 0x123))
  rw [h] at heven
  revert heven
  decide

/-- C2. For every valid identifier, every `dlc ≤ 64` with its data (`NULL`
allowed when `dlc = 0`) and every prior state of an initialised system whose
buckets are those reached from a freshly initialised region by any sequence
of `can_shm_set`, `can_shm_set_linear_probing` and
`can_shm_delete_linear_probing` calls, the only operations that write a
bucket, `can_shm_set` returns Success and the `can_shm_get` that follows
returns Success with a record whose `can_id`, `dlc` and first `dlc` bytes are
the arguments and whose remaining bytes are zero. -/
theorem default_roundtrip_reachable (p0 p : Sys) (ops : List Op) (k d : Nat)
    (data : Option (List Nat)) (ts : Nat) (out : CANData) (seq2 fuel : Nat)
    (hfresh : Fresh p0) (hinit : p.g_is_initialized = true)
    (hb : p.shm.buckets = (run p0 ops).shm.buckets)
    (hk : k ≤ CAN_ID_MAX) (hd : d ≤ 64) (hnull : d = 0 ∨ data ≠ none) :
    (can_shm_set p k d data ts).1 = CAN_SHM_SUCCESS ∧
    ∃ r q, can_shm_get (can_shm_set p k d data ts).2 k (some out) seq2 (fuel + 1)
        = some (CAN_SHM_SUCCESS, some r, q) ∧
      r.can_id = k ∧ r.dlc = d ∧
      (∀ i : Fin 64, i.val < d → r.data i = byteAt data i.val) ∧
      (∀ i : Fin 64, d ≤ i.val → r.data i = 0) := by
  have heven : (p.shm.buckets (idx (can_id_hash k))).can_data.sequence % 2 = 0 := by
    rw [hb]
    exact run_EvenVersions ops p0 (fresh_EvenVersions p0 hfresh) (idx (can_id_hash k))
  exact default_set_get_roundtrip p k d data ts out seq2 fuel hinit hk hd hnull heven

/-- Witness of C2: after an 8-byte value of `0x100`, a colliding insert and a
delete, a 4-byte value of `0x100` is set and read back. -/
theorem default_roundtrip_reachable_witness :
    (can_shm_set
      (run fresh [Op.set ⟨0x100, 8, some [1, 2, 3, 4, 5, 6, 7, 8], 5⟩,
        Op.set_lp ⟨0x10, 1, some [9], 6⟩, Op.delete_lp 0x10])
      0x100 4 (some [0xAA, 0xBB, 0xCC, 0xDD]) 7).1 = CAN_SHM_SUCCESS ∧
    ∃ r q, can_shm_get
        (can_shm_set
          (run fresh [Op.set ⟨0x100, 8, some [1, 2, 3, 4, 5, 6, 7, 8], 5⟩,
            Op.set_lp ⟨0x10, 1, some [9], 6⟩, Op.delete_lp 0x10])
          0x100 4 (some [0xAA, 0xBB, 0xCC, 0xDD]) 7).2 0x100 (some CANData.zero) 0 (0 + 1)
        = some (CAN_SHM_SUCCESS, some r, q) ∧
      r.can_id = 0x100 ∧ r.dlc = 4 ∧
      (∀ i : Fin 64, i.val < 4 → r.data i = byteAt (some [0xAA, 0xBB, 0xCC, 0xDD]) i.val) ∧
      (∀ i : Fin 64, 4 ≤ i.val → r.data i = 0) :=
  default_roundtrip_reachable fresh
    (run fresh [Op.set ⟨0x100, 8, some [1, 2, 3, 4, 5, 6, 7, 8], 5⟩,
      Op.set_lp ⟨0x10, 1, some [9], 6⟩, Op.delete_lp 0x10])
    [Op.set ⟨0x100, 8, some [1, 2, 3, 4, 5, 6, 7, 8], 5⟩,
      Op.set_lp ⟨0x10, 1, some [9], 6⟩, Op.delete_lp 0x10]
    0x100 4 (some [0xAA, 0xBB, 0xCC, 0xDD]) 7 CANData.zero 0 0
    fresh_Fresh (by decide) rfl (by decide) (by decide) (Or.inr (by simp))

end CanShm
